import Mathlib

/-! # Ethereal: move generation and attack detection

A shallow embedding of `src/src/movegen.c`, `src/src/bitutils.c` and
`src/EtherealBB/bitboards.h`.

* The headers that `movegen.c` and `bitutils.c` include lie in their own directory and are
  not part of `src/`; what they declare is modelled from the specification.

* A `uint64_t` is a natural number; left shifts and complements are cut to 64 bits.
* A colour is a `Bool`: `WHITE = 0` is `false`, `BLACK = 1` is `true`, and C's `!` on a
  colour is `Bool.not`.
* C truth values (`int` 1 / 0) returned by the queries are `true` / `false`.
* The output buffer `moves` with its counter `*size` is a list: `moves[(*size)++] = m`
  appends `m`.
* `assert` is a debug-build check (section 7 of the specification); the release
  behaviour is embedded.
-/

namespace Ethereal

/-! ## src/EtherealBB/bitboards.h

The constants of this header, with the values of its initialisers. `movegen.c` and
`bitutils.c` include the `bitboards.h` of their own directory, which is not part of `src/`;
the masks they use are modelled further below. -/

namespace EtherealBB

def WhiteCastleKingSide : Nat := (1 <<< 5) + (1 <<< 6)
def BlackCastleKingSide : Nat := (1 <<< 61) + (1 <<< 62)
def WhiteCastleQueenSide : Nat := (1 <<< 1) + (1 <<< 2) + (1 <<< 3)
def BlackCastleQueenSide : Nat := (1 <<< 57) + (1 <<< 58) + (1 <<< 59)

def RANK_8 : Nat := 0xFF00000000000000
def RANK_7 : Nat := 0x00FF000000000000
def RANK_6 : Nat := 0x0000FF0000000000
def RANK_5 : Nat := 0x000000FF00000000
def RANK_4 : Nat := 0x00000000FF000000
def RANK_3 : Nat := 0x0000000000FF0000
def RANK_2 : Nat := 0x000000000000FF00
def RANK_1 : Nat := 0x00000000000000FF

def FILE_A : Nat := 9259542123273814144
def FILE_B : Nat := 4629771061636907072
def FILE_C : Nat := 2314885530818453536
def FILE_D : Nat := 1157442765409226768
def FILE_E : Nat := 578721382704613384
def FILE_F : Nat := 289360691352306692
def FILE_G : Nat := 144680345676153346
def FILE_H : Nat := 72340172838076673

end EtherealBB

/-! ## The masks `movegen.c` takes from the `bitboards.h` of its own directory -/

/-- Modelled from the spec: the header is absent from `src/`; with `square = rank * 8 + file`
(section 3) rank 8 is the squares 56..63. -/
def RANK_8 : Nat := 0xFF00000000000000
/-- Modelled from the spec: see `RANK_8`; rank 6 is the squares 40..47. -/
def RANK_6 : Nat := 0x0000FF0000000000
/-- Modelled from the spec: see `RANK_8`; rank 3 is the squares 16..23. -/
def RANK_3 : Nat := 0x0000000000FF0000
/-- Modelled from the spec: see `RANK_8`; rank 1 is the squares 0..7. -/
def RANK_1 : Nat := 0x00000000000000FF

/-- Modelled from the spec: the header is absent from `src/`; with `a1 = 0` and `h1 = 7`
(section 3) file A is the squares 0, 8, ..., 56. -/
def FILE_A : Nat := 0x0101010101010101
/-- Modelled from the spec: see `FILE_A`; file H is the squares 7, 15, ..., 63, the mask
`notFileH` of section 4.E clears for the captures by a shift of 7. -/
def FILE_H : Nat := 0x8080808080808080

/-! ## 64-bit arithmetic -/

/-- The C expression `x << k` on `uint64_t`. -/
def shl64 (x k : Nat) : Nat := (x <<< k) % 2 ^ 64

/-- The C expression `~x` on `uint64_t`. -/
def not64 (x : Nat) : Nat := (2 ^ 64 - 1) ^^^ (x % 2 ^ 64)

/-! ## Names the sources use whose headers are not part of `src/` -/

/-- Modelled from the spec: `types.h` is absent; section 3 gives `WHITE = 0`. -/
def WHITE : Bool := false
/-- Modelled from the spec: `types.h` is absent; section 3 gives `BLACK = 1`. -/
def BLACK : Bool := true

/-- Modelled from the spec: `piece.h` is absent; the piece types in the order of section 3
index `pieces[0..5]`. -/
def PAWN : Nat := 0
/-- Modelled from the spec: see `PAWN`. -/
def KNIGHT : Nat := 1
/-- Modelled from the spec: see `PAWN`. -/
def BISHOP : Nat := 2
/-- Modelled from the spec: see `PAWN`. -/
def ROOK : Nat := 3
/-- Modelled from the spec: see `PAWN`. -/
def QUEEN : Nat := 4
/-- Modelled from the spec: see `PAWN`. -/
def KING : Nat := 5

/-- Modelled from the spec: `piece.h` is absent; a coloured piece is `2 * type + colour`. -/
def makePiece (type : Nat) (colour : Bool) : Nat := 2 * type + colour.toNat
/-- Modelled from the spec: see `makePiece`. -/
def WHITE_PAWN : Nat := makePiece PAWN WHITE
/-- Modelled from the spec: see `makePiece`. -/
def BLACK_PAWN : Nat := makePiece PAWN BLACK
/-- Modelled from the spec: `piece.h` is absent; the distinguished value of an empty square. -/
def EMPTY : Nat := 12

/-- Modelled from the spec: `castle.h` is absent; `castleRights` is the four-bit mask
`{WK, WQ, BK, BQ}`. -/
def WHITE_KING_RIGHTS : Nat := 1
/-- Modelled from the spec: see `WHITE_KING_RIGHTS`. -/
def WHITE_QUEEN_RIGHTS : Nat := 2
/-- Modelled from the spec: see `WHITE_KING_RIGHTS`. -/
def BLACK_KING_RIGHTS : Nat := 4
/-- Modelled from the spec: see `WHITE_KING_RIGHTS`. -/
def BLACK_QUEEN_RIGHTS : Nat := 8

/-- Modelled from the spec: the macro is absent from `src/`; the path squares between king
and rook, with the value `src/EtherealBB/bitboards.h` gives `WhiteCastleKingSide`. -/
def WHITE_CASTLE_KING_SIDE_MAP : Nat := EtherealBB.WhiteCastleKingSide
/-- Modelled from the spec: see `WHITE_CASTLE_KING_SIDE_MAP`. -/
def WHITE_CASTLE_QUEEN_SIDE_MAP : Nat := EtherealBB.WhiteCastleQueenSide
/-- Modelled from the spec: see `WHITE_CASTLE_KING_SIDE_MAP`. -/
def BLACK_CASTLE_KING_SIDE_MAP : Nat := EtherealBB.BlackCastleKingSide
/-- Modelled from the spec: see `WHITE_CASTLE_KING_SIDE_MAP`. -/
def BLACK_CASTLE_QUEEN_SIDE_MAP : Nat := EtherealBB.BlackCastleQueenSide

/-! ### move.h: the 16-bit move word -/

/-- Modelled from the spec: `move.h` is absent; the flag lives in bits 12..15. -/
def NORMAL_MOVE : Nat := 0 <<< 12
/-- Modelled from the spec: see `NORMAL_MOVE`. -/
def CASTLE_MOVE : Nat := 1 <<< 12
/-- Modelled from the spec: see `NORMAL_MOVE`. -/
def ENPASS_MOVE : Nat := 2 <<< 12
/-- Modelled from the spec: see `NORMAL_MOVE`. -/
def KNIGHT_PROMO_MOVE : Nat := 3 <<< 12
/-- Modelled from the spec: see `NORMAL_MOVE`. -/
def BISHOP_PROMO_MOVE : Nat := 7 <<< 12
/-- Modelled from the spec: see `NORMAL_MOVE`. -/
def ROOK_PROMO_MOVE : Nat := 11 <<< 12
/-- Modelled from the spec: see `NORMAL_MOVE`. -/
def QUEEN_PROMO_MOVE : Nat := 15 <<< 12

/-- Modelled from the spec: `move.h` is absent; bits 0..5 hold the from-square, bits 6..11
the to-square, bits 12..15 the flag. The squares are C `int`s. -/
def MoveMake (fromSq toSq : Int) (flag : Nat) : Nat :=
  fromSq.toNat ||| (toSq.toNat <<< 6) ||| flag

/-- Modelled from the spec: bits 0..5 of a move. -/
def MoveFrom (m : Nat) : Nat := m &&& 63
/-- Modelled from the spec: bits 6..11 of a move. -/
def MoveTo (m : Nat) : Nat := (m >>> 6) &&& 63
/-- Modelled from the spec: bits 12..15 of a move, in place. -/
def MoveType (m : Nat) : Nat := m &&& (15 <<< 12)

/-! ### bitutils.h: the lowest set bit -/

/-- Search upwards from bit `i` for a set bit, looking at `fuel` positions. -/
def lsbFrom : Nat → Nat → Nat → Nat
  | 0, i, _ => i
  | fuel + 1, i, bb => if bb.testBit i then i else lsbFrom fuel (i + 1) bb

/-- Modelled from the spec: the macro `getLSB` is absent from `src/`; the index of the
lowest set bit of a non-zero 64-bit mask (64 when none of the 64 bits is set). -/
def getLSB (bb : Nat) : Nat := lsbFrom 64 0 bb

/-- The loop `while (bb) { lsb = getLSB(bb); ...; bb ^= 1ull << lsb; }`, yielding the
values `lsb` takes; `fuel` bounds the number of iterations. -/
def bitLoop : Nat → Nat → List Nat
  | 0, _ => []
  | fuel + 1, bb =>
    if bb = 0 then [] else getLSB bb :: bitLoop fuel (bb ^^^ (1 <<< getLSB bb))

/-- Modelled from the spec: `bit_iter(b)` of section 4.A; a 64-bit mask has at most 64 set
bits, so 64 iterations exhaust it. -/
def bitIter (bb : Nat) : List Nat := bitLoop 64 bb

/-! ### bitutils.c: counting and listing the set bits -/

/-- The table `LsbTable` (bitutils.c, lines 25-34). -/
def LsbTable : List Nat :=
  [ 0, 47,  1, 56, 48, 27,  2, 60,
   57, 49, 41, 37, 28, 16,  3, 61,
   54, 58, 35, 52, 50, 42, 21, 44,
   38, 32, 29, 23, 17, 11,  4, 62,
   46, 55, 26, 59, 40, 36, 15, 53,
   34, 51, 20, 43, 31, 22, 10, 45,
   25, 39, 14, 33, 19, 30,  9, 24,
   13, 18,  8, 12,  7,  6,  5, 63]

/-- The loop of `countSetBits` (bitutils.c, lines 42-45); `fuel` bounds the number of times
the loop condition is tested, and `none` means that the bound was reached. -/
def countSetBitsLoop : Nat → Nat → Int → Option Int
  | 0, _, _ => none
  | fuel + 1, bb, count =>
    if bb = 0 then some count
    else countSetBitsLoop fuel (bb ^^^ (1 <<< getLSB bb)) (count + 1)

/-- The function `countSetBits` (bitutils.c, lines 38-48). A 64-bit value makes the loop
test its condition at most 65 times. -/
def countSetBits (bb : Nat) : Option Int := countSetBitsLoop 65 bb 0

/-- The function `popcount` (bitutils.c, lines 59-64); the table `BitCounts` is its first
argument. -/
def popcount (BitCounts : Nat → Int) (bb : Nat) : Int :=
  BitCounts (bb >>> 0 &&& 0xFFFF)
    + BitCounts (bb >>> 16 &&& 0xFFFF)
    + BitCounts (bb >>> 32 &&& 0xFFFF)
    + BitCounts (bb >>> 48 &&& 0xFFFF)

/-- The loop of `getSetBits` (bitutils.c, lines 79-83) with the store that follows it
(line 85); the array is a function of its index, `count` only grows from 0, and `fuel`
bounds the number of times the loop condition is tested. -/
def getSetBitsLoop : Nat → Nat → (Nat → Int) → Nat → Option (Nat → Int)
  | 0, _, _, _ => none
  | fuel + 1, bb, arr, count =>
    if bb = 0 then some (Function.update arr count (-1))
    else
      let lsb := getLSB bb
      getSetBitsLoop fuel (bb ^^^ (1 <<< lsb)) (Function.update arr count (lsb : Int))
        (count + 1)

/-- The function `getSetBits` (bitutils.c, lines 75-86). -/
def getSetBits (bb : Nat) (arr : Nat → Int) : Option (Nat → Int) := getSetBitsLoop 65 bb arr 0

/-- The indices of the set bits of a 64-bit value, in ascending order. -/
def setBits (bb : Nat) : List Nat := (List.range 64).filter fun i => bb.testBit i

/-! ### magics.h: the attack tables, by geometry -/

def fileOf (sq : Nat) : Nat := sq % 8
def rankOf (sq : Nat) : Nat := sq / 8

/-- The bitboard of the squares `0..63` that satisfy `p`. -/
def ofPred (p : Nat → Bool) : Nat :=
  (List.range 64).foldl (fun acc i => if p i then acc ||| (1 <<< i) else acc) 0

/-- Square `u` lies in the rectangle spanned by `s` and `t` and is neither of them. -/
def inBox (s t u : Nat) : Bool :=
  decide (u ≠ s) && decide (u ≠ t)
    && decide (min (fileOf s) (fileOf t) ≤ fileOf u)
    && decide (fileOf u ≤ max (fileOf s) (fileOf t))
    && decide (min (rankOf s) (rankOf t) ≤ rankOf u)
    && decide (rankOf u ≤ max (rankOf s) (rankOf t))

/-- Squares `s` and `t` are distinct squares of one diagonal. -/
def onDiag (s t : Nat) : Bool :=
  decide (s ≠ t) && decide (Nat.dist (fileOf s) (fileOf t) = Nat.dist (rankOf s) (rankOf t))

/-- Squares `s` and `t` are distinct squares of one rank or one file. -/
def onLine (s t : Nat) : Bool :=
  decide (s ≠ t) && (decide (fileOf s = fileOf t) || decide (rankOf s = rankOf t))

/-- Modelled from the spec: the table is absent from `src/`; the squares a knight on `sq`
attacks, the eight `±(1,2)`, `±(2,1)` offsets that stay on the board. -/
def KnightMap (sq : Nat) : Nat :=
  ofPred fun t =>
    (decide (Nat.dist (fileOf sq) (fileOf t) = 1) && decide (Nat.dist (rankOf sq) (rankOf t) = 2))
    || (decide (Nat.dist (fileOf sq) (fileOf t) = 2)
        && decide (Nat.dist (rankOf sq) (rankOf t) = 1))

/-- Modelled from the spec: the table is absent from `src/`; the 3×3 neighbourhood of `sq`
minus `sq`. -/
def KingMap (sq : Nat) : Nat :=
  ofPred fun t =>
    decide (t ≠ sq) && decide (Nat.dist (fileOf sq) (fileOf t) ≤ 1)
      && decide (Nat.dist (rankOf sq) (rankOf t) ≤ 1)

/-- Modelled from the spec: the magic tables are absent from `src/`; the sliding-attack mask
of a bishop on `sq` under `occupancy`: the squares of its diagonals with no occupied square
strictly between. The attacker need not be in `occupancy`. -/
def BishopMap (sq occupancy : Nat) : Nat :=
  ofPred fun t =>
    onDiag sq t && (List.range 64).all fun u =>
      !(inBox sq t u && onDiag sq u && onDiag t u && occupancy.testBit u)

/-- Modelled from the spec: the magic tables are absent from `src/`; the sliding-attack mask
of a rook on `sq` under `occupancy`: the squares of its rank and file with no occupied
square strictly between. -/
def RookMap (sq occupancy : Nat) : Nat :=
  ofPred fun t =>
    onLine sq t && (List.range 64).all fun u => !(inBox sq t u && occupancy.testBit u)

/-- Modelled from the spec: contract of `XAttacks(sq, targets)` in section 4.C. -/
def KnightAttacks (sq targets : Nat) : Nat := KnightMap sq &&& targets
/-- Modelled from the spec: contract of `XAttacks(sq, occupancy, targets)` in section 4.C. -/
def BishopAttacks (sq occupancy targets : Nat) : Nat := BishopMap sq occupancy &&& targets
/-- Modelled from the spec: contract of `XAttacks(sq, occupancy, targets)` in section 4.C. -/
def RookAttacks (sq occupancy targets : Nat) : Nat := RookMap sq occupancy &&& targets
/-- Modelled from the spec: contract of `XAttacks(sq, targets)` in section 4.C. -/
def KingAttacks (sq targets : Nat) : Nat := KingMap sq &&& targets

/-! ## The position (types.h, modelled from section 3 of the specification) -/

/-- Modelled from the spec: `types.h` is absent; the `Board` of section 3. Arrays are
functions of their index; `squares` is read at C `int` indices. -/
structure Board where
  pieces : Nat → Nat
  colours : Bool → Nat
  squares : Int → Nat
  turn : Bool
  castleRights : Nat
  epSquare : Int
  fiftyMoveRule : Nat
  hash : Nat

/-! ## movegen.h: the move-list builders -/

/-- Modelled from the spec: the builder is absent from `src/`; one `NORMAL` move per set bit
of `attacks`, in bit-scan order, from `lsb + delta` to `lsb`. -/
def buildPawnMoves (moves : List Nat) (attacks : Nat) (delta : Int) : List Nat :=
  moves ++ (bitIter attacks).map fun (lsb : Nat) => MoveMake ((lsb : Int) + delta) lsb NORMAL_MOVE

/-- Modelled from the spec: the builder is absent from `src/`; four moves per set bit of
`attacks`, in the order queen, rook, bishop, knight. -/
def buildPawnPromotions (moves : List Nat) (attacks : Nat) (delta : Int) : List Nat :=
  moves ++ (bitIter attacks).flatMap fun (lsb : Nat) =>
    [MoveMake ((lsb : Int) + delta) lsb QUEEN_PROMO_MOVE,
     MoveMake ((lsb : Int) + delta) lsb ROOK_PROMO_MOVE,
     MoveMake ((lsb : Int) + delta) lsb BISHOP_PROMO_MOVE,
     MoveMake ((lsb : Int) + delta) lsb KNIGHT_PROMO_MOVE]

/-- The `NORMAL` moves from square `bit` to the set bits of `attackable`. -/
def buildNonPawnMoves (bit attackable : Nat) : List Nat :=
  (bitIter attackable).map fun (lsb : Nat) => MoveMake bit lsb NORMAL_MOVE

/-- Modelled from the spec: the builder is absent from `src/`; for each set bit of `pieces`
the moves to `KnightAttacks(bit, targets)`. -/
def buildKnightMoves (moves : List Nat) (pieces targets : Nat) : List Nat :=
  moves ++ (bitIter pieces).flatMap fun bit => buildNonPawnMoves bit (KnightAttacks bit targets)

/-- Modelled from the spec: the builder is absent from `src/`; for each set bit of `pieces`
the moves to `BishopAttacks(bit, notEmpty, targets)`. -/
def buildBishopAndQueenMoves (moves : List Nat) (pieces notEmpty targets : Nat) : List Nat :=
  moves ++ (bitIter pieces).flatMap fun bit =>
    buildNonPawnMoves bit (BishopAttacks bit notEmpty targets)

/-- Modelled from the spec: the builder is absent from `src/`; for each set bit of `pieces`
the moves to `RookAttacks(bit, notEmpty, targets)`. -/
def buildRookAndQueenMoves (moves : List Nat) (pieces notEmpty targets : Nat) : List Nat :=
  moves ++ (bitIter pieces).flatMap fun bit =>
    buildNonPawnMoves bit (RookAttacks bit notEmpty targets)

/-- Modelled from the spec: the builder is absent from `src/`; for each set bit of `pieces`
the moves to `KingAttacks(bit, targets)`. -/
def buildKingMoves (moves : List Nat) (pieces targets : Nat) : List Nat :=
  moves ++ (bitIter pieces).flatMap fun bit => buildNonPawnMoves bit (KingAttacks bit targets)

/-! ## movegen.c -/

/-- The function `squareIsAttacked` (movegen.c, lines 428-469). -/
def squareIsAttacked (board : Board) (turn : Bool) (sq : Nat) : Bool :=
  let friendly := board.colours turn
  let enemy := board.colours (!turn)
  let notEmpty := friendly ||| enemy
  let enemyPawns := enemy &&& board.pieces PAWN
  let enemyKnights := enemy &&& board.pieces KNIGHT
  let enemyBishops := enemy &&& board.pieces BISHOP
  let enemyRooks := enemy &&& board.pieces ROOK
  let enemyQueens := enemy &&& board.pieces QUEEN
  let enemyKings := enemy &&& board.pieces KING
  let enemyBishops := enemyBishops ||| enemyQueens
  let enemyRooks := enemyRooks ||| enemyQueens
  let square := shl64 1 sq
  if (if turn == WHITE then
        ((shl64 square 7 &&& not64 FILE_H) ||| (shl64 square 9 &&& not64 FILE_A))
          &&& enemyPawns != 0
      else
        ((square >>> 7 &&& not64 FILE_A) ||| (square >>> 9 &&& not64 FILE_H))
          &&& enemyPawns != 0) then true
  else if enemyKnights != 0 && KnightAttacks sq enemyKnights != 0 then true
  else if enemyBishops != 0 && BishopAttacks sq notEmpty enemyBishops != 0 then true
  else if enemyRooks != 0 && RookAttacks sq notEmpty enemyRooks != 0 then true
  else if KingAttacks sq enemyKings != 0 then true
  else false

/-- The function `isNotInCheck` (movegen.c, lines 412-416). -/
def isNotInCheck (board : Board) (turn : Bool) : Bool :=
  let kingsq := getLSB (board.colours turn &&& board.pieces KING)
  !squareIsAttacked board turn kingsq

/-- The castle block of `genAllMoves` (movegen.c, lines 172-204), which
`genAllQuietMoves` repeats word for word (lines 369-400). -/
def genCastles (board : Board) (moves : List Nat) (notEmpty : Nat) : List Nat :=
  if isNotInCheck board board.turn then
    if board.turn == WHITE then
      let moves :=
        if notEmpty &&& WHITE_CASTLE_KING_SIDE_MAP == 0
            && board.castleRights &&& WHITE_KING_RIGHTS != 0
            && !squareIsAttacked board WHITE 5 then
          moves ++ [MoveMake 4 6 CASTLE_MOVE]
        else moves
      if notEmpty &&& WHITE_CASTLE_QUEEN_SIDE_MAP == 0
          && board.castleRights &&& WHITE_QUEEN_RIGHTS != 0
          && !squareIsAttacked board WHITE 3 then
        moves ++ [MoveMake 4 2 CASTLE_MOVE]
      else moves
    else
      let moves :=
        if notEmpty &&& BLACK_CASTLE_KING_SIDE_MAP == 0
            && board.castleRights &&& BLACK_KING_RIGHTS != 0
            && !squareIsAttacked board BLACK 61 then
          moves ++ [MoveMake 60 62 CASTLE_MOVE]
        else moves
      if notEmpty &&& BLACK_CASTLE_QUEEN_SIDE_MAP == 0
          && board.castleRights &&& BLACK_QUEEN_RIGHTS != 0
          && !squareIsAttacked board BLACK 59 then
        moves ++ [MoveMake 60 58 CASTLE_MOVE]
      else moves
  else moves

/-- The builder calls that close `genAllMoves` (movegen.c, lines 155-204), after the colour
branch has set the pawn bitboards and the shifts. -/
def genAllMovesBuild (board : Board) (moves : List Nat)
    (pawnForwardOne pawnForwardTwo pawnLeft pawnRight : Nat)
    (pawnPromoForward pawnPromoLeft pawnPromoRight : Nat)
    (forwardShift leftShift rightShift : Int)
    (myKnights myBishops myRooks myKings notEmpty notFriendly : Nat) : List Nat :=
  let moves := buildPawnMoves moves pawnForwardOne forwardShift
  let moves := buildPawnMoves moves pawnForwardTwo (2 * forwardShift)
  let moves := buildPawnMoves moves pawnLeft leftShift
  let moves := buildPawnMoves moves pawnRight rightShift
  let moves := buildPawnPromotions moves pawnPromoForward forwardShift
  let moves := buildPawnPromotions moves pawnPromoLeft leftShift
  let moves := buildPawnPromotions moves pawnPromoRight rightShift
  let moves := buildKnightMoves moves myKnights notFriendly
  let moves := buildBishopAndQueenMoves moves myBishops notEmpty notFriendly
  let moves := buildRookAndQueenMoves moves myRooks notEmpty notFriendly
  let moves := buildKingMoves moves myKings notFriendly
  genCastles board moves notEmpty

/-- The function `genAllMoves` (movegen.c, lines 68-204). -/
def genAllMoves (board : Board) (moves : List Nat) : List Nat :=
  let epSquare := board.epSquare
  let friendly := board.colours board.turn
  let enemy := board.colours (!board.turn)
  let empty := not64 (friendly ||| enemy)
  let notEmpty := not64 empty
  let notFriendly := not64 friendly
  let myPawns := friendly &&& board.pieces PAWN
  let myKnights := friendly &&& board.pieces KNIGHT
  let myBishops := friendly &&& board.pieces BISHOP
  let myRooks := friendly &&& board.pieces ROOK
  let myQueens := friendly &&& board.pieces QUEEN
  let myKings := friendly &&& board.pieces KING
  let myBishops := myBishops ||| myQueens
  let myRooks := myRooks ||| myQueens
  if board.turn == WHITE then
    let forwardShift : Int := -8
    let leftShift : Int := -7
    let rightShift : Int := -9
    let pawnForwardOne := shl64 myPawns 8 &&& empty
    let pawnForwardTwo := shl64 (pawnForwardOne &&& RANK_3) 8 &&& empty
    let pawnLeft := (shl64 myPawns 7 &&& not64 FILE_H) &&& enemy
    let pawnRight := (shl64 myPawns 9 &&& not64 FILE_A) &&& enemy
    let pawnPromoForward := pawnForwardOne &&& RANK_8
    let pawnPromoLeft := pawnLeft &&& RANK_8
    let pawnPromoRight := pawnRight &&& RANK_8
    let pawnForwardOne := pawnForwardOne &&& not64 RANK_8
    let pawnLeft := pawnLeft &&& not64 RANK_8
    let pawnRight := pawnRight &&& not64 RANK_8
    let moves :=
      if epSquare != -1 then
        let moves :=
          if board.squares (epSquare - 7) == WHITE_PAWN && epSquare != 47 then
            moves ++ [MoveMake (epSquare - 7) epSquare ENPASS_MOVE]
          else moves
        if board.squares (epSquare - 9) == WHITE_PAWN && epSquare != 40 then
          moves ++ [MoveMake (epSquare - 9) epSquare ENPASS_MOVE]
        else moves
      else moves
    genAllMovesBuild board moves pawnForwardOne pawnForwardTwo pawnLeft pawnRight
      pawnPromoForward pawnPromoLeft pawnPromoRight forwardShift leftShift rightShift
      myKnights myBishops myRooks myKings notEmpty notFriendly
  else
    let forwardShift : Int := 8
    let leftShift : Int := 7
    let rightShift : Int := 9
    let pawnForwardOne := (myPawns >>> 8) &&& empty
    let pawnForwardTwo := ((pawnForwardOne &&& RANK_6) >>> 8) &&& empty
    let pawnLeft := ((myPawns >>> 7) &&& not64 FILE_A) &&& enemy
    let pawnRight := ((myPawns >>> 9) &&& not64 FILE_H) &&& enemy
    let pawnPromoForward := pawnForwardOne &&& RANK_1
    let pawnPromoLeft := pawnLeft &&& RANK_1
    let pawnPromoRight := pawnRight &&& RANK_1
    let pawnForwardOne := pawnForwardOne &&& not64 RANK_1
    let pawnLeft := pawnLeft &&& not64 RANK_1
    let pawnRight := pawnRight &&& not64 RANK_1
    let moves :=
      if epSquare != -1 then
        let moves :=
          if board.squares (epSquare + 7) == BLACK_PAWN && epSquare != 16 then
            moves ++ [MoveMake (epSquare + 7) epSquare ENPASS_MOVE]
          else moves
        if board.squares (epSquare + 9) == BLACK_PAWN && epSquare != 23 then
          moves ++ [MoveMake (epSquare + 9) epSquare ENPASS_MOVE]
        else moves
      else moves
    genAllMovesBuild board moves pawnForwardOne pawnForwardTwo pawnLeft pawnRight
      pawnPromoForward pawnPromoLeft pawnPromoRight forwardShift leftShift rightShift
      myKnights myBishops myRooks myKings notEmpty notFriendly

/-- The builder calls that close `genAllNoisyMoves` (movegen.c, lines 296-309). -/
def genAllNoisyMovesBuild (moves : List Nat)
    (pawnLeft pawnRight pawnPromoForward pawnPromoLeft pawnPromoRight : Nat)
    (forwardShift leftShift rightShift : Int)
    (myKnights myBishops myRooks myKings notEmpty enemy : Nat) : List Nat :=
  let moves := buildPawnMoves moves pawnLeft leftShift
  let moves := buildPawnMoves moves pawnRight rightShift
  let moves := buildPawnPromotions moves pawnPromoForward forwardShift
  let moves := buildPawnPromotions moves pawnPromoLeft leftShift
  let moves := buildPawnPromotions moves pawnPromoRight rightShift
  let moves := buildKnightMoves moves myKnights enemy
  let moves := buildBishopAndQueenMoves moves myBishops notEmpty enemy
  let moves := buildRookAndQueenMoves moves myRooks notEmpty enemy
  buildKingMoves moves myKings enemy

/-- The function `genAllNoisyMoves` (movegen.c, lines 218-310). -/
def genAllNoisyMoves (board : Board) (moves : List Nat) : List Nat :=
  let epSquare := board.epSquare
  let friendly := board.colours board.turn
  let enemy := board.colours (!board.turn)
  let empty := not64 (friendly ||| enemy)
  let notEmpty := not64 empty
  let myPawns := friendly &&& board.pieces PAWN
  let myKnights := friendly &&& board.pieces KNIGHT
  let myBishops := friendly &&& board.pieces BISHOP
  let myRooks := friendly &&& board.pieces ROOK
  let myQueens := friendly &&& board.pieces QUEEN
  let myKings := friendly &&& board.pieces KING
  let myBishops := myBishops ||| myQueens
  let myRooks := myRooks ||| myQueens
  if board.turn == WHITE then
    let forwardShift : Int := -8
    let leftShift : Int := -7
    let rightShift : Int := -9
    let pawnLeft := (shl64 myPawns 7 &&& not64 FILE_H) &&& enemy
    let pawnRight := (shl64 myPawns 9 &&& not64 FILE_A) &&& enemy
    let pawnPromoForward := shl64 myPawns 8 &&& empty &&& RANK_8
    let pawnPromoLeft := pawnLeft &&& RANK_8
    let pawnPromoRight := pawnRight &&& RANK_8
    let pawnLeft := pawnLeft &&& not64 RANK_8
    let pawnRight := pawnRight &&& not64 RANK_8
    let moves :=
      if epSquare != -1 then
        let moves :=
          if board.squares (epSquare - 7) == WHITE_PAWN && epSquare != 47 then
            moves ++ [MoveMake (epSquare - 7) epSquare ENPASS_MOVE]
          else moves
        if board.squares (epSquare - 9) == WHITE_PAWN && epSquare != 40 then
          moves ++ [MoveMake (epSquare - 9) epSquare ENPASS_MOVE]
        else moves
      else moves
    genAllNoisyMovesBuild moves pawnLeft pawnRight pawnPromoForward pawnPromoLeft
      pawnPromoRight forwardShift leftShift rightShift
      myKnights myBishops myRooks myKings notEmpty enemy
  else
    let forwardShift : Int := 8
    let leftShift : Int := 7
    let rightShift : Int := 9
    let pawnLeft := ((myPawns >>> 7) &&& not64 FILE_A) &&& enemy
    let pawnRight := ((myPawns >>> 9) &&& not64 FILE_H) &&& enemy
    let pawnPromoForward := (myPawns >>> 8) &&& empty &&& RANK_1
    let pawnPromoLeft := pawnLeft &&& RANK_1
    let pawnPromoRight := pawnRight &&& RANK_1
    let pawnLeft := pawnLeft &&& not64 RANK_1
    let pawnRight := pawnRight &&& not64 RANK_1
    let moves :=
      if epSquare != -1 then
        let moves :=
          if board.squares (epSquare + 7) == BLACK_PAWN && epSquare != 16 then
            moves ++ [MoveMake (epSquare + 7) epSquare ENPASS_MOVE]
          else moves
        if board.squares (epSquare + 9) == BLACK_PAWN && epSquare != 23 then
          moves ++ [MoveMake (epSquare + 9) epSquare ENPASS_MOVE]
        else moves
      else moves
    genAllNoisyMovesBuild moves pawnLeft pawnRight pawnPromoForward pawnPromoLeft
      pawnPromoRight forwardShift leftShift rightShift
      myKnights myBishops myRooks myKings notEmpty enemy

/-- The function `genAllQuietMoves` (movegen.c, lines 324-401). -/
def genAllQuietMoves (board : Board) (moves : List Nat) : List Nat :=
  let friendly := board.colours board.turn
  let enemy := board.colours (!board.turn)
  let empty := not64 (friendly ||| enemy)
  let notEmpty := not64 empty
  let myPawns := friendly &&& board.pieces PAWN
  let myKnights := friendly &&& board.pieces KNIGHT
  let myBishops := friendly &&& board.pieces BISHOP
  let myRooks := friendly &&& board.pieces ROOK
  let myQueens := friendly &&& board.pieces QUEEN
  let myKings := friendly &&& board.pieces KING
  let myBishops := myBishops ||| myQueens
  let myRooks := myRooks ||| myQueens
  let moves :=
    if board.turn == WHITE then
      let pawnForwardOne := shl64 myPawns 8 &&& empty &&& not64 RANK_8
      let pawnForwardTwo := shl64 (pawnForwardOne &&& RANK_3) 8 &&& empty
      let moves := buildPawnMoves moves pawnForwardOne (-8)
      buildPawnMoves moves pawnForwardTwo (-16)
    else
      let pawnForwardOne := (myPawns >>> 8) &&& empty &&& not64 RANK_1
      let pawnForwardTwo := ((pawnForwardOne &&& RANK_6) >>> 8) &&& empty
      let moves := buildPawnMoves moves pawnForwardOne 8
      buildPawnMoves moves pawnForwardTwo 16
  let moves := buildKnightMoves moves myKnights empty
  let moves := buildBishopAndQueenMoves moves myBishops notEmpty empty
  let moves := buildRookAndQueenMoves moves myRooks notEmpty empty
  let moves := buildKingMoves moves myKings empty
  genCastles board moves notEmpty

/-- The function `genAllLegalMoves` (movegen.c, lines 41-56). `applyMove` and `revertMove`
are not part of `src/`; they are parameters, with `Undo` the type of the undo record. The
board is threaded through the loop, as the calls mutate it in place. -/
def genAllLegalMoves {Undo : Type} (applyMove : Board → Nat → Board × Undo)
    (revertMove : Board → Nat → Undo → Board) (board : Board) (moves : List Nat) :
    Board × List Nat :=
  let psuedoMoves := genAllMoves board []
  psuedoMoves.foldl (fun (state : Board × List Nat) m =>
    let applied := applyMove state.1 m
    let board := applied.1
    let moves := if isNotInCheck board (!board.turn) then state.2 ++ [m] else state.2
    (revertMove board m applied.2, moves)) (board, moves)

/-- The en-passant block of `genAllMoves` (movegen.c, lines 120-126 and 146-152), which
`genAllNoisyMoves` repeats (lines 264-270 and 286-292), together with the indices at which
it reads `board->squares`, in the order of the reads. In
`board->squares[i] == PAWN && epSquare != k` the array is read before the guard is
evaluated, so both reads take place whenever `epSquare != -1`. -/
def enpassTrace (board : Board) : List Nat × List Int :=
  if board.turn == WHITE then
    if board.epSquare != -1 then
      ((if board.squares (board.epSquare - 7) == WHITE_PAWN && board.epSquare != 47 then
            [MoveMake (board.epSquare - 7) board.epSquare ENPASS_MOVE] else [])
          ++ (if board.squares (board.epSquare - 9) == WHITE_PAWN && board.epSquare != 40 then
            [MoveMake (board.epSquare - 9) board.epSquare ENPASS_MOVE] else []),
        [board.epSquare - 7, board.epSquare - 9])
    else ([], [])
  else
    if board.epSquare != -1 then
      ((if board.squares (board.epSquare + 7) == BLACK_PAWN && board.epSquare != 16 then
            [MoveMake (board.epSquare + 7) board.epSquare ENPASS_MOVE] else [])
          ++ (if board.squares (board.epSquare + 9) == BLACK_PAWN && board.epSquare != 23 then
            [MoveMake (board.epSquare + 9) board.epSquare ENPASS_MOVE] else []),
        [board.epSquare + 7, board.epSquare + 9])
    else ([], [])

/-! ## The invariants of section 3 -/

/-- The occupied squares, `colours[0] | colours[1]`. -/
def occupancy (board : Board) : Nat := board.colours WHITE ||| board.colours BLACK

/-- The C types of the fields: every bitboard is a `uint64_t`, and `epSquare` is a square
index or `-1`. -/
def Typed (board : Board) : Prop :=
  (∀ t, t < 6 → board.pieces t < 2 ^ 64) ∧ board.colours WHITE < 2 ^ 64
    ∧ board.colours BLACK < 2 ^ 64 ∧ -1 ≤ board.epSquare ∧ board.epSquare ≤ 63

/-- Data model of section 3: the occupant array and the bitboards describe the same
position, `squares[s]` is the piece `2 * type + colour` exactly when bit `s` is set in
`pieces[type]` and in `colours[colour]`. -/
def Redundant (board : Board) : Prop :=
  ∀ s : Nat, s < 64 → ∀ t, t < 6 →
    (((board.pieces t &&& board.colours WHITE).testBit s = true
        ↔ board.squares s = makePiece t WHITE)
      ∧ ((board.pieces t &&& board.colours BLACK).testBit s = true
        ↔ board.squares s = makePiece t BLACK))

/-- Invariant 6 of section 3: an en-passant square lies on rank 6 when white is to move and
on rank 3 when black is to move, the pawn that just made its double step stands in front of
it, and the square itself is empty. -/
def EpInv (board : Board) : Prop :=
  board.epSquare ≠ -1 →
    if board.turn = WHITE then
      40 ≤ board.epSquare ∧ board.epSquare ≤ 47
        ∧ board.squares (board.epSquare - 8) = BLACK_PAWN
        ∧ (occupancy board).testBit board.epSquare.toNat = false
    else
      16 ≤ board.epSquare ∧ board.epSquare ≤ 23
        ∧ board.squares (board.epSquare + 8) = WHITE_PAWN
        ∧ (occupancy board).testBit board.epSquare.toNat = false

/-- Invariant 7 of section 3: a castling right implies king and rook on their home squares. -/
def CastleInv (board : Board) : Prop :=
  (board.castleRights &&& WHITE_KING_RIGHTS ≠ 0 →
      board.squares 4 = makePiece KING WHITE ∧ board.squares 7 = makePiece ROOK WHITE)
    ∧ (board.castleRights &&& WHITE_QUEEN_RIGHTS ≠ 0 →
      board.squares 4 = makePiece KING WHITE ∧ board.squares 0 = makePiece ROOK WHITE)
    ∧ (board.castleRights &&& BLACK_KING_RIGHTS ≠ 0 →
      board.squares 60 = makePiece KING BLACK ∧ board.squares 63 = makePiece ROOK BLACK)
    ∧ (board.castleRights &&& BLACK_QUEEN_RIGHTS ≠ 0 →
      board.squares 60 = makePiece KING BLACK ∧ board.squares 56 = makePiece ROOK BLACK)

/-- The invariants of section 3, in the order of the specification, with the typing of the
fields and the agreement of the two representations. -/
def BoardInv (board : Board) : Prop :=
  Typed board
    ∧ board.colours WHITE &&& board.colours BLACK = 0
    ∧ board.colours WHITE ||| board.colours BLACK
        = board.pieces PAWN ||| board.pieces KNIGHT ||| board.pieces BISHOP
            ||| board.pieces ROOK ||| board.pieces QUEEN ||| board.pieces KING
    ∧ (∀ s : Nat, s < 64 →
        (board.squares s = EMPTY ↔ ∀ t, t < 6 → (board.pieces t).testBit s = false))
    ∧ Redundant board
    ∧ (List.range 64).countP (fun s => (board.colours WHITE &&& board.pieces KING).testBit s) = 1
    ∧ (List.range 64).countP (fun s => (board.colours BLACK &&& board.pieces KING).testBit s) = 1
    ∧ board.pieces PAWN &&& (RANK_1 ||| RANK_8) = 0
    ∧ EpInv board
    ∧ CastleInv board

instance (board : Board) : Decidable (Typed board) := by unfold Typed; infer_instance
instance (board : Board) : Decidable (Redundant board) := by unfold Redundant; infer_instance
instance (board : Board) : Decidable (EpInv board) := by unfold EpInv; infer_instance
instance (board : Board) : Decidable (CastleInv board) := by unfold CastleInv; infer_instance
instance (board : Board) : Decidable (BoardInv board) := by unfold BoardInv; infer_instance

/-! ## Names for the parts of a generated list

The generators compute the same bitboards in both colour branches; the definitions below
name them once, so that the lists can be described segment by segment. -/

/-- The bitboard `friendly & board->pieces[t]`. -/
def mine (board : Board) (t : Nat) : Nat := board.colours board.turn &&& board.pieces t

/-- The bitboard `empty = ~(friendly | enemy)`. -/
def emptySquares (board : Board) : Nat :=
  not64 (board.colours board.turn ||| board.colours (!board.turn))

/-- The bitboard `pawnForwardOne` before its promotion rank is split off. -/
def pawnPushOne (board : Board) : Nat :=
  if board.turn == WHITE then shl64 (mine board PAWN) 8 &&& emptySquares board
  else (mine board PAWN >>> 8) &&& emptySquares board

/-- The bitboard `pawnForwardTwo`. -/
def pawnPushTwo (board : Board) : Nat :=
  if board.turn == WHITE then shl64 (pawnPushOne board &&& RANK_3) 8 &&& emptySquares board
  else ((pawnPushOne board &&& RANK_6) >>> 8) &&& emptySquares board

/-- The bitboard `pawnLeft` before its promotion rank is split off. -/
def pawnTakeLeft (board : Board) : Nat :=
  if board.turn == WHITE then
    (shl64 (mine board PAWN) 7 &&& not64 FILE_H) &&& board.colours (!board.turn)
  else ((mine board PAWN >>> 7) &&& not64 FILE_A) &&& board.colours (!board.turn)

/-- The bitboard `pawnRight` before its promotion rank is split off. -/
def pawnTakeRight (board : Board) : Nat :=
  if board.turn == WHITE then
    (shl64 (mine board PAWN) 9 &&& not64 FILE_A) &&& board.colours (!board.turn)
  else ((mine board PAWN >>> 9) &&& not64 FILE_H) &&& board.colours (!board.turn)

/-- The promotion rank of the side to move: `RANK_8` for white, `RANK_1` for black. -/
def lastRank (board : Board) : Nat := if board.turn == WHITE then RANK_8 else RANK_1

/-- The value of `forwardShift`. -/
def forwardShift (board : Board) : Int := if board.turn == WHITE then -8 else 8
/-- The value of `leftShift`. -/
def leftShift (board : Board) : Int := if board.turn == WHITE then -7 else 7
/-- The value of `rightShift`. -/
def rightShift (board : Board) : Int := if board.turn == WHITE then -9 else 9

/-- The bishops and queens of the side to move, `myBishops | myQueens`. -/
def myDiagonals (board : Board) : Nat := mine board BISHOP ||| mine board QUEEN
/-- The rooks and queens of the side to move, `myRooks | myQueens`. -/
def myStraights (board : Board) : Nat := mine board ROOK ||| mine board QUEEN

/-- The en-passant moves, in the order the generators write them. -/
def enpassMoves (board : Board) : List Nat :=
  if board.turn == WHITE then
    if board.epSquare != -1 then
      (if board.squares (board.epSquare - 7) == WHITE_PAWN && board.epSquare != 47 then
          [MoveMake (board.epSquare - 7) board.epSquare ENPASS_MOVE] else [])
        ++ (if board.squares (board.epSquare - 9) == WHITE_PAWN && board.epSquare != 40 then
          [MoveMake (board.epSquare - 9) board.epSquare ENPASS_MOVE] else [])
    else []
  else
    if board.epSquare != -1 then
      (if board.squares (board.epSquare + 7) == BLACK_PAWN && board.epSquare != 16 then
          [MoveMake (board.epSquare + 7) board.epSquare ENPASS_MOVE] else [])
        ++ (if board.squares (board.epSquare + 9) == BLACK_PAWN && board.epSquare != 23 then
          [MoveMake (board.epSquare + 9) board.epSquare ENPASS_MOVE] else [])
    else []

/-- The castle moves, in the order the generators write them. -/
def castleMoves (board : Board) : List Nat :=
  genCastles board [] (not64 (emptySquares board))

/-- The three nested tests that guard one castle move: the path is empty, the right is set,
the square the king passes over is not attacked. -/
def castleTest (board : Board) (map rights : Nat) (colour : Bool) (sq : Nat) : Bool :=
  not64 (emptySquares board) &&& map == 0 && board.castleRights &&& rights != 0
    && !squareIsAttacked board colour sq

/-- The non-promoting single pushes. -/
def pushOneMoves (board : Board) : List Nat :=
  buildPawnMoves [] (pawnPushOne board &&& not64 (lastRank board)) (forwardShift board)
/-- The double pushes. -/
def pushTwoMoves (board : Board) : List Nat :=
  buildPawnMoves [] (pawnPushTwo board) (2 * forwardShift board)
/-- The non-promoting captures. -/
def takeMoves (board : Board) : List Nat :=
  buildPawnMoves [] (pawnTakeLeft board &&& not64 (lastRank board)) (leftShift board)
    ++ buildPawnMoves [] (pawnTakeRight board &&& not64 (lastRank board)) (rightShift board)
/-- The promotions: pushes, then captures to the left, then captures to the right. -/
def promoMoves (board : Board) : List Nat :=
  buildPawnPromotions [] (pawnPushOne board &&& lastRank board) (forwardShift board)
    ++ buildPawnPromotions [] (pawnTakeLeft board &&& lastRank board) (leftShift board)
    ++ buildPawnPromotions [] (pawnTakeRight board &&& lastRank board) (rightShift board)
/-- The moves of knights, bishops and queens, rooks and queens, and kings to `targets`. -/
def pieceMoves (board : Board) (targets : Nat) : List Nat :=
  buildKnightMoves [] (mine board KNIGHT) targets
    ++ buildBishopAndQueenMoves [] (myDiagonals board) (not64 (emptySquares board)) targets
    ++ buildRookAndQueenMoves [] (myStraights board) (not64 (emptySquares board)) targets
    ++ buildKingMoves [] (mine board KING) targets

/-! ## Concrete positions -/

/-- The bitboard of the squares of `placement` whose entry satisfies `p`. -/
def placeBits (placement : List (Nat × Nat × Bool)) (p : Nat × Nat × Bool → Bool) : Nat :=
  (placement.filter p).foldl (fun acc x => acc ||| (1 <<< x.1)) 0

/-- The board with the pieces `(square, type, colour)` of `placement`. -/
def boardOf (placement : List (Nat × Nat × Bool)) (turn : Bool) (castleRights : Nat)
    (epSquare : Int) : Board where
  pieces := fun t => placeBits placement fun x => x.2.1 == t
  colours := fun c => placeBits placement fun x => x.2.2 == c
  squares := fun i =>
    match placement.find? fun x => (x.1 : Int) == i with
    | some x => makePiece x.2.1 x.2.2
    | none => EMPTY
  turn := turn
  castleRights := castleRights
  epSquare := epSquare
  fiftyMoveRule := 0
  hash := 0

/-- A stand-in for `applyMove`, used to instantiate the legality filter: steps 2 and 9 of
section 4.G for a move without a special flag. The piece goes from the from-square to the
to-square in the bitboards and in the occupant array, a piece on the to-square is removed,
and the turn flips. The undo record is the position before the move. -/
def applyMoveModel (board : Board) (m : Nat) : Board × Board :=
  let fromBit := 1 <<< MoveFrom m
  let toBit := 1 <<< MoveTo m
  ({ board with
      pieces := fun t =>
        if (board.pieces t).testBit (MoveFrom m) then
          ((board.pieces t ^^^ fromBit) &&& not64 toBit) ||| toBit
        else board.pieces t &&& not64 toBit
      colours := fun c =>
        if c == board.turn then (board.colours c ^^^ fromBit) ||| toBit
        else board.colours c &&& not64 toBit
      squares := fun i =>
        if i = MoveTo m then board.squares (MoveFrom m)
        else if i = MoveFrom m then EMPTY
        else board.squares i
      turn := !board.turn
      epSquare := -1 }, board)

/-- A stand-in for `revertMove`: the position kept in the undo record. -/
def revertMoveModel (_board : Board) (_m : Nat) (undo : Board) : Board := undo

/-- The position `4k3/4r3/8/8/8/8/4R3/4K3 w - - 0 1`: the white rook is pinned. -/
def pinnedRookBoard : Board :=
  boardOf [(4, KING, WHITE), (12, ROOK, WHITE), (52, ROOK, BLACK), (60, KING, BLACK)] WHITE 0 (-1)

/-- The position `r3k2r/8/8/8/8/8/8/R3Kq1R w KQkq - 0 1`. -/
def castleOutOfCheckBoard : Board :=
  boardOf [(0, ROOK, WHITE), (4, KING, WHITE), (5, QUEEN, BLACK), (7, ROOK, WHITE),
    (56, ROOK, BLACK), (60, KING, BLACK), (63, ROOK, BLACK)] WHITE 15 (-1)

/-- The position `4k3/8/8/pP6/8/8/8/4K3 w - a6 0 1`. -/
def enpassBoard : Board :=
  boardOf [(4, KING, WHITE), (32, PAWN, BLACK), (33, PAWN, WHITE), (60, KING, BLACK)] WHITE 0 40

/-- The position `4k3/4P3/8/8/8/8/8/4K3 w - - 0 1`. -/
def blockedPawnBoard : Board :=
  boardOf [(4, KING, WHITE), (52, PAWN, WHITE), (60, KING, BLACK)] WHITE 0 (-1)

/-- The position `4k3/8/8/8/8/8/7p/4K3 w - - 0 1`: a black pawn on h2. -/
def pawnWrapBoard : Board :=
  boardOf [(4, KING, WHITE), (15, PAWN, BLACK), (60, KING, BLACK)] WHITE 0 (-1)

/-- The position `7k/4P3/8/8/8/8/8/4K3 w - - 0 1`: the pawn on e7 is free to promote. -/
def freePawnBoard : Board :=
  boardOf [(4, KING, WHITE), (52, PAWN, WHITE), (63, KING, BLACK)] WHITE 0 (-1)

/-- The position `4k3/8/8/8/8/8/4P3/4K3 w - - 0 1`. -/
def pushBoard : Board :=
  boardOf [(4, KING, WHITE), (12, PAWN, WHITE), (60, KING, BLACK)] WHITE 0 (-1)

/-- The standard starting position,
`rnbqkbnr/pppppppp/8/8/8/8/PPPPPPPP/RNBQKBNR w KQkq - 0 1`. -/
def startBoard : Board :=
  boardOf [(0, ROOK, WHITE), (1, KNIGHT, WHITE), (2, BISHOP, WHITE), (3, QUEEN, WHITE),
    (4, KING, WHITE), (5, BISHOP, WHITE), (6, KNIGHT, WHITE), (7, ROOK, WHITE),
    (8, PAWN, WHITE), (9, PAWN, WHITE), (10, PAWN, WHITE), (11, PAWN, WHITE),
    (12, PAWN, WHITE), (13, PAWN, WHITE), (14, PAWN, WHITE), (15, PAWN, WHITE),
    (48, PAWN, BLACK), (49, PAWN, BLACK), (50, PAWN, BLACK), (51, PAWN, BLACK),
    (52, PAWN, BLACK), (53, PAWN, BLACK), (54, PAWN, BLACK), (55, PAWN, BLACK),
    (56, ROOK, BLACK), (57, KNIGHT, BLACK), (58, BISHOP, BLACK), (59, QUEEN, BLACK),
    (60, KING, BLACK), (61, BISHOP, BLACK), (62, KNIGHT, BLACK), (63, ROOK, BLACK)]
    WHITE 15 (-1)

/-- The position `4k3/8/8/8/8/8/P6r/4K3 w - - 0 1`: a white pawn on a2, a black rook on
h2. -/
def captureWrapBoard : Board :=
  boardOf [(4, KING, WHITE), (8, PAWN, WHITE), (15, ROOK, BLACK), (60, KING, BLACK)] WHITE 0 (-1)

/-- The position `4k3/R6p/8/8/8/8/8/4K3 b - - 0 1`: a black pawn on h7, a white rook on
a7. -/
def captureWrapBoardBlack : Board :=
  boardOf [(4, KING, WHITE), (48, ROOK, WHITE), (55, PAWN, BLACK), (60, KING, BLACK)] BLACK 0 (-1)

/-- The position `4k3/8/8/8/8/n7/1P6/4K3 w - - 0 1`: a white pawn on b2, a black knight on
a3. -/
def captureEdgeBoard : Board :=
  boardOf [(4, KING, WHITE), (9, PAWN, WHITE), (16, KNIGHT, BLACK), (60, KING, BLACK)] WHITE 0 (-1)

/-- The position `r3k3/8/8/8/8/8/4r3/R3K3 w Q - 0 1`. -/
def castleThroughBoard : Board :=
  boardOf [(0, ROOK, WHITE), (4, KING, WHITE), (12, ROOK, BLACK), (56, ROOK, BLACK),
    (60, KING, BLACK)] WHITE WHITE_QUEEN_RIGHTS (-1)

/-- The position `r3k3/8/8/8/8/8/3r4/R3K3 w Q - 0 1`: the black rook stands on d2. -/
def castleThroughCheckBoard : Board :=
  boardOf [(0, ROOK, WHITE), (4, KING, WHITE), (11, ROOK, BLACK), (56, ROOK, BLACK),
    (60, KING, BLACK)] WHITE WHITE_QUEEN_RIGHTS (-1)

/-- The position `4k3/4p3/8/8/8/8/8/4K3 b - - 0 1`. -/
def pushBoardBlack : Board :=
  boardOf [(4, KING, WHITE), (52, PAWN, BLACK), (60, KING, BLACK)] BLACK 0 (-1)

/-- The position `4k3/8/8/8/8/8/8/4K3 w - - 0 1` with the ill-formed `epSquare = 3`. -/
def strayEpBoard : Board :=
  boardOf [(4, KING, WHITE), (60, KING, BLACK)] WHITE 0 3

/-! ## The claims in the words of the specification -/

/-- A pawn of the colour opposite to `c` on `s` attacks `sq`: it stands diagonally in front
of `sq` as `c` sees it, one rank ahead and one file to either side. -/
def pawnAttacks (c : Bool) (s sq : Nat) : Bool :=
  decide (Nat.dist (fileOf s) (fileOf sq) = 1)
    && (if c == WHITE then decide (rankOf s = rankOf sq + 1)
        else decide (rankOf s + 1 = rankOf sq))

/-- The piece on `s`, not a pawn, attacks `sq` under the occupancy `colours[0] | colours[1]`:
a knight a knight-jump away, a bishop or queen on an unobstructed diagonal, a rook or queen
on an unobstructed rank or file, or an adjacent king. -/
def pieceAttacks (board : Board) (s sq : Nat) : Bool :=
  ((board.pieces KNIGHT).testBit s && (KnightMap s).testBit sq)
    || (((board.pieces BISHOP).testBit s || (board.pieces QUEEN).testBit s)
        && (BishopMap s (occupancy board)).testBit sq)
    || (((board.pieces ROOK).testBit s || (board.pieces QUEEN).testBit s)
        && (RookMap s (occupancy board)).testBit sq)
    || ((board.pieces KING).testBit s && (KingMap s).testBit sq)

/-- Some piece of the colour opposite to `c` attacks `sq` by the rules of chess. -/
def geometricallyAttacked (board : Board) (c : Bool) (sq : Nat) : Bool :=
  (List.range 64).any fun s =>
    (board.colours (!c)).testBit s
      && (((board.pieces PAWN).testBit s && pawnAttacks c s sq) || pieceAttacks board s sq)

/-- The board with the turn set to `c`, all else unchanged. -/
def withTurn (board : Board) (c : Bool) : Board := { board with turn := c }

/-- The pawn test of `squareIsAttacked` (movegen.c, lines 447-454). -/
def pawnTest (board : Board) (turn : Bool) (sq : Nat) : Bool :=
  let enemyPawns := board.colours (!turn) &&& board.pieces PAWN
  let square := shl64 1 sq
  if turn == WHITE then
    ((shl64 square 7 &&& not64 FILE_H) ||| (shl64 square 9 &&& not64 FILE_A))
      &&& enemyPawns != 0
  else
    ((square >>> 7 &&& not64 FILE_A) ||| (square >>> 9 &&& not64 FILE_H))
      &&& enemyPawns != 0

/-- The category of a move in the sequence the specification gives (section 5): 0 pawn push
(promoting or not), 1 pawn capture (en passant and capturing promotions included), 2 knight
move, 3 diagonal move of a bishop or queen, 4 straight move of a rook or queen, 5 king move,
6 castle. -/
def claimCategory (board : Board) (m : Nat) : Nat :=
  if MoveType m == CASTLE_MOVE then 6
  else if (mine board PAWN).testBit (MoveFrom m) then
    if fileOf (MoveFrom m) == fileOf (MoveTo m) then 0 else 1
  else if (mine board KNIGHT).testBit (MoveFrom m) then 2
  else if (mine board KING).testBit (MoveFrom m) then 5
  else if onDiag (MoveFrom m) (MoveTo m) then 3
  else 4

/-- The category of a move in the sequence `genAllMoves` writes: 0 en-passant capture,
1 non-promoting pawn push, 2 non-promoting pawn capture, 3 promotion, 4 knight move,
5 diagonal move of a bishop or queen, 6 straight move of a rook or queen, 7 king move,
8 castle. -/
def moveCategory (board : Board) (m : Nat) : Nat :=
  if MoveType m == CASTLE_MOVE then 8
  else if MoveType m == ENPASS_MOVE then 0
  else if (mine board PAWN).testBit (MoveFrom m) then
    if MoveType m == NORMAL_MOVE then
      if fileOf (MoveFrom m) == fileOf (MoveTo m) then 1 else 2
    else 3
  else if (mine board KNIGHT).testBit (MoveFrom m) then 4
  else if (mine board KING).testBit (MoveFrom m) then 7
  else if onDiag (MoveFrom m) (MoveTo m) then 5
  else 6

/-! # Theorems -/

/-! ## 64-bit masks -/

theorem testBit_shl64 (x k i : Nat) :
    (shl64 x k).testBit i = (decide (i < 64) && (decide (k ≤ i) && x.testBit (i - k))) := by
  unfold shl64
  rw [Nat.testBit_mod_two_pow, Nat.testBit_shiftLeft]

theorem testBit_not64 (x i : Nat) : (not64 x).testBit i = (decide (i < 64) && !x.testBit i) := by
  unfold not64
  rw [Nat.testBit_xor, Nat.testBit_two_pow_sub_one, Nat.testBit_mod_two_pow]
  by_cases h : i < 64 <;> simp [h]

theorem lt_two_pow_of_testBit (x n : Nat) (h : ∀ i, n ≤ i → x.testBit i = false) : x < 2 ^ n := by
  by_contra hx
  obtain ⟨i, hi, hb⟩ := Nat.ge_two_pow_implies_high_bit_true (Nat.le_of_not_lt hx)
  rw [h i hi] at hb
  exact Bool.false_ne_true hb

theorem testBit_false_of_lt (x n i : Nat) (hx : x < 2 ^ n) (hi : n ≤ i) : x.testBit i = false :=
  Nat.testBit_lt_two_pow (lt_of_lt_of_le hx (Nat.pow_le_pow_right (by decide) hi))

theorem shl64_lt (x k : Nat) : shl64 x k < 2 ^ 64 := Nat.mod_lt _ (by decide)

theorem not64_lt (x : Nat) : not64 x < 2 ^ 64 := by
  apply lt_two_pow_of_testBit
  intro i hi
  rw [testBit_not64]
  simp; omega

theorem and_lt_left (x y n : Nat) (hx : x < 2 ^ n) : x &&& y < 2 ^ n :=
  lt_of_le_of_lt Nat.and_le_left hx

theorem and_lt_right (x y n : Nat) (hy : y < 2 ^ n) : x &&& y < 2 ^ n :=
  lt_of_le_of_lt Nat.and_le_right hy

theorem foldl_ofPred (p : Nat → Bool) (n i : Nat) :
    ((List.range n).foldl (fun acc j => if p j then acc ||| (1 <<< j) else acc) 0).testBit i
      = (decide (i < n) && p i) := by
  induction n with
  | zero => simp
  | succ n ih =>
    rw [List.range_succ, List.foldl_append]
    simp only [List.foldl_cons, List.foldl_nil]
    split
    · next hp =>
      rw [Nat.testBit_or, ih, Nat.testBit_shiftLeft]
      by_cases hin : i = n
      · subst hin; simp [hp]
      · by_cases hlt : i < n
        · have h2 : i < n + 1 := by omega
          have h3 : ¬ n ≤ i := by omega
          simp [hlt, h2, h3]
        · have h2 : ¬ i < n + 1 := by omega
          have h3 : Nat.testBit 1 (i - n) = false := by
            have h4 : (1 : Nat) < 2 ^ (i - n) := Nat.one_lt_two_pow (by omega)
            exact Nat.testBit_lt_two_pow h4
          simp [hlt, h2, h3]
    · next hp =>
      rw [ih]
      by_cases hin : i = n
      · subst hin; simp [hp]
      · by_cases hlt : i < n
        · have h2 : i < n + 1 := by omega
          simp [hlt, h2]
        · have h2 : ¬ i < n + 1 := by omega
          simp [hlt, h2]

theorem testBit_ofPred (p : Nat → Bool) (i : Nat) :
    (ofPred p).testBit i = (decide (i < 64) && p i) := foldl_ofPred p 64 i

theorem ofPred_lt (p : Nat → Bool) : ofPred p < 2 ^ 64 := by
  apply lt_two_pow_of_testBit
  intro i hi
  rw [testBit_ofPred]
  simp; omega

/-! ## The rank and file masks, bit by bit -/

theorem testBit_const (c : Nat) (p : Nat → Bool) (hc : c < 2 ^ 64)
    (h1 : ∀ i, i < 64 → c.testBit i = p i) (h2 : ∀ i, 64 ≤ i → p i = false) (i : Nat) :
    c.testBit i = p i := by
  by_cases hi : i < 64
  · exact h1 i hi
  · rw [h2 i (by omega)]
    exact testBit_false_of_lt c 64 i hc (by omega)

theorem testBit_RANK_1 (i : Nat) : RANK_1.testBit i = decide (i < 8) :=
  testBit_const RANK_1 (fun i => decide (i < 8)) (by decide) (by decide)
    (fun i hi => by simp only [decide_eq_false_iff_not]; omega) i

theorem testBit_RANK_3 (i : Nat) : RANK_3.testBit i = decide (16 ≤ i ∧ i < 24) :=
  testBit_const RANK_3 (fun i => decide (16 ≤ i ∧ i < 24)) (by decide) (by decide)
    (fun i hi => by simp only [decide_eq_false_iff_not]; omega) i

theorem testBit_RANK_6 (i : Nat) : RANK_6.testBit i = decide (40 ≤ i ∧ i < 48) :=
  testBit_const RANK_6 (fun i => decide (40 ≤ i ∧ i < 48)) (by decide) (by decide)
    (fun i hi => by simp only [decide_eq_false_iff_not]; omega) i

theorem testBit_RANK_8 (i : Nat) : RANK_8.testBit i = decide (56 ≤ i ∧ i < 64) :=
  testBit_const RANK_8 (fun i => decide (56 ≤ i ∧ i < 64)) (by decide) (by decide)
    (fun i hi => by simp only [decide_eq_false_iff_not]; omega) i

theorem testBit_FILE_A (i : Nat) : FILE_A.testBit i = decide (i < 64 ∧ i % 8 = 0) :=
  testBit_const FILE_A (fun i => decide (i < 64 ∧ i % 8 = 0)) (by decide) (by decide)
    (fun i hi => by simp only [decide_eq_false_iff_not]; omega) i

theorem testBit_FILE_H (i : Nat) : FILE_H.testBit i = decide (i < 64 ∧ i % 8 = 7) :=
  testBit_const FILE_H (fun i => decide (i < 64 ∧ i % 8 = 7)) (by decide) (by decide)
    (fun i hi => by simp only [decide_eq_false_iff_not]; omega) i

theorem and_not_RANK_8_and_RANK_3 (x : Nat) : x &&& not64 RANK_8 &&& RANK_3 = x &&& RANK_3 := by
  apply Nat.eq_of_testBit_eq
  intro i
  simp only [Nat.testBit_and, testBit_not64, testBit_RANK_8, testBit_RANK_3]
  by_cases h : 16 ≤ i ∧ i < 24
  · have h1 : i < 64 := by omega
    have h2 : ¬ (56 ≤ i ∧ i < 64) := by omega
    rw [decide_eq_true h, decide_eq_true h1, decide_eq_false h2]
    simp
  · rw [decide_eq_false h]
    simp

theorem and_not_RANK_1_and_RANK_6 (x : Nat) : x &&& not64 RANK_1 &&& RANK_6 = x &&& RANK_6 := by
  apply Nat.eq_of_testBit_eq
  intro i
  simp only [Nat.testBit_and, testBit_not64, testBit_RANK_1, testBit_RANK_6]
  by_cases h : 40 ≤ i ∧ i < 48
  · have h1 : i < 64 := by omega
    have h2 : ¬ (i < 8) := by omega
    rw [decide_eq_true h, decide_eq_true h1, decide_eq_false h2]
    simp
  · rw [decide_eq_false h]
    simp

/-! ## The bit-scan loop -/

theorem testBit_one_shl (a j : Nat) : (1 <<< a).testBit j = decide (a = j) := by
  rw [Nat.one_shiftLeft, Nat.testBit_two_pow]

theorem lsbFrom_eq (fuel : Nat) : ∀ (i bb l : Nat), i ≤ l → l < i + fuel → bb.testBit l = true →
    (∀ j, i ≤ j → j < l → bb.testBit j = false) → lsbFrom fuel i bb = l := by
  induction fuel with
  | zero => intro i bb l h1 h2; omega
  | succ n ih =>
    intro i bb l h1 h2 h3 h4
    unfold lsbFrom
    by_cases hil : i = l
    · subst hil; simp [h3]
    · have hi : bb.testBit i = false := h4 i (le_refl _) (by omega)
      simp only [hi, Bool.false_eq_true, if_false]
      exact ih (i + 1) bb l (by omega) (by omega) h3 (fun j hj1 hj2 => h4 j (by omega) hj2)

theorem getLSB_eq (bb l : Nat) (hl : l < 64) (h1 : bb.testBit l = true)
    (h2 : ∀ j, j < l → bb.testBit j = false) : getLSB bb = l :=
  lsbFrom_eq 64 0 bb l (Nat.zero_le _) (by omega) h1 (fun j _ hj => h2 j hj)

theorem bitLoop_zero (fuel : Nat) : bitLoop fuel 0 = [] := by
  cases fuel <;> simp [bitLoop]

theorem bitLoop_eq (n : Nat) : ∀ (fuel bb : Nat), n ≤ fuel → n ≤ 64 → bb < 2 ^ 64 →
    (∀ j, j < 64 - n → bb.testBit j = false) →
    bitLoop fuel bb = (List.range' (64 - n) n).filter (fun i => bb.testBit i) := by
  induction n with
  | zero =>
    intro fuel bb _ _ hbb h
    have : bb = 0 := by
      apply Nat.eq_of_testBit_eq
      intro i
      rw [Nat.zero_testBit]
      by_cases hi : i < 64
      · exact h i hi
      · exact testBit_false_of_lt bb 64 i hbb (by omega)
    subst this
    simp [bitLoop_zero]
  | succ n ih =>
    intro fuel bb hf hn hbb h
    obtain ⟨f, rfl⟩ : ∃ f, fuel = f + 1 := ⟨fuel - 1, by omega⟩
    obtain ⟨a, ha1, ha2⟩ : ∃ a, 64 - (n + 1) = a ∧ 64 - n = a + 1 := ⟨64 - (n + 1), rfl, by omega⟩
    rw [ha2] at ih
    rw [ha1] at h ⊢
    rw [List.range'_succ, List.filter_cons]
    by_cases ha : bb.testBit a = true
    · have hne : bb ≠ 0 := by
        intro h0; subst h0; simp at ha
      have hl : getLSB bb = a := getLSB_eq bb _ (by omega) ha h
      simp only [ha, if_true]
      unfold bitLoop
      simp only [hne, if_false, hl]
      congr 1
      have hbb' : bb ^^^ (1 <<< a) < 2 ^ 64 := by
        apply Nat.xor_lt_two_pow hbb
        rw [Nat.one_shiftLeft]
        exact Nat.pow_lt_pow_right (by decide) (by omega)
      rw [ih f _ (by omega) (by omega) hbb']
      · apply List.filter_congr
        intro j hj
        rw [List.mem_range'_1] at hj
        rw [Nat.testBit_xor, testBit_one_shl]
        have : ¬ (a = j) := by omega
        simp [this]
      · intro j hj
        rw [Nat.testBit_xor, testBit_one_shl]
        by_cases hja : a = j
        · subst hja; simp [ha]
        · simp only [hja, decide_False, Bool.xor_false]; exact h j (by omega)
    · have ha' : bb.testBit a = false := by simpa using ha
      simp only [ha', Bool.false_eq_true, if_false]
      apply ih (f + 1) bb (by omega) (by omega) hbb
      intro j hj
      by_cases hja : j = a
      · subst hja; exact ha'
      · exact h j (by omega)

theorem bitIter_eq (bb : Nat) (hbb : bb < 2 ^ 64) :
    bitIter bb = (List.range 64).filter (fun i => bb.testBit i) := by
  unfold bitIter
  rw [bitLoop_eq 64 64 bb (le_refl _) (le_refl _) hbb (fun j hj => by omega)]
  simp [List.range_eq_range']

theorem mem_bitIter (bb s : Nat) (hbb : bb < 2 ^ 64) :
    s ∈ bitIter bb ↔ bb.testBit s = true := by
  rw [bitIter_eq bb hbb, List.mem_filter, List.mem_range]
  constructor
  · exact fun h => h.2
  · intro h
    refine ⟨?_, h⟩
    by_contra hs
    rw [testBit_false_of_lt bb 64 s hbb (by omega)] at h
    exact Bool.false_ne_true h

/-! ## The move word -/

/-- The move word as a number. -/
theorem MoveMake_val (a b k : Nat) (ha : a < 64) (hb : b < 64) :
    a ||| (b <<< 6) ||| (k <<< 12) = 4096 * k + (64 * b + a) := by
  have h1 : a ||| (b <<< 6) = 64 * b + a := by
    rw [Nat.or_comm, Nat.shiftLeft_eq, Nat.mul_comm]
    exact (Nat.mul_add_lt_is_or (i := 6) (by simpa using ha) b).symm
  rw [h1, Nat.or_comm, Nat.shiftLeft_eq, Nat.mul_comm]
  exact (Nat.mul_add_lt_is_or (i := 12) (by norm_num; omega) k).symm

theorem and_flagMask (m : Nat) : m &&& (15 <<< 12) = (m / 4096 % 16) * 4096 := by
  have h : m &&& (15 <<< 12) = ((m >>> 12) &&& (2 ^ 4 - 1)) <<< 12 := by
    apply Nat.eq_of_testBit_eq
    intro i
    simp only [Nat.testBit_and, Nat.testBit_shiftLeft, Nat.testBit_shiftRight]
    by_cases hi : 12 ≤ i
    · have : 12 + (i - 12) = i := by omega
      simp [hi, this]
    · simp [hi]
  rw [h, Nat.and_pow_two_sub_one_eq_mod, Nat.shiftRight_eq_div_pow, Nat.shiftLeft_eq]

theorem MoveFrom_val (m : Nat) : MoveFrom m = m % 64 := by
  unfold MoveFrom
  exact Nat.and_pow_two_sub_one_eq_mod m 6

theorem MoveTo_val (m : Nat) : MoveTo m = m / 64 % 64 := by
  unfold MoveTo
  rw [Nat.shiftRight_eq_div_pow]
  exact Nat.and_pow_two_sub_one_eq_mod _ 6

theorem MoveType_val (m : Nat) : MoveType m = (m / 4096 % 16) * 4096 := and_flagMask m

theorem MoveFrom_MoveMake (f t : Int) (k : Nat) (hf : f.toNat < 64) (ht : t.toNat < 64) :
    MoveFrom (MoveMake f t (k <<< 12)) = f.toNat := by
  rw [MoveFrom_val, MoveMake, MoveMake_val _ _ _ hf ht]; omega

theorem MoveTo_MoveMake (f t : Int) (k : Nat) (hf : f.toNat < 64) (ht : t.toNat < 64) :
    MoveTo (MoveMake f t (k <<< 12)) = t.toNat := by
  rw [MoveTo_val, MoveMake, MoveMake_val _ _ _ hf ht]; omega

theorem MoveType_MoveMake (f t : Int) (k : Nat) (hf : f.toNat < 64) (ht : t.toNat < 64)
    (hk : k < 16) : MoveType (MoveMake f t (k <<< 12)) = k <<< 12 := by
  rw [MoveType_val, MoveMake, MoveMake_val _ _ _ hf ht, Nat.shiftLeft_eq]
  have : (4096 * k + (64 * t.toNat + f.toNat)) / 4096 = k := by omega
  rw [this, Nat.mod_eq_of_lt hk]

/-! ## The generated lists, segment by segment -/

theorem genCastles_append (board : Board) (moves : List Nat) (notEmpty : Nat) :
    genCastles board moves notEmpty = moves ++ genCastles board [] notEmpty := by
  unfold genCastles
  split <;> [skip; simp]
  split <;> (split <;> split <;> simp)

theorem enpass_white (board : Board) (moves : List Nat) (hb : board.turn = false) :
    (if board.epSquare != -1 then
        let moves :=
          if board.squares (board.epSquare - 7) == WHITE_PAWN && board.epSquare != 47 then
            moves ++ [MoveMake (board.epSquare - 7) board.epSquare ENPASS_MOVE]
          else moves
        if board.squares (board.epSquare - 9) == WHITE_PAWN && board.epSquare != 40 then
          moves ++ [MoveMake (board.epSquare - 9) board.epSquare ENPASS_MOVE]
        else moves
      else moves) = moves ++ enpassMoves board := by
  simp only [enpassMoves, hb, WHITE, BEq.refl, if_true]
  split
  · split <;> split <;> simp
  · simp

theorem enpass_black (board : Board) (moves : List Nat) (hb : board.turn = true) :
    (if board.epSquare != -1 then
        let moves :=
          if board.squares (board.epSquare + 7) == BLACK_PAWN && board.epSquare != 16 then
            moves ++ [MoveMake (board.epSquare + 7) board.epSquare ENPASS_MOVE]
          else moves
        if board.squares (board.epSquare + 9) == BLACK_PAWN && board.epSquare != 23 then
          moves ++ [MoveMake (board.epSquare + 9) board.epSquare ENPASS_MOVE]
        else moves
      else moves) = moves ++ enpassMoves board := by
  have hw : (true == WHITE) = false := rfl
  simp only [enpassMoves, hb, hw, Bool.false_eq_true, if_false]
  split
  · split <;> split <;> simp
  · simp

theorem genAllMoves_eq (board : Board) (moves : List Nat) :
    genAllMoves board moves = moves ++ (enpassMoves board ++ pushOneMoves board
      ++ pushTwoMoves board ++ takeMoves board ++ promoMoves board
      ++ pieceMoves board (not64 (board.colours board.turn)) ++ castleMoves board) := by
  have hw : (true == WHITE) = false := rfl
  have hw2 : (false == WHITE) = true := rfl
  simp only [genAllMoves, genAllMovesBuild]
  cases hb : board.turn
  · simp only [hw2, if_true]
    rw [enpass_white board moves hb, genCastles_append]
    simp only [pushOneMoves, pushTwoMoves, takeMoves, promoMoves, pieceMoves, castleMoves, hb, hw2,
      buildPawnMoves, buildPawnPromotions, buildKnightMoves, buildBishopAndQueenMoves,
      buildRookAndQueenMoves, buildKingMoves, mine, emptySquares, pawnPushOne, pawnPushTwo,
      pawnTakeLeft, pawnTakeRight, lastRank, forwardShift, leftShift, rightShift, myDiagonals,
      myStraights, if_true, List.append_assoc, List.nil_append]
  · simp only [hw, Bool.false_eq_true, if_false]
    rw [enpass_black board moves hb, genCastles_append]
    simp only [pushOneMoves, pushTwoMoves, takeMoves, promoMoves, pieceMoves, castleMoves, hb, hw,
      buildPawnMoves, buildPawnPromotions, buildKnightMoves, buildBishopAndQueenMoves,
      buildRookAndQueenMoves, buildKingMoves, mine, emptySquares, pawnPushOne, pawnPushTwo,
      pawnTakeLeft, pawnTakeRight, lastRank, forwardShift, leftShift, rightShift, myDiagonals,
      myStraights, Bool.false_eq_true, if_false, List.append_assoc, List.nil_append]

theorem genAllNoisyMoves_eq (board : Board) (moves : List Nat) :
    genAllNoisyMoves board moves = moves ++ (enpassMoves board ++ takeMoves board
      ++ promoMoves board ++ pieceMoves board (board.colours (!board.turn))) := by
  have hw : (true == WHITE) = false := rfl
  have hw2 : (false == WHITE) = true := rfl
  simp only [genAllNoisyMoves, genAllNoisyMovesBuild]
  cases hb : board.turn
  · simp only [hw2, if_true]
    rw [enpass_white board moves hb]
    simp only [takeMoves, promoMoves, pieceMoves, hb, hw2,
      buildPawnMoves, buildPawnPromotions, buildKnightMoves, buildBishopAndQueenMoves,
      buildRookAndQueenMoves, buildKingMoves, mine, emptySquares, pawnPushOne,
      pawnTakeLeft, pawnTakeRight, lastRank, forwardShift, leftShift, rightShift, myDiagonals,
      myStraights, if_true, List.append_assoc, List.nil_append]
  · simp only [hw, Bool.false_eq_true, if_false]
    rw [enpass_black board moves hb]
    simp only [takeMoves, promoMoves, pieceMoves, hb, hw,
      buildPawnMoves, buildPawnPromotions, buildKnightMoves, buildBishopAndQueenMoves,
      buildRookAndQueenMoves, buildKingMoves, mine, emptySquares, pawnPushOne,
      pawnTakeLeft, pawnTakeRight, lastRank, forwardShift, leftShift, rightShift, myDiagonals,
      myStraights, Bool.false_eq_true, if_false, List.append_assoc, List.nil_append]

theorem genAllQuietMoves_eq (board : Board) (moves : List Nat) :
    genAllQuietMoves board moves = moves ++ (pushOneMoves board ++ pushTwoMoves board
      ++ pieceMoves board (emptySquares board) ++ castleMoves board) := by
  have hw : (true == WHITE) = false := rfl
  have hw2 : (false == WHITE) = true := rfl
  have h16 : (2 : Int) * -8 = -16 := by norm_num
  have h16' : (2 : Int) * 8 = 16 := by norm_num
  simp only [genAllQuietMoves]
  rw [genCastles_append]
  cases hb : board.turn
  · simp only [pushOneMoves, pushTwoMoves, pieceMoves, castleMoves, hb, hw2,
      buildPawnMoves, buildKnightMoves, buildBishopAndQueenMoves,
      buildRookAndQueenMoves, buildKingMoves, mine, emptySquares, pawnPushOne, pawnPushTwo,
      lastRank, forwardShift, myDiagonals, and_not_RANK_8_and_RANK_3, h16,
      myStraights, if_true, List.append_assoc, List.nil_append]
  · simp only [pushOneMoves, pushTwoMoves, pieceMoves, castleMoves, hb, hw,
      buildPawnMoves, buildKnightMoves, buildBishopAndQueenMoves,
      buildRookAndQueenMoves, buildKingMoves, mine, emptySquares, pawnPushOne, pawnPushTwo,
      lastRank, forwardShift, myDiagonals, and_not_RANK_1_and_RANK_6, h16',
      myStraights, Bool.false_eq_true, if_false, List.append_assoc, List.nil_append]

theorem lt_of_testBit (bb n t : Nat) (hbb : bb < 2 ^ n) (h : bb.testBit t = true) : t < n := by
  by_contra hn
  rw [testBit_false_of_lt bb n t hbb (by omega)] at h
  exact Bool.false_ne_true h

theorem MoveType_MoveMake_wide (f t : Int) (k : Nat) (hf : f.toNat < 4096) (ht : t.toNat < 64)
    (hk : k < 16) : MoveType (MoveMake f t (k <<< 12)) = k <<< 12 := by
  have h1 : f.toNat ||| (t.toNat <<< 6) < 2 ^ 12 := by
    apply Nat.or_lt_two_pow (by simpa using hf)
    rw [Nat.shiftLeft_eq]
    omega
  have h2 : f.toNat ||| (t.toNat <<< 6) ||| (k <<< 12)
      = 4096 * k + (f.toNat ||| (t.toNat <<< 6)) := by
    rw [Nat.or_comm, Nat.shiftLeft_eq, Nat.mul_comm]
    exact (Nat.mul_add_lt_is_or (i := 12) h1 k).symm
  have : (4096 * k + (f.toNat ||| (t.toNat <<< 6))) / 4096 = k := by
    have := h1
    norm_num at this
    omega
  rw [MoveType_val, MoveMake, h2, this, Nat.mod_eq_of_lt hk, Nat.shiftLeft_eq]

theorem mem_buildPawnMoves (bb : Nat) (delta : Int) (m : Nat) (hbb : bb < 2 ^ 64) :
    m ∈ buildPawnMoves [] bb delta
      ↔ ∃ t : Nat, bb.testBit t = true ∧ m = MoveMake ((t : Int) + delta) t NORMAL_MOVE := by
  simp only [buildPawnMoves, List.nil_append, List.mem_map, mem_bitIter bb _ hbb]
  constructor
  · rintro ⟨t, h1, h2⟩; exact ⟨t, h1, h2.symm⟩
  · rintro ⟨t, h1, h2⟩; exact ⟨t, h1, h2.symm⟩

theorem mem_buildPawnPromotions (bb : Nat) (delta : Int) (m : Nat) (hbb : bb < 2 ^ 64) :
    m ∈ buildPawnPromotions [] bb delta
      ↔ ∃ t : Nat, bb.testBit t = true ∧
        (m = MoveMake ((t : Int) + delta) t QUEEN_PROMO_MOVE
          ∨ m = MoveMake ((t : Int) + delta) t ROOK_PROMO_MOVE
          ∨ m = MoveMake ((t : Int) + delta) t BISHOP_PROMO_MOVE
          ∨ m = MoveMake ((t : Int) + delta) t KNIGHT_PROMO_MOVE) := by
  simp only [buildPawnPromotions, List.nil_append, List.mem_flatMap, mem_bitIter bb _ hbb,
    List.mem_cons, List.mem_singleton, List.not_mem_nil, or_false]

theorem mem_buildNonPawnMoves (bit bb m : Nat) (hbb : bb < 2 ^ 64) :
    m ∈ buildNonPawnMoves bit bb
      ↔ ∃ t : Nat, bb.testBit t = true ∧ m = MoveMake bit t NORMAL_MOVE := by
  simp only [buildNonPawnMoves, List.mem_map, mem_bitIter bb _ hbb]
  constructor
  · rintro ⟨t, h1, h2⟩; exact ⟨t, h1, h2.symm⟩
  · rintro ⟨t, h1, h2⟩; exact ⟨t, h1, h2.symm⟩

theorem KnightAttacks_lt (sq targets : Nat) : KnightAttacks sq targets < 2 ^ 64 :=
  and_lt_left _ _ _ (ofPred_lt _)
theorem BishopAttacks_lt (sq occ targets : Nat) : BishopAttacks sq occ targets < 2 ^ 64 :=
  and_lt_left _ _ _ (ofPred_lt _)
theorem RookAttacks_lt (sq occ targets : Nat) : RookAttacks sq occ targets < 2 ^ 64 :=
  and_lt_left _ _ _ (ofPred_lt _)
theorem KingAttacks_lt (sq targets : Nat) : KingAttacks sq targets < 2 ^ 64 :=
  and_lt_left _ _ _ (ofPred_lt _)

theorem mine_lt (board : Board) (hT : Typed board) (t : Nat) : mine board t < 2 ^ 64 := by
  unfold mine
  apply and_lt_left
  cases hb : board.turn
  · exact hT.2.1
  · exact hT.2.2.1

theorem myDiagonals_lt (board : Board) (hT : Typed board) : myDiagonals board < 2 ^ 64 :=
  Nat.or_lt_two_pow (mine_lt board hT _) (mine_lt board hT _)

theorem myStraights_lt (board : Board) (hT : Typed board) : myStraights board < 2 ^ 64 :=
  Nat.or_lt_two_pow (mine_lt board hT _) (mine_lt board hT _)

/-- Membership in the list of piece moves to `targets`. -/
theorem mem_pieceMoves (board : Board) (hT : Typed board) (targets m : Nat) :
    m ∈ pieceMoves board targets ↔ ∃ f t : Nat, m = MoveMake f t NORMAL_MOVE
      ∧ targets.testBit t = true
      ∧ (((mine board KNIGHT).testBit f = true ∧ (KnightMap f).testBit t = true)
        ∨ ((myDiagonals board).testBit f = true
            ∧ (BishopMap f (not64 (emptySquares board))).testBit t = true)
        ∨ ((myStraights board).testBit f = true
            ∧ (RookMap f (not64 (emptySquares board))).testBit t = true)
        ∨ ((mine board KING).testBit f = true ∧ (KingMap f).testBit t = true)) := by
  simp only [pieceMoves, buildKnightMoves, buildBishopAndQueenMoves, buildRookAndQueenMoves,
    buildKingMoves, List.nil_append, List.mem_append, List.mem_flatMap,
    mem_bitIter _ _ (mine_lt board hT _), mem_bitIter _ _ (myDiagonals_lt board hT),
    mem_bitIter _ _ (myStraights_lt board hT),
    mem_buildNonPawnMoves _ _ _ (KnightAttacks_lt _ _),
    mem_buildNonPawnMoves _ _ _ (BishopAttacks_lt _ _ _),
    mem_buildNonPawnMoves _ _ _ (RookAttacks_lt _ _ _),
    mem_buildNonPawnMoves _ _ _ (KingAttacks_lt _ _)]
  simp only [KnightAttacks, BishopAttacks, RookAttacks, KingAttacks, Nat.testBit_and,
    Bool.and_eq_true]
  constructor
  · rintro (((⟨f, hf, t, ⟨h1, h2⟩, rfl⟩ | ⟨f, hf, t, ⟨h1, h2⟩, rfl⟩) | ⟨f, hf, t, ⟨h1, h2⟩, rfl⟩)
      | ⟨f, hf, t, ⟨h1, h2⟩, rfl⟩)
    · exact ⟨f, t, rfl, h2, Or.inl ⟨hf, h1⟩⟩
    · exact ⟨f, t, rfl, h2, Or.inr (Or.inl ⟨hf, h1⟩)⟩
    · exact ⟨f, t, rfl, h2, Or.inr (Or.inr (Or.inl ⟨hf, h1⟩))⟩
    · exact ⟨f, t, rfl, h2, Or.inr (Or.inr (Or.inr ⟨hf, h1⟩))⟩
  · rintro ⟨f, t, rfl, h2, (⟨hf, h1⟩ | ⟨hf, h1⟩ | ⟨hf, h1⟩ | ⟨hf, h1⟩)⟩
    · exact Or.inl (Or.inl (Or.inl ⟨f, hf, t, ⟨h1, h2⟩, rfl⟩))
    · exact Or.inl (Or.inl (Or.inr ⟨f, hf, t, ⟨h1, h2⟩, rfl⟩))
    · exact Or.inl (Or.inr ⟨f, hf, t, ⟨h1, h2⟩, rfl⟩)
    · exact Or.inr ⟨f, hf, t, ⟨h1, h2⟩, rfl⟩

theorem emptySquares_lt (board : Board) : emptySquares board < 2 ^ 64 := not64_lt _

theorem pawnPushOne_lt (board : Board) : pawnPushOne board < 2 ^ 64 := by
  unfold pawnPushOne; split <;> exact and_lt_right _ _ _ (emptySquares_lt board)

theorem pawnPushTwo_lt (board : Board) : pawnPushTwo board < 2 ^ 64 := by
  unfold pawnPushTwo; split <;> exact and_lt_right _ _ _ (emptySquares_lt board)

theorem pawnTakeLeft_lt (board : Board) : pawnTakeLeft board < 2 ^ 64 := by
  unfold pawnTakeLeft; split <;> exact and_lt_left _ _ _ (and_lt_right _ _ _ (not64_lt _))

theorem pawnTakeRight_lt (board : Board) : pawnTakeRight board < 2 ^ 64 := by
  unfold pawnTakeRight; split <;> exact and_lt_left _ _ _ (and_lt_right _ _ _ (not64_lt _))

/-- A target of a single push is empty, and the square behind it holds a pawn of the side to
move. -/
theorem pawnPushOne_bit (board : Board) (hT : Typed board) (t : Nat)
    (h : (pawnPushOne board).testBit t = true) :
    t < 64 ∧ (emptySquares board).testBit t = true
      ∧ ∃ f : Nat, f < 64 ∧ (f : Int) = (t : Int) + forwardShift board
        ∧ (mine board PAWN).testBit f = true := by
  have hw : (true == WHITE) = false := rfl
  have hw2 : (false == WHITE) = true := rfl
  have hlt := lt_of_testBit _ _ _ (pawnPushOne_lt board) h
  unfold pawnPushOne forwardShift at *
  cases hb : board.turn
  · simp only [hb, hw2, if_true, Nat.testBit_and, testBit_shl64, Bool.and_eq_true,
      decide_eq_true_eq] at h ⊢
    obtain ⟨⟨_, h8, hm⟩, he⟩ := h
    exact ⟨hlt, he, t - 8, by omega, by omega, hm⟩
  · simp only [hb, hw, Bool.false_eq_true, if_false, Nat.testBit_and, Nat.testBit_shiftRight,
      Bool.and_eq_true] at h ⊢
    obtain ⟨hm, he⟩ := h
    have := lt_of_testBit _ _ _ (mine_lt board hT PAWN) hm
    exact ⟨hlt, he, 8 + t, this, by push_cast; omega, hm⟩

/-- A target of a double push is empty, and the square two ranks behind it holds a pawn of
the side to move. -/
theorem pawnPushTwo_bit (board : Board) (hT : Typed board) (t : Nat)
    (h : (pawnPushTwo board).testBit t = true) :
    t < 64 ∧ (emptySquares board).testBit t = true
      ∧ ∃ f : Nat, f < 64 ∧ (f : Int) = (t : Int) + 2 * forwardShift board
        ∧ (mine board PAWN).testBit f = true := by
  have hw : (true == WHITE) = false := rfl
  have hw2 : (false == WHITE) = true := rfl
  have hlt := lt_of_testBit _ _ _ (pawnPushTwo_lt board) h
  unfold pawnPushTwo pawnPushOne forwardShift at *
  cases hb : board.turn
  · simp only [hb, hw2, if_true, Nat.testBit_and, testBit_shl64, Bool.and_eq_true,
      decide_eq_true_eq] at h ⊢
    obtain ⟨⟨_, h8, ⟨⟨_, h8', hm⟩, _⟩, _⟩, he⟩ := h
    refine ⟨hlt, he, t - 8 - 8, by omega, by omega, hm⟩
  · simp only [hb, hw, Bool.false_eq_true, if_false, Nat.testBit_and, Nat.testBit_shiftRight,
      Bool.and_eq_true] at h ⊢
    obtain ⟨⟨⟨hm, _⟩, _⟩, he⟩ := h
    have := lt_of_testBit _ _ _ (mine_lt board hT PAWN) hm
    exact ⟨hlt, he, 8 + (8 + t), this, by push_cast; omega, hm⟩

/-- A target of a capture to the left holds an enemy piece, and the square it is reached from
holds a pawn of the side to move. -/
theorem pawnTakeLeft_bit (board : Board) (hT : Typed board) (t : Nat)
    (h : (pawnTakeLeft board).testBit t = true) :
    t < 64 ∧ (board.colours (!board.turn)).testBit t = true
      ∧ ∃ f : Nat, f < 64 ∧ (f : Int) = (t : Int) + leftShift board
        ∧ (mine board PAWN).testBit f = true := by
  have hw : (true == WHITE) = false := rfl
  have hw2 : (false == WHITE) = true := rfl
  have hlt := lt_of_testBit _ _ _ (pawnTakeLeft_lt board) h
  unfold pawnTakeLeft leftShift at *
  cases hb : board.turn
  · simp only [hb, hw2, if_true, Nat.testBit_and, testBit_shl64, Bool.and_eq_true,
      decide_eq_true_eq] at h ⊢
    obtain ⟨⟨⟨_, h8, hm⟩, _⟩, he⟩ := h
    exact ⟨hlt, he, t - 7, by omega, by omega, hm⟩
  · simp only [hb, hw, Bool.false_eq_true, if_false, Nat.testBit_and, Nat.testBit_shiftRight,
      Bool.and_eq_true] at h ⊢
    obtain ⟨⟨hm, _⟩, he⟩ := h
    have := lt_of_testBit _ _ _ (mine_lt board hT PAWN) hm
    exact ⟨hlt, he, 7 + t, this, by push_cast; omega, hm⟩

/-- A target of a capture to the right holds an enemy piece, and the square it is reached
from holds a pawn of the side to move. -/
theorem pawnTakeRight_bit (board : Board) (hT : Typed board) (t : Nat)
    (h : (pawnTakeRight board).testBit t = true) :
    t < 64 ∧ (board.colours (!board.turn)).testBit t = true
      ∧ ∃ f : Nat, f < 64 ∧ (f : Int) = (t : Int) + rightShift board
        ∧ (mine board PAWN).testBit f = true := by
  have hw : (true == WHITE) = false := rfl
  have hw2 : (false == WHITE) = true := rfl
  have hlt := lt_of_testBit _ _ _ (pawnTakeRight_lt board) h
  unfold pawnTakeRight rightShift at *
  cases hb : board.turn
  · simp only [hb, hw2, if_true, Nat.testBit_and, testBit_shl64, Bool.and_eq_true,
      decide_eq_true_eq] at h ⊢
    obtain ⟨⟨⟨_, h8, hm⟩, _⟩, he⟩ := h
    exact ⟨hlt, he, t - 9, by omega, by omega, hm⟩
  · simp only [hb, hw, Bool.false_eq_true, if_false, Nat.testBit_and, Nat.testBit_shiftRight,
      Bool.and_eq_true] at h ⊢
    obtain ⟨⟨hm, _⟩, he⟩ := h
    have := lt_of_testBit _ _ _ (mine_lt board hT PAWN) hm
    exact ⟨hlt, he, 9 + t, this, by push_cast; omega, hm⟩

theorem decode_nat (f t k : Nat) (hf : f < 64) (ht : t < 64) (hk : k < 16) :
    MoveFrom (MoveMake f t (k <<< 12)) = f ∧ MoveTo (MoveMake f t (k <<< 12)) = t
      ∧ MoveType (MoveMake f t (k <<< 12)) = k <<< 12 := by
  have h1 : (f : Int).toNat < 64 := by simpa using hf
  have h2 : (t : Int).toNat < 64 := by simpa using ht
  refine ⟨?_, ?_, MoveType_MoveMake _ _ _ h1 h2 hk⟩
  · simpa using MoveFrom_MoveMake f t k h1 h2
  · simpa using MoveTo_MoveMake f t k h1 h2

/-- The shape of a non-promoting single push. -/
theorem pushOne_shape (board : Board) (hT : Typed board) (m : Nat)
    (hm : m ∈ pushOneMoves board) :
    MoveType m = NORMAL_MOVE ∧ MoveFrom m < 64 ∧ MoveTo m < 64
      ∧ (emptySquares board).testBit (MoveTo m) = true
      ∧ (lastRank board).testBit (MoveTo m) = false
      ∧ (mine board PAWN).testBit (MoveFrom m) = true
      ∧ (MoveFrom m : Int) = (MoveTo m : Int) + forwardShift board := by
  unfold pushOneMoves at hm
  rw [mem_buildPawnMoves _ _ _ (and_lt_left _ _ _ (pawnPushOne_lt board))] at hm
  obtain ⟨t, ht, rfl⟩ := hm
  rw [Nat.testBit_and, Bool.and_eq_true, testBit_not64] at ht
  obtain ⟨h1, h2⟩ := ht
  obtain ⟨hlt, he, f, hf, hfe, hp⟩ := pawnPushOne_bit board hT t h1
  rw [← hfe]
  obtain ⟨d1, d2, d3⟩ := decode_nat f t 0 hf hlt (by decide)
  have hN : NORMAL_MOVE = 0 <<< 12 := rfl
  rw [hN, d1, d2, d3]
  refine ⟨rfl, hf, hlt, he, ?_, hp, hfe⟩
  simpa [hlt] using h2

/-- The shape of a double push. -/
theorem pushTwo_shape (board : Board) (hT : Typed board) (m : Nat)
    (hm : m ∈ pushTwoMoves board) :
    MoveType m = NORMAL_MOVE ∧ MoveFrom m < 64 ∧ MoveTo m < 64
      ∧ (emptySquares board).testBit (MoveTo m) = true
      ∧ (mine board PAWN).testBit (MoveFrom m) = true
      ∧ (MoveFrom m : Int) = (MoveTo m : Int) + 2 * forwardShift board := by
  unfold pushTwoMoves at hm
  rw [mem_buildPawnMoves _ _ _ (pawnPushTwo_lt board)] at hm
  obtain ⟨t, ht, rfl⟩ := hm
  obtain ⟨hlt, he, f, hf, hfe, hp⟩ := pawnPushTwo_bit board hT t ht
  rw [← hfe]
  obtain ⟨d1, d2, d3⟩ := decode_nat f t 0 hf hlt (by decide)
  have hN : NORMAL_MOVE = 0 <<< 12 := rfl
  rw [hN, d1, d2, d3]
  exact ⟨rfl, hf, hlt, he, hp, hfe⟩

/-- The shape of a non-promoting pawn capture. -/
theorem take_shape (board : Board) (hT : Typed board) (m : Nat)
    (hm : m ∈ takeMoves board) :
    MoveType m = NORMAL_MOVE ∧ MoveFrom m < 64 ∧ MoveTo m < 64
      ∧ (board.colours (!board.turn)).testBit (MoveTo m) = true
      ∧ (lastRank board).testBit (MoveTo m) = false
      ∧ (mine board PAWN).testBit (MoveFrom m) = true
      ∧ ((MoveFrom m : Int) = (MoveTo m : Int) + leftShift board
        ∨ (MoveFrom m : Int) = (MoveTo m : Int) + rightShift board) := by
  have hN : NORMAL_MOVE = 0 <<< 12 := rfl
  unfold takeMoves at hm
  rw [List.mem_append, mem_buildPawnMoves _ _ _ (and_lt_left _ _ _ (pawnTakeLeft_lt board)),
    mem_buildPawnMoves _ _ _ (and_lt_left _ _ _ (pawnTakeRight_lt board))] at hm
  rcases hm with ⟨t, ht, rfl⟩ | ⟨t, ht, rfl⟩
  · rw [Nat.testBit_and, Bool.and_eq_true, testBit_not64] at ht
    obtain ⟨h1, h2⟩ := ht
    obtain ⟨hlt, he, f, hf, hfe, hp⟩ := pawnTakeLeft_bit board hT t h1
    rw [← hfe]
    obtain ⟨d1, d2, d3⟩ := decode_nat f t 0 hf hlt (by decide)
    rw [hN, d1, d2, d3]
    refine ⟨rfl, hf, hlt, he, ?_, hp, Or.inl hfe⟩
    simpa [hlt] using h2
  · rw [Nat.testBit_and, Bool.and_eq_true, testBit_not64] at ht
    obtain ⟨h1, h2⟩ := ht
    obtain ⟨hlt, he, f, hf, hfe, hp⟩ := pawnTakeRight_bit board hT t h1
    rw [← hfe]
    obtain ⟨d1, d2, d3⟩ := decode_nat f t 0 hf hlt (by decide)
    rw [hN, d1, d2, d3]
    refine ⟨rfl, hf, hlt, he, ?_, hp, Or.inr hfe⟩
    simpa [hlt] using h2

/-- The flag is one of the four promotion flags. -/
theorem promo_flags (m f t : Nat) (hf : f < 64) (ht : t < 64)
    (h : m = MoveMake f t QUEEN_PROMO_MOVE ∨ m = MoveMake f t ROOK_PROMO_MOVE
      ∨ m = MoveMake f t BISHOP_PROMO_MOVE ∨ m = MoveMake f t KNIGHT_PROMO_MOVE) :
    (MoveType m = QUEEN_PROMO_MOVE ∨ MoveType m = ROOK_PROMO_MOVE
      ∨ MoveType m = BISHOP_PROMO_MOVE ∨ MoveType m = KNIGHT_PROMO_MOVE)
      ∧ MoveFrom m = f ∧ MoveTo m = t := by
  have hQ : QUEEN_PROMO_MOVE = 15 <<< 12 := rfl
  have hR : ROOK_PROMO_MOVE = 11 <<< 12 := rfl
  have hB : BISHOP_PROMO_MOVE = 7 <<< 12 := rfl
  have hK : KNIGHT_PROMO_MOVE = 3 <<< 12 := rfl
  rcases h with rfl | rfl | rfl | rfl
  · obtain ⟨d1, d2, d3⟩ := decode_nat f t 15 hf ht (by decide)
    exact ⟨Or.inl d3, d1, d2⟩
  · obtain ⟨d1, d2, d3⟩ := decode_nat f t 11 hf ht (by decide)
    exact ⟨Or.inr (Or.inl d3), d1, d2⟩
  · obtain ⟨d1, d2, d3⟩ := decode_nat f t 7 hf ht (by decide)
    exact ⟨Or.inr (Or.inr (Or.inl d3)), d1, d2⟩
  · obtain ⟨d1, d2, d3⟩ := decode_nat f t 3 hf ht (by decide)
    exact ⟨Or.inr (Or.inr (Or.inr d3)), d1, d2⟩

/-- The shape of a promotion: a promotion flag, a pawn of the side to move on the
from-square, the to-square on the last rank, reached by a push to an empty square or by a
capture of an enemy piece. -/
theorem promo_shape (board : Board) (hT : Typed board) (m : Nat)
    (hm : m ∈ promoMoves board) :
    (MoveType m = QUEEN_PROMO_MOVE ∨ MoveType m = ROOK_PROMO_MOVE
      ∨ MoveType m = BISHOP_PROMO_MOVE ∨ MoveType m = KNIGHT_PROMO_MOVE)
      ∧ MoveFrom m < 64 ∧ MoveTo m < 64
      ∧ (lastRank board).testBit (MoveTo m) = true
      ∧ (mine board PAWN).testBit (MoveFrom m) = true
      ∧ (((emptySquares board).testBit (MoveTo m) = true
          ∧ (MoveFrom m : Int) = (MoveTo m : Int) + forwardShift board)
        ∨ ((board.colours (!board.turn)).testBit (MoveTo m) = true
          ∧ ((MoveFrom m : Int) = (MoveTo m : Int) + leftShift board
            ∨ (MoveFrom m : Int) = (MoveTo m : Int) + rightShift board))) := by
  unfold promoMoves at hm
  rw [List.mem_append, List.mem_append,
    mem_buildPawnPromotions _ _ _ (and_lt_left _ _ _ (pawnPushOne_lt board)),
    mem_buildPawnPromotions _ _ _ (and_lt_left _ _ _ (pawnTakeLeft_lt board)),
    mem_buildPawnPromotions _ _ _ (and_lt_left _ _ _ (pawnTakeRight_lt board))] at hm
  rcases hm with (⟨t, ht, hm⟩ | ⟨t, ht, hm⟩) | ⟨t, ht, hm⟩
  · rw [Nat.testBit_and, Bool.and_eq_true] at ht
    obtain ⟨h1, h2⟩ := ht
    obtain ⟨hlt, he, f, hf, hfe, hp⟩ := pawnPushOne_bit board hT t h1
    rw [← hfe] at hm
    obtain ⟨e1, e2, e3⟩ := promo_flags m f t hf hlt hm
    rw [e2, e3]
    exact ⟨e1, hf, hlt, h2, hp, Or.inl ⟨he, hfe⟩⟩
  · rw [Nat.testBit_and, Bool.and_eq_true] at ht
    obtain ⟨h1, h2⟩ := ht
    obtain ⟨hlt, he, f, hf, hfe, hp⟩ := pawnTakeLeft_bit board hT t h1
    rw [← hfe] at hm
    obtain ⟨e1, e2, e3⟩ := promo_flags m f t hf hlt hm
    rw [e2, e3]
    exact ⟨e1, hf, hlt, h2, hp, Or.inr ⟨he, Or.inl hfe⟩⟩
  · rw [Nat.testBit_and, Bool.and_eq_true] at ht
    obtain ⟨h1, h2⟩ := ht
    obtain ⟨hlt, he, f, hf, hfe, hp⟩ := pawnTakeRight_bit board hT t h1
    rw [← hfe] at hm
    obtain ⟨e1, e2, e3⟩ := promo_flags m f t hf hlt hm
    rw [e2, e3]
    exact ⟨e1, hf, hlt, h2, hp, Or.inr ⟨he, Or.inr hfe⟩⟩

/-- The shape of a piece move: a `NORMAL` move from a piece of the side to move to a target
that the piece attacks. -/
theorem piece_shape (board : Board) (hT : Typed board) (targets m : Nat)
    (htg : targets < 2 ^ 64) (hm : m ∈ pieceMoves board targets) :
    MoveType m = NORMAL_MOVE ∧ MoveFrom m < 64 ∧ MoveTo m < 64
      ∧ targets.testBit (MoveTo m) = true
      ∧ (((mine board KNIGHT).testBit (MoveFrom m) = true
          ∧ (KnightMap (MoveFrom m)).testBit (MoveTo m) = true)
        ∨ ((myDiagonals board).testBit (MoveFrom m) = true
            ∧ (BishopMap (MoveFrom m) (not64 (emptySquares board))).testBit (MoveTo m) = true)
        ∨ ((myStraights board).testBit (MoveFrom m) = true
            ∧ (RookMap (MoveFrom m) (not64 (emptySquares board))).testBit (MoveTo m) = true)
        ∨ ((mine board KING).testBit (MoveFrom m) = true
          ∧ (KingMap (MoveFrom m)).testBit (MoveTo m) = true)) := by
  rw [mem_pieceMoves board hT] at hm
  obtain ⟨f, t, rfl, ht, h⟩ := hm
  have hlt : t < 64 := lt_of_testBit _ _ _ htg ht
  have hf : f < 64 := by
    rcases h with h | h | h | h
    · exact lt_of_testBit _ _ _ (mine_lt board hT _) h.1
    · exact lt_of_testBit _ _ _ (myDiagonals_lt board hT) h.1
    · exact lt_of_testBit _ _ _ (myStraights_lt board hT) h.1
    · exact lt_of_testBit _ _ _ (mine_lt board hT _) h.1
  obtain ⟨d1, d2, d3⟩ := decode_nat f t 0 hf hlt (by decide)
  have hN : NORMAL_MOVE = 0 <<< 12 := rfl
  rw [hN, d1, d2, d3]
  exact ⟨rfl, hf, hlt, ht, h⟩

theorem testBit_not64_not64 (x i : Nat) :
    (not64 (not64 x)).testBit i = (decide (i < 64) && x.testBit i) := by
  rw [testBit_not64, testBit_not64]
  by_cases h : i < 64 <;> simp [h]

/-- The occupied squares, as the generators compute them. -/
theorem testBit_notEmpty (board : Board) (i : Nat) (hi : i < 64) :
    (not64 (emptySquares board)).testBit i = (occupancy board).testBit i := by
  unfold emptySquares occupancy
  rw [testBit_not64_not64]
  cases hb : board.turn <;> simp [hi, WHITE, BLACK, Nat.testBit_or, Bool.or_comm]

theorem testBit_emptySquares (board : Board) (i : Nat) (hi : i < 64) :
    (emptySquares board).testBit i = !(occupancy board).testBit i := by
  unfold emptySquares occupancy
  rw [testBit_not64]
  cases hb : board.turn <;> simp [hi, WHITE, BLACK, Nat.testBit_or, Bool.or_comm]

theorem and_eq_zero_iff_testBit (x y : Nat) :
    x &&& y = 0 ↔ ∀ i, y.testBit i = true → x.testBit i = false := by
  constructor
  · intro h i hy
    have := congrArg (fun z => z.testBit i) h
    simp only [Nat.testBit_and, Nat.zero_testBit, hy, Bool.and_true] at this
    exact this
  · intro h
    apply Nat.eq_of_testBit_eq
    intro i
    rw [Nat.testBit_and, Nat.zero_testBit]
    cases hy : y.testBit i
    · simp
    · simp [h i hy]

theorem testBit_WhiteCastleKingSide (i : Nat) :
    WHITE_CASTLE_KING_SIDE_MAP.testBit i = decide (i = 5 ∨ i = 6) :=
  testBit_const _ (fun i => decide (i = 5 ∨ i = 6)) (by decide) (by decide)
    (fun i hi => by simp only [decide_eq_false_iff_not]; omega) i

theorem testBit_WhiteCastleQueenSide (i : Nat) :
    WHITE_CASTLE_QUEEN_SIDE_MAP.testBit i = decide (i = 1 ∨ i = 2 ∨ i = 3) :=
  testBit_const _ (fun i => decide (i = 1 ∨ i = 2 ∨ i = 3)) (by decide) (by decide)
    (fun i hi => by simp only [decide_eq_false_iff_not]; omega) i

theorem testBit_BlackCastleKingSide (i : Nat) :
    BLACK_CASTLE_KING_SIDE_MAP.testBit i = decide (i = 61 ∨ i = 62) :=
  testBit_const _ (fun i => decide (i = 61 ∨ i = 62)) (by decide) (by decide)
    (fun i hi => by simp only [decide_eq_false_iff_not]; omega) i

theorem testBit_BlackCastleQueenSide (i : Nat) :
    BLACK_CASTLE_QUEEN_SIDE_MAP.testBit i = decide (i = 57 ∨ i = 58 ∨ i = 59) :=
  testBit_const _ (fun i => decide (i = 57 ∨ i = 58 ∨ i = 59)) (by decide) (by decide)
    (fun i hi => by simp only [decide_eq_false_iff_not]; omega) i

/-- The path test of the white king-side castle. -/
theorem path_white_king (board : Board) :
    (not64 (emptySquares board) &&& WHITE_CASTLE_KING_SIDE_MAP == 0) = true
      ↔ (occupancy board).testBit 5 = false ∧ (occupancy board).testBit 6 = false := by
  rw [beq_iff_eq, and_eq_zero_iff_testBit]
  simp only [testBit_WhiteCastleKingSide, decide_eq_true_eq]
  constructor
  · intro h
    have h5 := h 5 (Or.inl rfl)
    have h6 := h 6 (Or.inr rfl)
    rw [testBit_notEmpty board 5 (by decide)] at h5
    rw [testBit_notEmpty board 6 (by decide)] at h6
    exact ⟨h5, h6⟩
  · rintro ⟨h5, h6⟩ i (rfl | rfl)
    · rw [testBit_notEmpty board 5 (by decide)]; exact h5
    · rw [testBit_notEmpty board 6 (by decide)]; exact h6

/-- The path test of the white queen-side castle. -/
theorem path_white_queen (board : Board) :
    (not64 (emptySquares board) &&& WHITE_CASTLE_QUEEN_SIDE_MAP == 0) = true
      ↔ (occupancy board).testBit 1 = false ∧ (occupancy board).testBit 2 = false
        ∧ (occupancy board).testBit 3 = false := by
  rw [beq_iff_eq, and_eq_zero_iff_testBit]
  simp only [testBit_WhiteCastleQueenSide, decide_eq_true_eq]
  constructor
  · intro h
    have h1 := h 1 (Or.inl rfl)
    have h2 := h 2 (Or.inr (Or.inl rfl))
    have h3 := h 3 (Or.inr (Or.inr rfl))
    rw [testBit_notEmpty board _ (by decide)] at h1 h2 h3
    exact ⟨h1, h2, h3⟩
  · rintro ⟨h1, h2, h3⟩ i (rfl | rfl | rfl)
    · rw [testBit_notEmpty board _ (by decide)]; exact h1
    · rw [testBit_notEmpty board _ (by decide)]; exact h2
    · rw [testBit_notEmpty board _ (by decide)]; exact h3

/-- The path test of the black king-side castle. -/
theorem path_black_king (board : Board) :
    (not64 (emptySquares board) &&& BLACK_CASTLE_KING_SIDE_MAP == 0) = true
      ↔ (occupancy board).testBit 61 = false ∧ (occupancy board).testBit 62 = false := by
  rw [beq_iff_eq, and_eq_zero_iff_testBit]
  simp only [testBit_BlackCastleKingSide, decide_eq_true_eq]
  constructor
  · intro h
    have h5 := h 61 (Or.inl rfl)
    have h6 := h 62 (Or.inr rfl)
    rw [testBit_notEmpty board _ (by decide)] at h5 h6
    exact ⟨h5, h6⟩
  · rintro ⟨h5, h6⟩ i (rfl | rfl)
    · rw [testBit_notEmpty board _ (by decide)]; exact h5
    · rw [testBit_notEmpty board _ (by decide)]; exact h6

/-- The path test of the black queen-side castle. -/
theorem path_black_queen (board : Board) :
    (not64 (emptySquares board) &&& BLACK_CASTLE_QUEEN_SIDE_MAP == 0) = true
      ↔ (occupancy board).testBit 57 = false ∧ (occupancy board).testBit 58 = false
        ∧ (occupancy board).testBit 59 = false := by
  rw [beq_iff_eq, and_eq_zero_iff_testBit]
  simp only [testBit_BlackCastleQueenSide, decide_eq_true_eq]
  constructor
  · intro h
    have h1 := h 57 (Or.inl rfl)
    have h2 := h 58 (Or.inr (Or.inl rfl))
    have h3 := h 59 (Or.inr (Or.inr rfl))
    rw [testBit_notEmpty board _ (by decide)] at h1 h2 h3
    exact ⟨h1, h2, h3⟩
  · rintro ⟨h1, h2, h3⟩ i (rfl | rfl | rfl)
    · rw [testBit_notEmpty board _ (by decide)]; exact h1
    · rw [testBit_notEmpty board _ (by decide)]; exact h2
    · rw [testBit_notEmpty board _ (by decide)]; exact h3

/-- The castle block as a list. -/
theorem castleMoves_eq (board : Board) :
    castleMoves board =
      if isNotInCheck board board.turn = true then
        if board.turn = WHITE then
          (if castleTest board WHITE_CASTLE_KING_SIDE_MAP WHITE_KING_RIGHTS WHITE 5 = true then
            [MoveMake 4 6 CASTLE_MOVE] else [])
          ++ (if castleTest board WHITE_CASTLE_QUEEN_SIDE_MAP WHITE_QUEEN_RIGHTS WHITE 3 = true
            then [MoveMake 4 2 CASTLE_MOVE] else [])
        else
          (if castleTest board BLACK_CASTLE_KING_SIDE_MAP BLACK_KING_RIGHTS BLACK 61 = true then
            [MoveMake 60 62 CASTLE_MOVE] else [])
          ++ (if castleTest board BLACK_CASTLE_QUEEN_SIDE_MAP BLACK_QUEEN_RIGHTS BLACK 59 = true
            then [MoveMake 60 58 CASTLE_MOVE] else [])
      else [] := by
  have hw : (true == WHITE) = false := rfl
  have hw2 : (false == WHITE) = true := rfl
  have hw3 : (true = WHITE) = False := by simp [WHITE]
  have hw4 : (false = WHITE) = True := by simp [WHITE]
  unfold castleMoves genCastles castleTest
  by_cases hc : isNotInCheck board board.turn = true
  · simp only [hc, if_true]
    cases hb : board.turn
    · simp only [hw2, hw4, if_true, List.nil_append]
      generalize (not64 (emptySquares board) &&& WHITE_CASTLE_KING_SIDE_MAP == 0
        && board.castleRights &&& WHITE_KING_RIGHTS != 0
        && !squareIsAttacked board WHITE 5) = c1
      generalize (not64 (emptySquares board) &&& WHITE_CASTLE_QUEEN_SIDE_MAP == 0
        && board.castleRights &&& WHITE_QUEEN_RIGHTS != 0
        && !squareIsAttacked board WHITE 3) = c2
      cases c1 <;> cases c2 <;> rfl
    · simp only [hw, hw3, Bool.false_eq_true, if_false, List.nil_append]
      generalize (not64 (emptySquares board) &&& BLACK_CASTLE_KING_SIDE_MAP == 0
        && board.castleRights &&& BLACK_KING_RIGHTS != 0
        && !squareIsAttacked board BLACK 61) = c1
      generalize (not64 (emptySquares board) &&& BLACK_CASTLE_QUEEN_SIDE_MAP == 0
        && board.castleRights &&& BLACK_QUEEN_RIGHTS != 0
        && !squareIsAttacked board BLACK 59) = c2
      cases c1 <;> cases c2 <;> rfl
  · simp only [hc, Bool.false_eq_true, if_false]

/-- The castle block, move by move. -/
theorem mem_castleMoves (board : Board) (m : Nat) :
    m ∈ castleMoves board ↔ isNotInCheck board board.turn = true ∧
      ((board.turn = WHITE ∧ m = MoveMake 4 6 CASTLE_MOVE
          ∧ castleTest board WHITE_CASTLE_KING_SIDE_MAP WHITE_KING_RIGHTS WHITE 5 = true)
        ∨ (board.turn = WHITE ∧ m = MoveMake 4 2 CASTLE_MOVE
          ∧ castleTest board WHITE_CASTLE_QUEEN_SIDE_MAP WHITE_QUEEN_RIGHTS WHITE 3 = true)
        ∨ (board.turn = BLACK ∧ m = MoveMake 60 62 CASTLE_MOVE
          ∧ castleTest board BLACK_CASTLE_KING_SIDE_MAP BLACK_KING_RIGHTS BLACK 61 = true)
        ∨ (board.turn = BLACK ∧ m = MoveMake 60 58 CASTLE_MOVE
          ∧ castleTest board BLACK_CASTLE_QUEEN_SIDE_MAP BLACK_QUEEN_RIGHTS BLACK 59 = true)) := by
  rw [castleMoves_eq]
  by_cases hc : isNotInCheck board board.turn = true
  · simp only [hc, if_true, true_and]
    cases hb : board.turn
    · have e1 : (false = WHITE) = True := by simp [WHITE]
      have e2 : (false = BLACK) = False := by simp [BLACK]
      simp only [e1, e2, if_true, false_and, or_false, true_and, List.mem_append]
      cases castleTest board WHITE_CASTLE_KING_SIDE_MAP WHITE_KING_RIGHTS WHITE 5 <;>
      cases castleTest board WHITE_CASTLE_QUEEN_SIDE_MAP WHITE_QUEEN_RIGHTS WHITE 3 <;>
      simp
    · have e1 : (true = WHITE) = False := by simp [WHITE]
      have e2 : (true = BLACK) = True := by simp [BLACK]
      simp only [e1, e2, if_false, false_and, false_or, true_and, List.mem_append]
      cases castleTest board BLACK_CASTLE_KING_SIDE_MAP BLACK_KING_RIGHTS BLACK 61 <;>
      cases castleTest board BLACK_CASTLE_QUEEN_SIDE_MAP BLACK_QUEEN_RIGHTS BLACK 59 <;>
      simp
  · simp [hc]

/-- The guard of a castle move, condition by condition. -/
theorem castleTest_iff (board : Board) (map rights : Nat) (colour : Bool) (sq : Nat) :
    castleTest board map rights colour sq = true
      ↔ (not64 (emptySquares board) &&& map == 0) = true ∧ board.castleRights &&& rights ≠ 0
        ∧ squareIsAttacked board colour sq = false := by
  unfold castleTest
  simp only [Bool.and_eq_true, bne_iff_ne, ne_eq, Bool.not_eq_true', and_assoc]

theorem mem_genAllMoves (board : Board) (m : Nat) :
    m ∈ genAllMoves board [] ↔ m ∈ enpassMoves board ∨ m ∈ pushOneMoves board
      ∨ m ∈ pushTwoMoves board ∨ m ∈ takeMoves board ∨ m ∈ promoMoves board
      ∨ m ∈ pieceMoves board (not64 (board.colours board.turn)) ∨ m ∈ castleMoves board := by
  have h := genAllMoves_eq board []
  rw [h, List.nil_append]
  repeat rw [List.mem_append]
  simp only [or_assoc]

theorem mem_genAllNoisyMoves (board : Board) (m : Nat) :
    m ∈ genAllNoisyMoves board [] ↔ m ∈ enpassMoves board ∨ m ∈ takeMoves board
      ∨ m ∈ promoMoves board ∨ m ∈ pieceMoves board (board.colours (!board.turn)) := by
  have h := genAllNoisyMoves_eq board []
  rw [h, List.nil_append]
  repeat rw [List.mem_append]
  simp only [or_assoc]

theorem mem_genAllQuietMoves (board : Board) (m : Nat) :
    m ∈ genAllQuietMoves board [] ↔ m ∈ pushOneMoves board ∨ m ∈ pushTwoMoves board
      ∨ m ∈ pieceMoves board (emptySquares board) ∨ m ∈ castleMoves board := by
  have h := genAllQuietMoves_eq board []
  rw [h, List.nil_append]
  repeat rw [List.mem_append]
  simp only [or_assoc]

/-- Every en-passant move carries the `ENPASS` flag. -/
theorem enpass_flag (board : Board) (hT : Typed board) (m : Nat) (hm : m ∈ enpassMoves board) :
    MoveType m = ENPASS_MOVE := by
  obtain ⟨_, _, _, h1, h2⟩ := hT
  have hE : ENPASS_MOVE = 2 <<< 12 := rfl
  have key : ∀ d : Int, -9 ≤ d → d ≤ 9 →
      MoveType (MoveMake (board.epSquare + d) board.epSquare ENPASS_MOVE) = ENPASS_MOVE := by
    intro d hd1 hd2
    rw [hE]
    apply MoveType_MoveMake_wide _ _ _ _ _ (by decide) <;> omega
  unfold enpassMoves at hm
  split at hm <;> split at hm
  · rw [List.mem_append] at hm
    rcases hm with hm | hm <;> split at hm <;> simp only [List.mem_singleton, List.not_mem_nil] at hm
    · rw [hm]; exact key (-7) (by decide) (by decide)
    · rw [hm]; exact key (-9) (by decide) (by decide)
  · simp at hm
  · rw [List.mem_append] at hm
    rcases hm with hm | hm <;> split at hm <;> simp only [List.mem_singleton, List.not_mem_nil] at hm
    · rw [hm]; exact key 7 (by decide) (by decide)
    · rw [hm]; exact key 9 (by decide) (by decide)
  · simp at hm

/-- Every castle move carries the `CASTLE` flag and ends on an empty square. -/
theorem castle_shape (board : Board) (m : Nat) (hm : m ∈ castleMoves board) :
    MoveType m = CASTLE_MOVE ∧ MoveFrom m < 64 ∧ MoveTo m < 64
      ∧ (emptySquares board).testBit (MoveTo m) = true
      ∧ (m = MoveMake 4 6 CASTLE_MOVE ∨ m = MoveMake 4 2 CASTLE_MOVE
        ∨ m = MoveMake 60 62 CASTLE_MOVE ∨ m = MoveMake 60 58 CASTLE_MOVE) := by
  rw [mem_castleMoves] at hm
  obtain ⟨_, h⟩ := hm
  rcases h with ⟨_, rfl, h⟩ | ⟨_, rfl, h⟩ | ⟨_, rfl, h⟩ | ⟨_, rfl, h⟩ <;>
    rw [castleTest_iff] at h <;> obtain ⟨hp, _, _⟩ := h
  · rw [path_white_king] at hp
    refine ⟨by decide!, by decide!, by decide!, ?_, Or.inl rfl⟩
    have : MoveTo (MoveMake 4 6 CASTLE_MOVE) = 6 := by decide!
    rw [this, testBit_emptySquares board 6 (by decide!), hp.2]; rfl
  · rw [path_white_queen] at hp
    refine ⟨by decide!, by decide!, by decide!, ?_, Or.inr (Or.inl rfl)⟩
    have : MoveTo (MoveMake 4 2 CASTLE_MOVE) = 2 := by decide!
    rw [this, testBit_emptySquares board 2 (by decide!), hp.2.1]; rfl
  · rw [path_black_king] at hp
    refine ⟨by decide!, by decide!, by decide!, ?_, Or.inr (Or.inr (Or.inl rfl))⟩
    have : MoveTo (MoveMake 60 62 CASTLE_MOVE) = 62 := by decide!
    rw [this, testBit_emptySquares board 62 (by decide!), hp.2]; rfl
  · rw [path_black_queen] at hp
    refine ⟨by decide!, by decide!, by decide!, ?_, Or.inr (Or.inr (Or.inr rfl))⟩
    have : MoveTo (MoveMake 60 58 CASTLE_MOVE) = 58 := by decide!
    rw [this, testBit_emptySquares board 58 (by decide!), hp.2.1]; rfl

theorem not64_colours_lt (board : Board) : not64 (board.colours board.turn) < 2 ^ 64 :=
  not64_lt _

/-- In the list of `genAllMoves` the moves with the `CASTLE` flag are those of the castle
block. -/
theorem castle_mem_genAllMoves (board : Board) (hT : Typed board) (m : Nat)
    (hc : MoveType m = CASTLE_MOVE) : m ∈ genAllMoves board [] ↔ m ∈ castleMoves board := by
  rw [mem_genAllMoves]
  constructor
  · rintro (h | h | h | h | h | h | h)
    · have := enpass_flag board hT m h; rw [hc] at this; exact absurd this (by decide)
    · have := (pushOne_shape board hT m h).1; rw [hc] at this; exact absurd this (by decide)
    · have := (pushTwo_shape board hT m h).1; rw [hc] at this; exact absurd this (by decide)
    · have := (take_shape board hT m h).1; rw [hc] at this; exact absurd this (by decide)
    · have := (promo_shape board hT m h).1; rw [hc] at this
      rcases this with h | h | h | h <;> exact absurd h (by decide)
    · have := (piece_shape board hT _ m (not64_lt _) h).1; rw [hc] at this
      exact absurd this (by decide)
    · exact h
  · intro h
    exact Or.inr (Or.inr (Or.inr (Or.inr (Or.inr (Or.inr h)))))

/-- In the list of `genAllQuietMoves` the moves with the `CASTLE` flag are those of the
castle block. -/
theorem castle_mem_genAllQuietMoves (board : Board) (hT : Typed board) (m : Nat)
    (hc : MoveType m = CASTLE_MOVE) :
    m ∈ genAllQuietMoves board [] ↔ m ∈ castleMoves board := by
  rw [mem_genAllQuietMoves]
  constructor
  · rintro (h | h | h | h)
    · have := (pushOne_shape board hT m h).1; rw [hc] at this; exact absurd this (by decide)
    · have := (pushTwo_shape board hT m h).1; rw [hc] at this; exact absurd this (by decide)
    · have := (piece_shape board hT _ m (emptySquares_lt _) h).1; rw [hc] at this
      exact absurd this (by decide)
    · exact h
  · intro h
    exact Or.inr (Or.inr (Or.inr h))

theorem legalLoop_eq {Undo : Type} (applyMove : Board → Nat → Board × Undo)
    (revertMove : Board → Nat → Undo → Board) (board : Board) (l : List Nat) :
    ∀ (moves : List Nat),
    (∀ m ∈ l, revertMove (applyMove board m).1 m (applyMove board m).2 = board) →
    (∀ m ∈ l, (applyMove board m).1.turn = !board.turn) →
    l.foldl (fun (state : Board × List Nat) m =>
      let applied := applyMove state.1 m
      let board := applied.1
      let moves := if isNotInCheck board (!board.turn) then state.2 ++ [m] else state.2
      (revertMove board m applied.2, moves)) (board, moves)
    = (board, moves ++ l.filter fun m => isNotInCheck (applyMove board m).1 board.turn) := by
  induction l with
  | nil => intro moves _ _; simp
  | cons m l ih =>
    intro moves hrev hflip
    have h1 := hrev m (List.mem_cons_self _ _)
    have h2 := hflip m (List.mem_cons_self _ _)
    rw [List.foldl_cons]
    simp only [h1, h2, Bool.not_not]
    rw [ih _ (fun x hx => hrev x (List.mem_cons_of_mem _ hx))
      (fun x hx => hflip x (List.mem_cons_of_mem _ hx)), List.filter_cons]
    by_cases hc : isNotInCheck (applyMove board m).1 board.turn = true
    · simp [hc]
    · simp [hc]


/-- The guard of a castle move in the words of the specification. -/
theorem castle_guard (board : Board) (m : Nat) (colour : Bool) (map rights sq : Nat)
    (hm : m ∈ castleMoves board ↔ isNotInCheck board board.turn = true ∧ board.turn = colour
      ∧ castleTest board map rights colour sq = true) (P : Prop)
    (hp : (not64 (emptySquares board) &&& map == 0) = true ↔ P) :
    m ∈ castleMoves board ↔ board.turn = colour ∧ isNotInCheck board colour = true ∧ P
      ∧ board.castleRights &&& rights ≠ 0 ∧ squareIsAttacked board colour sq = false := by
  rw [hm, castleTest_iff, hp]
  constructor
  · rintro ⟨h1, h2, h3⟩; rw [h2] at h1; exact ⟨h2, h1, h3⟩
  · rintro ⟨h1, h2, h3⟩; rw [← h1] at h2; exact ⟨h2, h1, h3⟩

theorem castle_white_king (board : Board) :
    MoveMake 4 6 CASTLE_MOVE ∈ castleMoves board ↔ isNotInCheck board board.turn = true
      ∧ board.turn = WHITE
      ∧ castleTest board WHITE_CASTLE_KING_SIDE_MAP WHITE_KING_RIGHTS WHITE 5 = true := by
  rw [mem_castleMoves]
  have e1 : MoveMake 4 6 CASTLE_MOVE ≠ MoveMake 4 2 CASTLE_MOVE := by decide!
  have e2 : MoveMake 4 6 CASTLE_MOVE ≠ MoveMake 60 62 CASTLE_MOVE := by decide!
  have e3 : MoveMake 4 6 CASTLE_MOVE ≠ MoveMake 60 58 CASTLE_MOVE := by decide!
  simp only [e1, e2, e3, false_and, and_false, or_false, true_and]

theorem castle_white_queen (board : Board) :
    MoveMake 4 2 CASTLE_MOVE ∈ castleMoves board ↔ isNotInCheck board board.turn = true
      ∧ board.turn = WHITE
      ∧ castleTest board WHITE_CASTLE_QUEEN_SIDE_MAP WHITE_QUEEN_RIGHTS WHITE 3 = true := by
  rw [mem_castleMoves]
  have e1 : MoveMake 4 2 CASTLE_MOVE ≠ MoveMake 4 6 CASTLE_MOVE := by decide!
  have e2 : MoveMake 4 2 CASTLE_MOVE ≠ MoveMake 60 62 CASTLE_MOVE := by decide!
  have e3 : MoveMake 4 2 CASTLE_MOVE ≠ MoveMake 60 58 CASTLE_MOVE := by decide!
  simp only [e1, e2, e3, false_and, and_false, or_false, false_or, true_and]

theorem castle_black_king (board : Board) :
    MoveMake 60 62 CASTLE_MOVE ∈ castleMoves board ↔ isNotInCheck board board.turn = true
      ∧ board.turn = BLACK
      ∧ castleTest board BLACK_CASTLE_KING_SIDE_MAP BLACK_KING_RIGHTS BLACK 61 = true := by
  rw [mem_castleMoves]
  have e1 : MoveMake 60 62 CASTLE_MOVE ≠ MoveMake 4 6 CASTLE_MOVE := by decide!
  have e2 : MoveMake 60 62 CASTLE_MOVE ≠ MoveMake 4 2 CASTLE_MOVE := by decide!
  have e3 : MoveMake 60 62 CASTLE_MOVE ≠ MoveMake 60 58 CASTLE_MOVE := by decide!
  simp only [e1, e2, e3, false_and, and_false, or_false, false_or, true_and]

theorem castle_black_queen (board : Board) :
    MoveMake 60 58 CASTLE_MOVE ∈ castleMoves board ↔ isNotInCheck board board.turn = true
      ∧ board.turn = BLACK
      ∧ castleTest board BLACK_CASTLE_QUEEN_SIDE_MAP BLACK_QUEEN_RIGHTS BLACK 59 = true := by
  rw [mem_castleMoves]
  have e1 : MoveMake 60 58 CASTLE_MOVE ≠ MoveMake 4 6 CASTLE_MOVE := by decide!
  have e2 : MoveMake 60 58 CASTLE_MOVE ≠ MoveMake 4 2 CASTLE_MOVE := by decide!
  have e3 : MoveMake 60 58 CASTLE_MOVE ≠ MoveMake 60 62 CASTLE_MOVE := by decide!
  simp only [e1, e2, e3, false_and, and_false, or_false, false_or, true_and]


/-- Splitting a target set in two disjoint parts splits the scanned squares. -/
theorem bitIter_split (M T E F : Nat) (hM : M < 2 ^ 64)
    (h : ∀ i, i < 64 → T.testBit i = (E.testBit i || F.testBit i))
    (hd : ∀ i, i < 64 → (E.testBit i && F.testBit i) = false) :
    (bitIter (M &&& T)).Perm (bitIter (M &&& E) ++ bitIter (M &&& F)) := by
  rw [bitIter_eq _ (and_lt_left _ _ _ hM), bitIter_eq _ (and_lt_left _ _ _ hM),
    bitIter_eq _ (and_lt_left _ _ _ hM)]
  have key := (List.filter_append_perm (fun i => E.testBit i)
    ((List.range 64).filter fun i => (M &&& T).testBit i)).symm
  rw [List.filter_filter, List.filter_filter] at key
  have e1 : (List.range 64).filter (fun a => E.testBit a && (M &&& T).testBit a)
      = (List.range 64).filter (fun i => (M &&& E).testBit i) := by
    apply List.filter_congr
    intro i hi
    rw [List.mem_range] at hi
    have h1 := h i hi
    have h2 := hd i hi
    simp only [Nat.testBit_and, h1]
    revert h2
    cases M.testBit i <;> cases E.testBit i <;> cases F.testBit i <;> decide
  have e2 : (List.range 64).filter (fun a => (!E.testBit a) && (M &&& T).testBit a)
      = (List.range 64).filter (fun i => (M &&& F).testBit i) := by
    apply List.filter_congr
    intro i hi
    rw [List.mem_range] at hi
    have h1 := h i hi
    have h2 := hd i hi
    simp only [Nat.testBit_and, h1]
    revert h2
    cases M.testBit i <;> cases E.testBit i <;> cases F.testBit i <;> decide
  rw [e1, e2] at key
  exact key

theorem buildNonPawnMoves_split (bit M T E F : Nat) (hM : M < 2 ^ 64)
    (h : ∀ i, i < 64 → T.testBit i = (E.testBit i || F.testBit i))
    (hd : ∀ i, i < 64 → (E.testBit i && F.testBit i) = false) :
    (buildNonPawnMoves bit (M &&& T)).Perm
      (buildNonPawnMoves bit (M &&& E) ++ buildNonPawnMoves bit (M &&& F)) := by
  unfold buildNonPawnMoves
  rw [← List.map_append]
  exact (bitIter_split M T E F hM h hd).map _

theorem flatMap_split (pieces : List Nat) (f g k : Nat → List Nat)
    (h : ∀ b, (f b).Perm (g b ++ k b)) :
    (pieces.flatMap f).Perm (pieces.flatMap g ++ pieces.flatMap k) :=
  (List.Perm.flatMap_left pieces (fun b _ => h b)).trans
    (List.flatMap_append_perm pieces g k).symm

/-- The piece moves to a target set are those to its two disjoint parts. -/
theorem pieceMoves_split (board : Board) (T E F : Nat)
    (h : ∀ i, i < 64 → T.testBit i = (E.testBit i || F.testBit i))
    (hd : ∀ i, i < 64 → (E.testBit i && F.testBit i) = false) :
    (pieceMoves board T).Perm (pieceMoves board E ++ pieceMoves board F) := by
  unfold pieceMoves buildKnightMoves buildBishopAndQueenMoves buildRookAndQueenMoves
    buildKingMoves KnightAttacks BishopAttacks RookAttacks KingAttacks
  simp only [List.nil_append]
  have h1 := flatMap_split (bitIter (mine board KNIGHT))
    (fun bit => buildNonPawnMoves bit (KnightMap bit &&& T)) _ _
    (fun b => buildNonPawnMoves_split b (KnightMap b) T E F (ofPred_lt _) h hd)
  have h2 := flatMap_split (bitIter (myDiagonals board))
    (fun bit => buildNonPawnMoves bit (BishopMap bit (not64 (emptySquares board)) &&& T)) _ _
    (fun b => buildNonPawnMoves_split b (BishopMap b _) T E F (ofPred_lt _) h hd)
  have h3 := flatMap_split (bitIter (myStraights board))
    (fun bit => buildNonPawnMoves bit (RookMap bit (not64 (emptySquares board)) &&& T)) _ _
    (fun b => buildNonPawnMoves_split b (RookMap b _) T E F (ofPred_lt _) h hd)
  have h4 := flatMap_split (bitIter (mine board KING))
    (fun bit => buildNonPawnMoves bit (KingMap bit &&& T)) _ _
    (fun b => buildNonPawnMoves_split b (KingMap b) T E F (ofPred_lt _) h hd)
  rw [← Multiset.coe_eq_coe] at h1 h2 h3 h4 ⊢
  simp only [← Multiset.coe_add] at h1 h2 h3 h4 ⊢
  rw [h1, h2, h3, h4]
  abel

/-- The two colours are disjoint bit by bit. -/
theorem colours_disjoint (board : Board)
    (hdisj : board.colours WHITE &&& board.colours BLACK = 0) (i : Nat) :
    ((board.colours board.turn).testBit i && (board.colours (!board.turn)).testBit i)
      = false := by
  have h := congrArg (fun z => z.testBit i) hdisj
  simp only [Nat.testBit_and, Nat.zero_testBit, WHITE, BLACK] at h
  cases hb : board.turn
  · simpa using h
  · simpa [Bool.and_comm] using h

/-- The list of `genAllMoves` is a rearrangement of the noisy list followed by the quiet
list. -/
theorem genAllMoves_perm (board : Board)
    (hdisj : board.colours WHITE &&& board.colours BLACK = 0) :
    (genAllMoves board []).Perm (genAllNoisyMoves board [] ++ genAllQuietMoves board []) := by
  have g1 := genAllMoves_eq board []
  have g2 := genAllNoisyMoves_eq board []
  have g3 := genAllQuietMoves_eq board []
  rw [List.nil_append] at g1 g2 g3
  rw [g1, g2, g3]
  have hp := pieceMoves_split board (not64 (board.colours board.turn))
    (board.colours (!board.turn)) (emptySquares board)
    (by
      intro i hi
      have hc := colours_disjoint board hdisj i
      unfold emptySquares
      rw [testBit_not64, testBit_not64, Nat.testBit_or, decide_eq_true hi]
      revert hc
      cases (board.colours board.turn).testBit i <;>
        cases (board.colours (!board.turn)).testBit i <;> decide)
    (by
      intro i hi
      unfold emptySquares
      rw [testBit_not64, Nat.testBit_or, decide_eq_true hi]
      cases (board.colours board.turn).testBit i <;>
        cases (board.colours (!board.turn)).testBit i <;> decide)
  rw [← Multiset.coe_eq_coe] at hp ⊢
  simp only [← Multiset.coe_add] at hp ⊢
  rw [hp]
  abel

theorem makePiece_inj (t1 t2 : Nat) (c1 c2 : Bool) (h : makePiece t1 c1 = makePiece t2 c2) :
    t1 = t2 ∧ c1 = c2 := by
  unfold makePiece at h
  cases c1 <;> cases c2 <;> simp only [Bool.toNat_false, Bool.toNat_true] at h <;>
    first | exact ⟨by omega, rfl⟩ | (exfalso; omega)

/-- The occupant of a square of the side to move, read from the two representations. -/
theorem squares_of_mine (board : Board) (hT : Typed board) (hR : Redundant board)
    (t : Nat) (ht : t < 6) (f : Nat) (h : (mine board t).testBit f = true) :
    f < 64 ∧ board.squares f = makePiece t board.turn := by
  have hf := lt_of_testBit _ _ _ (mine_lt board hT t) h
  refine ⟨hf, ?_⟩
  unfold mine at h
  rw [Nat.and_comm] at h
  have := hR f hf t ht
  cases hb : board.turn
  · rw [hb] at h; exact this.1.1 h
  · rw [hb] at h; exact this.2.1 h

/-- A square holds one piece: the bitboards of two piece types of the side to move do not
meet. -/
theorem mine_disjoint (board : Board) (hT : Typed board) (hR : Redundant board)
    (t1 t2 : Nat) (h1 : t1 < 6) (h2 : t2 < 6) (f : Nat)
    (hf1 : (mine board t1).testBit f = true) (hf2 : (mine board t2).testBit f = true) :
    t1 = t2 := by
  have e1 := (squares_of_mine board hT hR t1 h1 f hf1).2
  have e2 := (squares_of_mine board hT hR t2 h2 f hf2).2
  rw [e1] at e2
  exact (makePiece_inj _ _ _ _ e2).1

/-- A double push ends on rank 4 for white and on rank 5 for black. -/
theorem pawnPushTwo_rank (board : Board) (t : Nat)
    (h : (pawnPushTwo board).testBit t = true) :
    (board.turn = WHITE → 24 ≤ t ∧ t < 32) ∧ (board.turn = BLACK → 32 ≤ t ∧ t < 40) := by
  have hw : (true == WHITE) = false := rfl
  have hw2 : (false == WHITE) = true := rfl
  unfold pawnPushTwo at h
  cases hb : board.turn
  · simp only [hb, hw2, if_true, Nat.testBit_and, testBit_shl64, Bool.and_eq_true,
      decide_eq_true_eq, testBit_RANK_3] at h
    refine ⟨fun _ => by omega, fun h => by simp [BLACK] at h⟩
  · simp only [hb, hw, Bool.false_eq_true, if_false, Nat.testBit_and, Nat.testBit_shiftRight,
      Bool.and_eq_true, testBit_RANK_6, decide_eq_true_eq] at h
    refine ⟨fun h => by simp [WHITE] at h, fun _ => by omega⟩

theorem enemy_lt (board : Board) (hT : Typed board) : board.colours (!board.turn) < 2 ^ 64 := by
  cases hb : board.turn
  · exact hT.2.2.1
  · exact hT.2.1

/-- The kind of every move of the noisy list. -/
theorem noisy_kind (board : Board) (hT : Typed board) (m : Nat)
    (hm : m ∈ genAllNoisyMoves board []) :
    MoveType m = ENPASS_MOVE
      ∨ (MoveType m = QUEEN_PROMO_MOVE ∨ MoveType m = ROOK_PROMO_MOVE
        ∨ MoveType m = BISHOP_PROMO_MOVE ∨ MoveType m = KNIGHT_PROMO_MOVE)
      ∨ (MoveType m = NORMAL_MOVE ∧ MoveTo m < 64
        ∧ (board.colours (!board.turn)).testBit (MoveTo m) = true) := by
  rw [mem_genAllNoisyMoves] at hm
  rcases hm with h | h | h | h
  · exact Or.inl (enpass_flag board hT m h)
  · have := take_shape board hT m h
    exact Or.inr (Or.inr ⟨this.1, this.2.2.1, this.2.2.2.1⟩)
  · exact Or.inr (Or.inl (promo_shape board hT m h).1)
  · have := piece_shape board hT _ m (enemy_lt board hT) h
    exact Or.inr (Or.inr ⟨this.1, this.2.2.1, this.2.2.2.1⟩)

/-- The kind of every move of the quiet list. -/
theorem quiet_kind (board : Board) (hT : Typed board) (m : Nat)
    (hm : m ∈ genAllQuietMoves board []) :
    (MoveType m = NORMAL_MOVE ∨ MoveType m = CASTLE_MOVE) ∧ MoveTo m < 64
      ∧ (emptySquares board).testBit (MoveTo m) = true := by
  rw [mem_genAllQuietMoves] at hm
  rcases hm with h | h | h | h
  · have := pushOne_shape board hT m h
    exact ⟨Or.inl this.1, this.2.2.1, this.2.2.2.1⟩
  · have := pushTwo_shape board hT m h
    exact ⟨Or.inl this.1, this.2.2.1, this.2.2.2.1⟩
  · have := piece_shape board hT _ m (emptySquares_lt board) h
    exact ⟨Or.inl this.1, this.2.2.1, this.2.2.2.1⟩
  · have := castle_shape board m h
    exact ⟨Or.inr this.1, this.2.2.1, this.2.2.2.1⟩

/-- An empty square holds no enemy piece. -/
theorem enemy_of_empty (board : Board) (t : Nat)
    (h : (emptySquares board).testBit t = true) :
    (board.colours (!board.turn)).testBit t = false := by
  unfold emptySquares at h
  rw [testBit_not64, Nat.testBit_or] at h
  revert h
  cases (board.colours (!board.turn)).testBit t <;> simp

/-- A piece of the side to move that is not a pawn does not stand on a pawn's square. -/
theorem not_pawn_of_piece (board : Board) (hT : Typed board) (hR : Redundant board) (f : Nat)
    (hp : (mine board PAWN).testBit f = true)
    (h : (mine board KNIGHT).testBit f = true ∨ (myDiagonals board).testBit f = true
      ∨ (myStraights board).testBit f = true ∨ (mine board KING).testBit f = true) : False := by
  have d := fun t ht h => mine_disjoint board hT hR PAWN t (by decide) ht f hp h
  unfold myDiagonals myStraights at h
  simp only [Nat.testBit_or, Bool.or_eq_true] at h
  rcases h with h | (h | h) | (h | h) | h
  · exact absurd (d KNIGHT (by decide) h) (by decide)
  · exact absurd (d BISHOP (by decide) h) (by decide)
  · exact absurd (d QUEEN (by decide) h) (by decide)
  · exact absurd (d ROOK (by decide) h) (by decide)
  · exact absurd (d QUEEN (by decide) h) (by decide)
  · exact absurd (d KING (by decide) h) (by decide)

/-- A double push ends on rank 4 for white and on rank 5 for black. -/
theorem pushTwo_rank (board : Board) (hT : Typed board) (m : Nat)
    (hm : m ∈ pushTwoMoves board) :
    (board.turn = WHITE → 24 ≤ MoveTo m ∧ MoveTo m < 32)
      ∧ (board.turn = BLACK → 32 ≤ MoveTo m ∧ MoveTo m < 40) := by
  unfold pushTwoMoves at hm
  rw [mem_buildPawnMoves _ _ _ (pawnPushTwo_lt board)] at hm
  obtain ⟨t, ht, rfl⟩ := hm
  obtain ⟨hlt, he, f, hf, hfe, hp⟩ := pawnPushTwo_bit board hT t ht
  rw [← hfe]
  obtain ⟨d1, d2, d3⟩ := decode_nat f t 0 hf hlt (by decide)
  have hN : NORMAL_MOVE = 0 <<< 12 := rfl
  rw [hN, d2]
  exact pawnPushTwo_rank board t ht


/-- The king stands on the from-square of a castle move, so no pawn does. -/
theorem castle_from_not_pawn (board : Board) (hT : Typed board) (hR : Redundant board)
    (hC : CastleInv board) (m : Nat) (hm : m ∈ castleMoves board)
    (hp : (mine board PAWN).testBit (MoveFrom m) = true) : False := by
  have hs := (squares_of_mine board hT hR PAWN (by decide) _ hp).2
  rw [mem_castleMoves] at hm
  obtain ⟨_, h⟩ := hm
  obtain ⟨c1, c2, c3, c4⟩ := hC
  have f1 : MoveFrom (MoveMake 4 6 CASTLE_MOVE) = 4 := by decide!
  have f2 : MoveFrom (MoveMake 4 2 CASTLE_MOVE) = 4 := by decide!
  have f3 : MoveFrom (MoveMake 60 62 CASTLE_MOVE) = 60 := by decide!
  have f4 : MoveFrom (MoveMake 60 58 CASTLE_MOVE) = 60 := by decide!
  rcases h with ⟨hb, rfl, h⟩ | ⟨hb, rfl, h⟩ | ⟨hb, rfl, h⟩ | ⟨hb, rfl, h⟩ <;>
    rw [castleTest_iff] at h <;> obtain ⟨_, hr, _⟩ := h
  · rw [f1] at hs
    have := (c1 hr).1
    rw [show ((4 : Nat) : Int) = 4 from rfl] at hs
    rw [hs] at this
    exact absurd (makePiece_inj _ _ _ _ this).1 (by decide)
  · rw [f2] at hs
    have := (c2 hr).1
    rw [show ((4 : Nat) : Int) = 4 from rfl] at hs
    rw [hs] at this
    exact absurd (makePiece_inj _ _ _ _ this).1 (by decide)
  · rw [f3] at hs
    have := (c3 hr).1
    rw [show ((60 : Nat) : Int) = 60 from rfl] at hs
    rw [hs] at this
    exact absurd (makePiece_inj _ _ _ _ this).1 (by decide)
  · rw [f4] at hs
    have := (c4 hr).1
    rw [show ((60 : Nat) : Int) = 60 from rfl] at hs
    rw [hs] at this
    exact absurd (makePiece_inj _ _ _ _ this).1 (by decide)


/-- In the list of `genAllMoves` the moves with the `ENPASS` flag are those of the
en-passant block. -/
theorem enpass_mem_genAllMoves (board : Board) (hT : Typed board) (m : Nat)
    (hc : MoveType m = ENPASS_MOVE) : m ∈ genAllMoves board [] ↔ m ∈ enpassMoves board := by
  rw [mem_genAllMoves]
  constructor
  · rintro (h | h | h | h | h | h | h)
    · exact h
    · have := (pushOne_shape board hT m h).1; rw [hc] at this; exact absurd this (by decide)
    · have := (pushTwo_shape board hT m h).1; rw [hc] at this; exact absurd this (by decide)
    · have := (take_shape board hT m h).1; rw [hc] at this; exact absurd this (by decide)
    · have := (promo_shape board hT m h).1; rw [hc] at this
      rcases this with h | h | h | h <;> exact absurd h (by decide)
    · have := (piece_shape board hT _ m (not64_lt _) h).1; rw [hc] at this
      exact absurd this (by decide)
    · have := (castle_shape board m h).1; rw [hc] at this; exact absurd this (by decide)
  · intro h
    exact Or.inl h

/-- In the list of `genAllNoisyMoves` the moves with the `ENPASS` flag are those of the
en-passant block. -/
theorem enpass_mem_genAllNoisyMoves (board : Board) (hT : Typed board) (m : Nat)
    (hc : MoveType m = ENPASS_MOVE) :
    m ∈ genAllNoisyMoves board [] ↔ m ∈ enpassMoves board := by
  rw [mem_genAllNoisyMoves]
  constructor
  · rintro (h | h | h | h)
    · exact h
    · have := (take_shape board hT m h).1; rw [hc] at this; exact absurd this (by decide)
    · have := (promo_shape board hT m h).1; rw [hc] at this
      rcases this with h | h | h | h <;> exact absurd h (by decide)
    · have := (piece_shape board hT _ m (enemy_lt board hT) h).1; rw [hc] at this
      exact absurd this (by decide)
  · intro h
    exact Or.inl h

/-- The en-passant block, move by move. -/
theorem mem_enpassMoves (board : Board) (m : Nat) :
    m ∈ enpassMoves board ↔ board.epSquare ≠ -1 ∧
      ((board.turn = WHITE ∧ m = MoveMake (board.epSquare - 7) board.epSquare ENPASS_MOVE
          ∧ board.squares (board.epSquare - 7) = WHITE_PAWN ∧ board.epSquare ≠ 47)
        ∨ (board.turn = WHITE ∧ m = MoveMake (board.epSquare - 9) board.epSquare ENPASS_MOVE
          ∧ board.squares (board.epSquare - 9) = WHITE_PAWN ∧ board.epSquare ≠ 40)
        ∨ (board.turn = BLACK ∧ m = MoveMake (board.epSquare + 7) board.epSquare ENPASS_MOVE
          ∧ board.squares (board.epSquare + 7) = BLACK_PAWN ∧ board.epSquare ≠ 16)
        ∨ (board.turn = BLACK ∧ m = MoveMake (board.epSquare + 9) board.epSquare ENPASS_MOVE
          ∧ board.squares (board.epSquare + 9) = BLACK_PAWN ∧ board.epSquare ≠ 23)) := by
  unfold enpassMoves
  by_cases he : board.epSquare = -1
  · simp [he]
  · have he' : (board.epSquare != -1) = true := by simpa using he
    simp only [he', if_true, ne_eq, he, not_false_eq_true, true_and]
    cases hb : board.turn
    · have e1 : (false == WHITE) = true := rfl
      have e2 : (false = WHITE) = True := by simp [WHITE]
      have e3 : (false = BLACK) = False := by simp [BLACK]
      simp only [e1, e2, e3, if_true, List.mem_append, false_and, or_false, true_and]
      by_cases c1 : (board.squares (board.epSquare - 7) == WHITE_PAWN
          && board.epSquare != 47) = true <;>
      by_cases c2 : (board.squares (board.epSquare - 9) == WHITE_PAWN
          && board.epSquare != 40) = true <;>
      simp only [c1, c2, if_true, if_false, List.mem_singleton, List.not_mem_nil] <;>
      simp only [Bool.and_eq_true, beq_iff_eq, bne_iff_ne, ne_eq] at c1 c2 <;> tauto
    · have e1 : (true == WHITE) = false := rfl
      have e2 : (true = WHITE) = False := by simp [WHITE]
      have e3 : (true = BLACK) = True := by simp [BLACK]
      simp only [e1, e2, e3, Bool.false_eq_true, if_false, List.mem_append, false_and,
        false_or, true_and]
      by_cases c1 : (board.squares (board.epSquare + 7) == BLACK_PAWN
          && board.epSquare != 16) = true <;>
      by_cases c2 : (board.squares (board.epSquare + 9) == BLACK_PAWN
          && board.epSquare != 23) = true <;>
      simp only [c1, c2, if_true, if_false, List.mem_singleton, List.not_mem_nil] <;>
      simp only [Bool.and_eq_true, beq_iff_eq, bne_iff_ne, ne_eq] at c1 c2 <;> tauto

/-- The en-passant block in geometric terms: the moves to the en-passant square from the
squares one rank behind it, one file to either side, that hold a pawn of the side to move. -/
theorem mem_enpassMoves_geometric (board : Board) (hE : EpInv board)
    (he : board.epSquare ≠ -1) (m : Nat) :
    m ∈ enpassMoves board ↔ ∃ f : Nat, f < 64
      ∧ m = MoveMake f board.epSquare ENPASS_MOVE
      ∧ (board.turn = WHITE → rankOf f + 1 = rankOf board.epSquare.toNat)
      ∧ (board.turn = BLACK → rankOf f = rankOf board.epSquare.toNat + 1)
      ∧ Nat.dist (fileOf f) (fileOf board.epSquare.toNat) = 1
      ∧ board.squares f = makePiece PAWN board.turn := by
  have hE' := hE he
  rw [mem_enpassMoves]
  simp only [ne_eq, he, not_false_eq_true, true_and]
  have hWP : WHITE_PAWN = makePiece PAWN false := rfl
  have hBP : BLACK_PAWN = makePiece PAWN true := rfl
  cases hb : board.turn
  · have e2 : (false = WHITE) = True := by simp [WHITE]
    have e3 : (false = BLACK) = False := by simp [BLACK]
    rw [hb] at hE'
    simp only [e2, e3, if_true, false_and, or_false, true_and, false_implies, true_implies]
      at hE' ⊢
    obtain ⟨h40, h47, _, _⟩ := hE'
    obtain ⟨e, hee⟩ : ∃ e : Nat, board.epSquare = (e : Int) :=
      ⟨board.epSquare.toNat, by omega⟩
    rw [hee] at h40 h47 ⊢
    simp only [Int.toNat_ofNat, rankOf, fileOf, Nat.dist, hWP]
    constructor
    · rintro (⟨rfl, hs, hn⟩ | ⟨rfl, hs, hn⟩)
      · refine ⟨e - 7, by omega, ?_, by omega, by omega, ?_⟩
        · rw [show ((e - 7 : Nat) : Int) = (e : Int) - 7 by omega]
        · rw [show ((e - 7 : Nat) : Int) = (e : Int) - 7 by omega]; exact hs
      · refine ⟨e - 9, by omega, ?_, by omega, by omega, ?_⟩
        · rw [show ((e - 9 : Nat) : Int) = (e : Int) - 9 by omega]
        · rw [show ((e - 9 : Nat) : Int) = (e : Int) - 9 by omega]; exact hs
    · rintro ⟨f, hf, rfl, hr, hd, hs⟩
      have : f = e - 7 ∧ e ≠ 47 ∨ f = e - 9 ∧ e ≠ 40 := by omega
      rcases this with ⟨rfl, hn⟩ | ⟨rfl, hn⟩
      · left
        rw [show ((e - 7 : Nat) : Int) = (e : Int) - 7 by omega] at hs ⊢
        exact ⟨rfl, hs, by omega⟩
      · right
        rw [show ((e - 9 : Nat) : Int) = (e : Int) - 9 by omega] at hs ⊢
        exact ⟨rfl, hs, by omega⟩
  · have e2 : (true = WHITE) = False := by simp [WHITE]
    have e3 : (true = BLACK) = True := by simp [BLACK]
    rw [hb] at hE'
    simp only [e2, e3, if_false, false_and, false_or, true_and, false_implies, true_implies]
      at hE' ⊢
    obtain ⟨h16, h23, _, _⟩ := hE'
    obtain ⟨e, hee⟩ : ∃ e : Nat, board.epSquare = (e : Int) :=
      ⟨board.epSquare.toNat, by omega⟩
    rw [hee] at h16 h23 ⊢
    simp only [Int.toNat_ofNat, rankOf, fileOf, Nat.dist, hBP]
    constructor
    · rintro (⟨rfl, hs, hn⟩ | ⟨rfl, hs, hn⟩)
      · refine ⟨e + 7, by omega, ?_, by omega, by omega, ?_⟩
        · rw [show ((e + 7 : Nat) : Int) = (e : Int) + 7 by omega]
        · rw [show ((e + 7 : Nat) : Int) = (e : Int) + 7 by omega]; exact hs
      · refine ⟨e + 9, by omega, ?_, by omega, by omega, ?_⟩
        · rw [show ((e + 9 : Nat) : Int) = (e : Int) + 9 by omega]
        · rw [show ((e + 9 : Nat) : Int) = (e : Int) + 9 by omega]; exact hs
    · rintro ⟨f, hf, rfl, hr, hd, hs⟩
      have : f = e + 7 ∧ e ≠ 16 ∨ f = e + 9 ∧ e ≠ 23 := by omega
      rcases this with ⟨rfl, hn⟩ | ⟨rfl, hn⟩
      · left
        rw [show ((e + 7 : Nat) : Int) = (e : Int) + 7 by omega] at hs ⊢
        exact ⟨rfl, hs, by omega⟩
      · right
        rw [show ((e + 9 : Nat) : Int) = (e : Int) + 9 by omega] at hs ⊢
        exact ⟨rfl, hs, by omega⟩

/-- The moves one piece builder writes: `NORMAL` moves from a scanned piece to a scanned
target of its attack set. -/
theorem mem_builder (pieces : Nat) (attacks : Nat → Nat) (m : Nat) (hp : pieces < 2 ^ 64)
    (ha : ∀ f, attacks f < 2 ^ 64)
    (hm : m ∈ (bitIter pieces).flatMap fun bit => buildNonPawnMoves bit (attacks bit)) :
    MoveType m = NORMAL_MOVE ∧ pieces.testBit (MoveFrom m) = true
      ∧ (attacks (MoveFrom m)).testBit (MoveTo m) = true := by
  rw [List.mem_flatMap] at hm
  obtain ⟨f, hf, hm⟩ := hm
  rw [mem_bitIter _ _ hp] at hf
  rw [mem_buildNonPawnMoves _ _ _ (ha f)] at hm
  obtain ⟨t, ht, rfl⟩ := hm
  have hf64 := lt_of_testBit _ _ _ hp hf
  have ht64 := lt_of_testBit _ _ _ (ha f) ht
  obtain ⟨d1, d2, d3⟩ := decode_nat f t 0 hf64 ht64 (by decide)
  have hN : NORMAL_MOVE = 0 <<< 12 := rfl
  rw [hN, d1, d2, d3]
  exact ⟨rfl, hf, ht⟩

theorem onDiag_of_BishopMap (s occ t : Nat) (h : (BishopMap s occ).testBit t = true) :
    onDiag s t = true := by
  unfold BishopMap at h
  rw [testBit_ofPred] at h
  simp only [Bool.and_eq_true] at h
  exact h.2.1

theorem onLine_of_RookMap (s occ t : Nat) (h : (RookMap s occ).testBit t = true) :
    onLine s t = true := by
  unfold RookMap at h
  rw [testBit_ofPred] at h
  simp only [Bool.and_eq_true] at h
  exact h.2.1

/-- A rank or file is not a diagonal. -/
theorem not_onDiag_of_onLine (s t : Nat) (h : onLine s t = true) : onDiag s t = false := by
  unfold onLine at h
  unfold onDiag
  simp only [Bool.and_eq_true, Bool.or_eq_true, decide_eq_true_eq, fileOf, rankOf] at h
  obtain ⟨hne, h⟩ := h
  simp only [Bool.and_eq_false_iff, decide_eq_false_iff_not, fileOf, rankOf, Nat.dist]
  right
  omega

/-- Appending a segment whose moves all have one category, not below the categories so
far, keeps the list in category order. -/
theorem pairwise_append_segment (cat : Nat → Nat) (l s : List Nat) (c c' : Nat)
    (hl : l.Pairwise (fun a b => cat a ≤ cat b)) (hle : ∀ a ∈ l, cat a ≤ c) (hc : c ≤ c')
    (hs : ∀ b ∈ s, cat b = c') :
    (l ++ s).Pairwise (fun a b => cat a ≤ cat b) ∧ ∀ a ∈ l ++ s, cat a ≤ c' := by
  constructor
  · rw [List.pairwise_append]
    refine ⟨hl, ?_, ?_⟩
    · rw [List.Pairwise.imp_mem]
      apply List.pairwise_of_forall
      intro x y hx hy
      rw [hs x hx, hs y hy]
    · intro a ha b hb
      rw [hs b hb]
      exact le_trans (hle a ha) hc
  · intro a ha
    rw [List.mem_append] at ha
    rcases ha with ha | ha
    · exact le_trans (hle a ha) hc
    · exact le_of_eq (hs a ha)

/-- The categories of the moves, segment by segment. -/
theorem category_enpass (board : Board) (hT : Typed board) (m : Nat)
    (hm : m ∈ enpassMoves board) : moveCategory board m = 0 := by
  have h := enpass_flag board hT m hm
  unfold moveCategory
  rw [h]
  rfl

theorem category_of_pawn_normal (board : Board) (m : Nat) (h1 : MoveType m = NORMAL_MOVE)
    (h2 : (mine board PAWN).testBit (MoveFrom m) = true) :
    moveCategory board m = if fileOf (MoveFrom m) == fileOf (MoveTo m) then 1 else 2 := by
  have c1 : (NORMAL_MOVE == CASTLE_MOVE) = false := rfl
  have c2 : (NORMAL_MOVE == ENPASS_MOVE) = false := rfl
  have c3 : (NORMAL_MOVE == NORMAL_MOVE) = true := rfl
  unfold moveCategory
  simp only [h1, h2, c1, c2, c3, if_true, Bool.false_eq_true, if_false]

theorem category_of_piece (board : Board) (m : Nat) (h1 : MoveType m = NORMAL_MOVE)
    (h2 : (mine board PAWN).testBit (MoveFrom m) = false) :
    moveCategory board m =
      if (mine board KNIGHT).testBit (MoveFrom m) then 4
      else if (mine board KING).testBit (MoveFrom m) then 7
      else if onDiag (MoveFrom m) (MoveTo m) then 5
      else 6 := by
  have c1 : (NORMAL_MOVE == CASTLE_MOVE) = false := rfl
  have c2 : (NORMAL_MOVE == ENPASS_MOVE) = false := rfl
  unfold moveCategory
  simp only [h1, h2, c1, c2, Bool.false_eq_true, if_false]

theorem category_pushOne (board : Board) (hT : Typed board) (m : Nat)
    (hm : m ∈ pushOneMoves board) : moveCategory board m = 1 := by
  obtain ⟨h1, _, _, _, _, h2, h3⟩ := pushOne_shape board hT m hm
  have hf : (fileOf (MoveFrom m) == fileOf (MoveTo m)) = true := by
    rw [beq_iff_eq]
    unfold fileOf forwardShift at *
    split at h3 <;> omega
  rw [category_of_pawn_normal board m h1 h2, hf]
  rfl

theorem category_pushTwo (board : Board) (hT : Typed board) (m : Nat)
    (hm : m ∈ pushTwoMoves board) : moveCategory board m = 1 := by
  obtain ⟨h1, _, _, _, h2, h3⟩ := pushTwo_shape board hT m hm
  have hf : (fileOf (MoveFrom m) == fileOf (MoveTo m)) = true := by
    rw [beq_iff_eq]
    unfold fileOf forwardShift at *
    split at h3 <;> omega
  rw [category_of_pawn_normal board m h1 h2, hf]
  rfl

theorem category_take (board : Board) (hT : Typed board) (m : Nat)
    (hm : m ∈ takeMoves board) : moveCategory board m = 2 := by
  obtain ⟨h1, _, _, _, _, h2, h3⟩ := take_shape board hT m hm
  have hf : (fileOf (MoveFrom m) == fileOf (MoveTo m)) = false := by
    rw [beq_eq_false_iff_ne]
    unfold fileOf leftShift rightShift at *
    rcases h3 with h3 | h3 <;> split at h3 <;> omega
  rw [category_of_pawn_normal board m h1 h2, hf]
  rfl

theorem category_promo (board : Board) (hT : Typed board) (m : Nat)
    (hm : m ∈ promoMoves board) : moveCategory board m = 3 := by
  obtain ⟨h1, _, _, _, h2, _⟩ := promo_shape board hT m hm
  unfold moveCategory
  rw [h2]
  rcases h1 with h | h | h | h <;> rw [h] <;> rfl

theorem category_castle (board : Board) (m : Nat)
    (hm : m ∈ castleMoves board) : moveCategory board m = 8 := by
  have h := (castle_shape board m hm).1
  unfold moveCategory
  rw [h]
  rfl

/-- No pawn, knight or king of the side to move stands where its bishop, rook or queen
does, and so on: the piece on a square decides the branch of the category. -/
theorem mine_false_of_ne (board : Board) (hT : Typed board) (hR : Redundant board)
    (t1 t2 : Nat) (h1 : t1 < 6) (h2 : t2 < 6) (hne : t1 ≠ t2) (f : Nat)
    (hf : (mine board t1).testBit f = true) : (mine board t2).testBit f = false := by
  by_contra h
  rw [Bool.not_eq_false] at h
  exact hne (mine_disjoint board hT hR t1 t2 h1 h2 f hf h)

theorem category_knight (board : Board) (hT : Typed board) (hR : Redundant board)
    (targets m : Nat)
    (hm : m ∈ buildKnightMoves [] (mine board KNIGHT) targets) :
    moveCategory board m = 4 := by
  unfold buildKnightMoves at hm
  rw [List.nil_append] at hm
  obtain ⟨h1, h2, _⟩ := mem_builder _ (fun f => KnightAttacks f targets) m
    (mine_lt board hT _) (fun f => KnightAttacks_lt _ _) hm
  have hp := mine_false_of_ne board hT hR KNIGHT PAWN (by decide) (by decide) (by decide) _ h2
  rw [category_of_piece board m h1 hp, h2]
  rfl

theorem category_king (board : Board) (hT : Typed board) (hR : Redundant board)
    (targets m : Nat)
    (hm : m ∈ buildKingMoves [] (mine board KING) targets) :
    moveCategory board m = 7 := by
  unfold buildKingMoves at hm
  rw [List.nil_append] at hm
  obtain ⟨h1, h2, _⟩ := mem_builder _ (fun f => KingAttacks f targets) m
    (mine_lt board hT _) (fun f => KingAttacks_lt _ _) hm
  have hp := mine_false_of_ne board hT hR KING PAWN (by decide) (by decide) (by decide) _ h2
  have hk := mine_false_of_ne board hT hR KING KNIGHT (by decide) (by decide) (by decide) _ h2
  rw [category_of_piece board m h1 hp, hk, h2]
  rfl

theorem category_diagonal (board : Board) (hT : Typed board) (hR : Redundant board)
    (occ targets m : Nat)
    (hm : m ∈ buildBishopAndQueenMoves [] (myDiagonals board) occ targets) :
    moveCategory board m = 5 := by
  unfold buildBishopAndQueenMoves at hm
  rw [List.nil_append] at hm
  obtain ⟨h1, h2, h3⟩ := mem_builder _ (fun f => BishopAttacks f occ targets) m
    (myDiagonals_lt board hT) (fun f => BishopAttacks_lt _ _ _) hm
  unfold BishopAttacks at h3
  rw [Nat.testBit_and, Bool.and_eq_true] at h3
  have hd := onDiag_of_BishopMap _ _ _ h3.1
  unfold myDiagonals at h2
  rw [Nat.testBit_or, Bool.or_eq_true] at h2
  rcases h2 with h2 | h2
  · have hp := mine_false_of_ne board hT hR BISHOP PAWN (by decide) (by decide) (by decide) _ h2
    have hk := mine_false_of_ne board hT hR BISHOP KNIGHT (by decide) (by decide) (by decide) _ h2
    have hg := mine_false_of_ne board hT hR BISHOP KING (by decide) (by decide) (by decide) _ h2
    rw [category_of_piece board m h1 hp, hk, hg, hd]
    rfl
  · have hp := mine_false_of_ne board hT hR QUEEN PAWN (by decide) (by decide) (by decide) _ h2
    have hk := mine_false_of_ne board hT hR QUEEN KNIGHT (by decide) (by decide) (by decide) _ h2
    have hg := mine_false_of_ne board hT hR QUEEN KING (by decide) (by decide) (by decide) _ h2
    rw [category_of_piece board m h1 hp, hk, hg, hd]
    rfl

theorem category_straight (board : Board) (hT : Typed board) (hR : Redundant board)
    (occ targets m : Nat)
    (hm : m ∈ buildRookAndQueenMoves [] (myStraights board) occ targets) :
    moveCategory board m = 6 := by
  unfold buildRookAndQueenMoves at hm
  rw [List.nil_append] at hm
  obtain ⟨h1, h2, h3⟩ := mem_builder _ (fun f => RookAttacks f occ targets) m
    (myStraights_lt board hT) (fun f => RookAttacks_lt _ _ _) hm
  unfold RookAttacks at h3
  rw [Nat.testBit_and, Bool.and_eq_true] at h3
  have hd := not_onDiag_of_onLine _ _ (onLine_of_RookMap _ _ _ h3.1)
  unfold myStraights at h2
  rw [Nat.testBit_or, Bool.or_eq_true] at h2
  rcases h2 with h2 | h2
  · have hp := mine_false_of_ne board hT hR ROOK PAWN (by decide) (by decide) (by decide) _ h2
    have hk := mine_false_of_ne board hT hR ROOK KNIGHT (by decide) (by decide) (by decide) _ h2
    have hg := mine_false_of_ne board hT hR ROOK KING (by decide) (by decide) (by decide) _ h2
    rw [category_of_piece board m h1 hp, hk, hg, hd]
    rfl
  · have hp := mine_false_of_ne board hT hR QUEEN PAWN (by decide) (by decide) (by decide) _ h2
    have hk := mine_false_of_ne board hT hR QUEEN KNIGHT (by decide) (by decide) (by decide) _ h2
    have hg := mine_false_of_ne board hT hR QUEEN KING (by decide) (by decide) (by decide) _ h2
    rw [category_of_piece board m h1 hp, hk, hg, hd]
    rfl

/-- The list of `genAllMoves` is in the order of `moveCategory`. -/
theorem genAllMoves_category_order (board : Board) (hT : Typed board) (hR : Redundant board) :
    (genAllMoves board []).Pairwise
      (fun a b => moveCategory board a ≤ moveCategory board b) := by
  have g := genAllMoves_eq board []
  rw [List.nil_append] at g
  rw [g]
  unfold takeMoves promoMoves pieceMoves
  simp only [← List.append_assoc]
  have s0 := pairwise_append_segment (moveCategory board) [] (enpassMoves board) 0 0
    List.Pairwise.nil (fun a ha => absurd ha (List.not_mem_nil a)) (le_refl _)
    (category_enpass board hT)
  have s1 := pairwise_append_segment (moveCategory board) _ (pushOneMoves board) 0 1
    s0.1 s0.2 (by decide) (category_pushOne board hT)
  have s2 := pairwise_append_segment (moveCategory board) _ (pushTwoMoves board) 1 1
    s1.1 s1.2 (by decide) (category_pushTwo board hT)
  have s3 := pairwise_append_segment (moveCategory board) _
    (buildPawnMoves [] (pawnTakeLeft board &&& not64 (lastRank board)) (leftShift board)) 1 2
    s2.1 s2.2 (by decide)
    (fun m hm => category_take board hT m (List.mem_append_left _ hm))
  have s4 := pairwise_append_segment (moveCategory board) _
    (buildPawnMoves [] (pawnTakeRight board &&& not64 (lastRank board)) (rightShift board)) 2 2
    s3.1 s3.2 (by decide)
    (fun m hm => category_take board hT m (List.mem_append_right _ hm))
  have s5 := pairwise_append_segment (moveCategory board) _
    (buildPawnPromotions [] (pawnPushOne board &&& lastRank board) (forwardShift board)) 2 3
    s4.1 s4.2 (by decide)
    (fun m hm => category_promo board hT m
      (List.mem_append_left _ (List.mem_append_left _ hm)))
  have s6 := pairwise_append_segment (moveCategory board) _
    (buildPawnPromotions [] (pawnTakeLeft board &&& lastRank board) (leftShift board)) 3 3
    s5.1 s5.2 (by decide)
    (fun m hm => category_promo board hT m
      (List.mem_append_left _ (List.mem_append_right _ hm)))
  have s7 := pairwise_append_segment (moveCategory board) _
    (buildPawnPromotions [] (pawnTakeRight board &&& lastRank board) (rightShift board)) 3 3
    s6.1 s6.2 (by decide)
    (fun m hm => category_promo board hT m (List.mem_append_right _ hm))
  have s8 := pairwise_append_segment (moveCategory board) _
    (buildKnightMoves [] (mine board KNIGHT) (not64 (board.colours board.turn))) 3 4
    s7.1 s7.2 (by decide) (category_knight board hT hR _)
  have s9 := pairwise_append_segment (moveCategory board) _
    (buildBishopAndQueenMoves [] (myDiagonals board) (not64 (emptySquares board))
      (not64 (board.colours board.turn))) 4 5
    s8.1 s8.2 (by decide) (category_diagonal board hT hR _ _)
  have s10 := pairwise_append_segment (moveCategory board) _
    (buildRookAndQueenMoves [] (myStraights board) (not64 (emptySquares board))
      (not64 (board.colours board.turn))) 5 6
    s9.1 s9.2 (by decide) (category_straight board hT hR _ _)
  have s11 := pairwise_append_segment (moveCategory board) _
    (buildKingMoves [] (mine board KING) (not64 (board.colours board.turn))) 6 7
    s10.1 s10.2 (by decide) (category_king board hT hR _)
  have s12 := pairwise_append_segment (moveCategory board) _ (castleMoves board) 7 8
    s11.1 s11.2 (by decide) (category_castle board)
  rw [List.nil_append] at s12
  exact s12.1

/-! ## The attack query and the move lists -/

theorem inBox_symm (s t u : Nat) : inBox s t u = inBox t s u := by
  unfold inBox
  rw [min_comm (fileOf s), max_comm (fileOf s), min_comm (rankOf s), max_comm (rankOf s)]
  cases decide (u ≠ s) <;> cases decide (u ≠ t) <;> rfl

theorem onDiag_symm (s t : Nat) : onDiag s t = onDiag t s := by
  unfold onDiag
  rw [Nat.dist_comm (fileOf s), Nat.dist_comm (rankOf s)]
  congr 1
  exact decide_eq_decide.2 ⟨fun h => h.symm, fun h => h.symm⟩

theorem onLine_symm (s t : Nat) : onLine s t = onLine t s := by
  unfold onLine
  congr 1
  · exact decide_eq_decide.2 ⟨fun h => h.symm, fun h => h.symm⟩
  · congr 1
    · exact decide_eq_decide.2 ⟨fun h => h.symm, fun h => h.symm⟩
    · exact decide_eq_decide.2 ⟨fun h => h.symm, fun h => h.symm⟩

/-- A knight on `a` attacks `b` exactly when a knight on `b` attacks `a`. -/
theorem KnightMap_symm (a b : Nat) (ha : a < 64) (hb : b < 64) :
    (KnightMap a).testBit b = (KnightMap b).testBit a := by
  unfold KnightMap
  rw [testBit_ofPred, testBit_ofPred, decide_eq_true ha, decide_eq_true hb,
    Nat.dist_comm (fileOf a), Nat.dist_comm (rankOf a)]

/-- A king on `a` attacks `b` exactly when a king on `b` attacks `a`. -/
theorem KingMap_symm (a b : Nat) (ha : a < 64) (hb : b < 64) :
    (KingMap a).testBit b = (KingMap b).testBit a := by
  unfold KingMap
  rw [testBit_ofPred, testBit_ofPred, decide_eq_true ha, decide_eq_true hb,
    Nat.dist_comm (fileOf a), Nat.dist_comm (rankOf a)]
  have e : decide (b ≠ a) = decide (a ≠ b) :=
    decide_eq_decide.2 ⟨fun h => h.symm, fun h => h.symm⟩
  rw [e]

/-- A bishop on `a` attacks `b` exactly when a bishop on `b` attacks `a`. -/
theorem BishopMap_symm (a b occ : Nat) (ha : a < 64) (hb : b < 64) :
    (BishopMap a occ).testBit b = (BishopMap b occ).testBit a := by
  unfold BishopMap
  rw [testBit_ofPred, testBit_ofPred, decide_eq_true ha, decide_eq_true hb, onDiag_symm a b]
  congr 2
  have e : (fun u => !(inBox a b u && onDiag a u && onDiag b u && occ.testBit u))
      = fun u => !(inBox b a u && onDiag b u && onDiag a u && occ.testBit u) := by
    funext u
    rw [inBox_symm a b u]
    cases inBox b a u <;> cases onDiag a u <;> cases onDiag b u <;> rfl
  rw [e]

/-- A rook on `a` attacks `b` exactly when a rook on `b` attacks `a`. -/
theorem RookMap_symm (a b occ : Nat) (ha : a < 64) (hb : b < 64) :
    (RookMap a occ).testBit b = (RookMap b occ).testBit a := by
  unfold RookMap
  rw [testBit_ofPred, testBit_ofPred, decide_eq_true ha, decide_eq_true hb, onLine_symm a b]
  congr 2
  have e : (fun u => !(inBox a b u && occ.testBit u))
      = fun u => !(inBox b a u && occ.testBit u) := by
    funext u
    rw [inBox_symm a b u]
  rw [e]

/-- The sliding attacks read the occupancy on the 64 squares only. -/
theorem BishopMap_congr (s occ1 occ2 : Nat)
    (h : ∀ u, u < 64 → occ1.testBit u = occ2.testBit u) :
    BishopMap s occ1 = BishopMap s occ2 := by
  unfold BishopMap
  congr 1
  funext t
  congr 1
  rw [List.all_eq, List.all_eq]
  apply decide_eq_decide.2
  constructor <;> intro hh u hu <;> have := hh u hu <;>
    rw [List.mem_range] at hu <;> rw [h u hu] at * <;> assumption

theorem RookMap_congr (s occ1 occ2 : Nat)
    (h : ∀ u, u < 64 → occ1.testBit u = occ2.testBit u) :
    RookMap s occ1 = RookMap s occ2 := by
  unfold RookMap
  congr 1
  funext t
  congr 1
  rw [List.all_eq, List.all_eq]
  apply decide_eq_decide.2
  constructor <;> intro hh u hu <;> have := hh u hu <;>
    rw [List.mem_range] at hu <;> rw [h u hu] at * <;> assumption

theorem hit_of_nonzero (x y : Nat) : ((x != 0) && (y &&& x != 0)) = (y &&& x != 0) := by
  by_cases h : x = 0
  · subst h; simp
  · simp [h]

/-- A test `attacks & pieces != 0` succeeds exactly when some piece stands on an attacked
square. -/
theorem hit_iff (M X : Nat) :
    (M &&& X != 0) = true ↔ ∃ f, M.testBit f = true ∧ X.testBit f = true := by
  rw [bne_iff_ne]
  constructor
  · intro h
    obtain ⟨i, hi⟩ := Nat.ne_zero_implies_bit_true h
    rw [Nat.testBit_and, Bool.and_eq_true] at hi
    exact ⟨i, hi⟩
  · rintro ⟨f, h1, h2⟩ h0
    have := congrArg (fun z => z.testBit f) h0
    simp only [Nat.testBit_and, h1, h2, Nat.zero_testBit, Bool.and_self] at this
    exact Bool.noConfusion this

theorem mine_withTurn (board : Board) (c : Bool) (t : Nat) :
    mine (withTurn board c) t = board.colours c &&& board.pieces t := rfl

theorem myDiagonals_withTurn (board : Board) (c : Bool) :
    myDiagonals (withTurn board c)
      = board.colours c &&& board.pieces BISHOP ||| board.colours c &&& board.pieces QUEEN :=
  rfl

theorem myStraights_withTurn (board : Board) (c : Bool) :
    myStraights (withTurn board c)
      = board.colours c &&& board.pieces ROOK ||| board.colours c &&& board.pieces QUEEN :=
  rfl

/-- The query as the disjunction of its five tests. -/
theorem squareIsAttacked_eq (board : Board) (c : Bool) (sq : Nat) :
    squareIsAttacked board c sq =
      (pawnTest board c sq
        || (KnightMap sq &&& mine (withTurn board (!c)) KNIGHT != 0)
        || (BishopMap sq (board.colours c ||| board.colours (!c))
              &&& myDiagonals (withTurn board (!c)) != 0)
        || (RookMap sq (board.colours c ||| board.colours (!c))
              &&& myStraights (withTurn board (!c)) != 0)
        || (KingMap sq &&& mine (withTurn board (!c)) KING != 0)) := by
  rw [mine_withTurn, mine_withTurn, myDiagonals_withTurn, myStraights_withTurn]
  unfold squareIsAttacked pawnTest KnightAttacks BishopAttacks RookAttacks KingAttacks
  simp only [hit_of_nonzero]
  generalize (if (c == WHITE) = true then
      ((shl64 (shl64 1 sq) 7 &&& not64 FILE_H) ||| (shl64 (shl64 1 sq) 9 &&& not64 FILE_A))
        &&& (board.colours (!c) &&& board.pieces PAWN) != 0
    else
      ((shl64 1 sq >>> 7 &&& not64 FILE_A) ||| (shl64 1 sq >>> 9 &&& not64 FILE_H))
        &&& (board.colours (!c) &&& board.pieces PAWN) != 0) = p
  generalize (KnightMap sq &&& (board.colours (!c) &&& board.pieces KNIGHT) != 0) = k
  generalize (BishopMap sq (board.colours c ||| board.colours (!c))
    &&& (board.colours (!c) &&& board.pieces BISHOP
      ||| board.colours (!c) &&& board.pieces QUEEN) != 0) = d
  generalize (RookMap sq (board.colours c ||| board.colours (!c))
    &&& (board.colours (!c) &&& board.pieces ROOK
      ||| board.colours (!c) &&& board.pieces QUEEN) != 0) = r
  generalize (KingMap sq &&& (board.colours (!c) &&& board.pieces KING) != 0) = g
  cases p <;> cases k <;> cases d <;> cases r <;> cases g <;> rfl

/-- An en-passant move ends on the en-passant square. -/
theorem enpass_to (board : Board) (h16 : 16 ≤ board.epSquare) (h47 : board.epSquare ≤ 47)
    (m : Nat) (hm : m ∈ enpassMoves board) : MoveTo m = board.epSquare.toNat := by
  rw [mem_enpassMoves] at hm
  obtain ⟨_, hm⟩ := hm
  obtain ⟨e, hee⟩ : ∃ e : Nat, board.epSquare = (e : Int) := ⟨board.epSquare.toNat, by omega⟩
  rw [hee] at h16 h47 hm ⊢
  have hE : ENPASS_MOVE = 2 <<< 12 := rfl
  rw [Int.toNat_ofNat]
  rcases hm with ⟨_, rfl, _⟩ | ⟨_, rfl, _⟩ | ⟨_, rfl, _⟩ | ⟨_, rfl, _⟩
  · rw [show (e : Int) - 7 = ((e - 7 : Nat) : Int) by omega, hE]
    exact (decode_nat (e - 7) e 2 (by omega) (by omega) (by decide)).2.1
  · rw [show (e : Int) - 9 = ((e - 9 : Nat) : Int) by omega, hE]
    exact (decode_nat (e - 9) e 2 (by omega) (by omega) (by decide)).2.1
  · rw [show (e : Int) + 7 = ((e + 7 : Nat) : Int) by omega, hE]
    exact (decode_nat (e + 7) e 2 (by omega) (by omega) (by decide)).2.1
  · rw [show (e : Int) + 9 = ((e + 9 : Nat) : Int) by omega, hE]
    exact (decode_nat (e + 9) e 2 (by omega) (by omega) (by decide)).2.1

/-- The occupancy the generators compute is the one the query computes. -/
theorem occupancy_withTurn (board : Board) (c : Bool) (u : Nat) (hu : u < 64) :
    (not64 (emptySquares (withTurn board (!c)))).testBit u
      = (board.colours c ||| board.colours (!c)).testBit u := by
  unfold emptySquares withTurn
  rw [testBit_not64_not64, decide_eq_true hu]
  simp only [Bool.true_and, Bool.not_not, Nat.testBit_or]
  exact Bool.or_comm _ _

theorem occupancy_eq (board : Board) (c : Bool) (u : Nat) :
    (board.colours c ||| board.colours (!c)).testBit u = (occupancy board).testBit u := by
  unfold occupancy
  cases c
  · rfl
  · simp only [Nat.testBit_or, WHITE, BLACK, Bool.not_true]
    exact Bool.or_comm _ _

/-- A square that holds a piece of colour `c` and a move of the other side that ends on it:
the query answers 1 when the move is not a pawn's. -/
theorem attacked_of_piece_move (board : Board) (hInv : BoardInv board) (c : Bool) (sq : Nat)
    (hocc : (board.colours c).testBit sq = true) (m : Nat)
    (hm : m ∈ genAllMoves (withTurn board (!c)) []) (hto : MoveTo m = sq)
    (hnp : (mine (withTurn board (!c)) PAWN).testBit (MoveFrom m) = false) :
    squareIsAttacked board c sq = true := by
  obtain ⟨hT, _, _, _, hR, _, _, _, hE, _⟩ := hInv
  have hT' : Typed (withTurn board (!c)) := hT
  have hsq : sq < 64 := by
    cases c
    · exact lt_of_testBit _ _ _ hT.2.1 hocc
    · exact lt_of_testBit _ _ _ hT.2.2.1 hocc
  have hoccupied : (occupancy board).testBit sq = true := by
    rw [← occupancy_eq board c, Nat.testBit_or, hocc]; rfl
  rw [mem_genAllMoves] at hm
  rcases hm with h | h | h | h | h | h | h
  · exfalso
    by_cases he : board.epSquare = -1
    · rw [mem_enpassMoves] at h
      exact h.1 he
    · have hE' := hE he
      have hr : 16 ≤ board.epSquare ∧ board.epSquare ≤ 47
          ∧ (occupancy board).testBit board.epSquare.toNat = false := by
        split at hE'
        · exact ⟨by omega, hE'.2.1, hE'.2.2.2⟩
        · exact ⟨hE'.1, by omega, hE'.2.2.2⟩
      have := enpass_to (withTurn board (!c)) hr.1 hr.2.1 m h
      rw [hto] at this
      rw [this] at hoccupied
      rw [show (withTurn board (!c)).epSquare = board.epSquare from rfl, hr.2.2] at hoccupied
      exact Bool.false_ne_true hoccupied
  · have := (pushOne_shape _ hT' m h).2.2.2.2.2.1
    rw [hnp] at this; exact absurd this Bool.false_ne_true
  · have := (pushTwo_shape _ hT' m h).2.2.2.2.1
    rw [hnp] at this; exact absurd this Bool.false_ne_true
  · have := (take_shape _ hT' m h).2.2.2.2.2.1
    rw [hnp] at this; exact absurd this Bool.false_ne_true
  · have := (promo_shape _ hT' m h).2.2.2.2.1
    rw [hnp] at this; exact absurd this Bool.false_ne_true
  · obtain ⟨_, hf, _, _, hp⟩ := piece_shape _ hT' _ m (not64_lt _) h
    rw [hto] at hp
    rw [squareIsAttacked_eq]
    simp only [Bool.or_eq_true]
    rcases hp with ⟨h1, h2⟩ | ⟨h1, h2⟩ | ⟨h1, h2⟩ | ⟨h1, h2⟩
    · left; left; left; right
      rw [hit_iff]
      exact ⟨MoveFrom m, by rw [← KnightMap_symm _ _ hf hsq]; exact h2, h1⟩
    · left; left; right
      rw [hit_iff]
      refine ⟨MoveFrom m, ?_, h1⟩
      rw [← BishopMap_symm _ _ _ hf hsq,
        ← BishopMap_congr _ _ _ (occupancy_withTurn board c)]
      exact h2
    · left; right
      rw [hit_iff]
      refine ⟨MoveFrom m, ?_, h1⟩
      rw [← RookMap_symm _ _ _ hf hsq, ← RookMap_congr _ _ _ (occupancy_withTurn board c)]
      exact h2
    · right
      rw [hit_iff]
      exact ⟨MoveFrom m, by rw [← KingMap_symm _ _ hf hsq]; exact h2, h1⟩
  · exfalso
    have := (castle_shape _ m h).2.2.2.1
    rw [hto, testBit_emptySquares _ _ hsq] at this
    rw [show occupancy (withTurn board (!c)) = occupancy board from rfl, hoccupied] at this
    exact Bool.false_ne_true this

/-- A piece of the other side that attacks a square holding a piece of colour `c` has a
move onto it in the list of `genAllMoves`. -/
theorem piece_move_of_hit (board : Board) (hInv : BoardInv board) (c : Bool) (sq f : Nat)
    (hocc : (board.colours c).testBit sq = true)
    (hp : ((mine (withTurn board (!c)) KNIGHT).testBit f = true
          ∧ (KnightMap f).testBit sq = true)
        ∨ ((myDiagonals (withTurn board (!c))).testBit f = true
            ∧ (BishopMap f (not64 (emptySquares (withTurn board (!c))))).testBit sq = true)
        ∨ ((myStraights (withTurn board (!c))).testBit f = true
            ∧ (RookMap f (not64 (emptySquares (withTurn board (!c))))).testBit sq = true)
        ∨ ((mine (withTurn board (!c)) KING).testBit f = true
          ∧ (KingMap f).testBit sq = true)) :
    ∃ m ∈ genAllMoves (withTurn board (!c)) [], MoveTo m = sq
      ∧ (mine (withTurn board (!c)) PAWN).testBit (MoveFrom m) = false := by
  obtain ⟨hT, hdisj, _, _, hR, _⟩ := hInv
  have hT' : Typed (withTurn board (!c)) := hT
  have hR' : Redundant (withTurn board (!c)) := hR
  have hsq : sq < 64 := by
    cases c
    · exact lt_of_testBit _ _ _ hT.2.1 hocc
    · exact lt_of_testBit _ _ _ hT.2.2.1 hocc
  have hf : f < 64 := by
    rcases hp with h | h | h | h
    · exact lt_of_testBit _ _ _ (mine_lt _ hT' _) h.1
    · exact lt_of_testBit _ _ _ (myDiagonals_lt _ hT') h.1
    · exact lt_of_testBit _ _ _ (myStraights_lt _ hT') h.1
    · exact lt_of_testBit _ _ _ (mine_lt _ hT' _) h.1
  have htarget : (not64 ((withTurn board (!c)).colours (withTurn board (!c)).turn)).testBit sq
      = true := by
    have hd := colours_disjoint (withTurn board c) hdisj sq
    rw [show (withTurn board c).colours (withTurn board c).turn = board.colours c from rfl,
      show (withTurn board c).colours (!(withTurn board c).turn) = board.colours (!c) from rfl,
      hocc, Bool.true_and] at hd
    rw [testBit_not64, decide_eq_true hsq,
      show (withTurn board (!c)).colours (withTurn board (!c)).turn = board.colours (!c)
        from rfl, hd]
    rfl
  have hnp : (mine (withTurn board (!c)) PAWN).testBit f = false := by
    have d := fun t ht hne h => mine_false_of_ne (withTurn board (!c)) hT' hR' t PAWN ht
      (by decide) hne f h
    unfold myDiagonals myStraights at hp
    simp only [Nat.testBit_or, Bool.or_eq_true] at hp
    rcases hp with ⟨h, _⟩ | ⟨h | h, _⟩ | ⟨h | h, _⟩ | ⟨h, _⟩
    · exact d KNIGHT (by decide) (by decide) h
    · exact d BISHOP (by decide) (by decide) h
    · exact d QUEEN (by decide) (by decide) h
    · exact d ROOK (by decide) (by decide) h
    · exact d QUEEN (by decide) (by decide) h
    · exact d KING (by decide) (by decide) h
  obtain ⟨d1, d2, _⟩ := decode_nat f sq 0 hf hsq (by decide)
  have hN : NORMAL_MOVE = 0 <<< 12 := rfl
  refine ⟨MoveMake f sq NORMAL_MOVE, ?_, by rw [hN, d2], by rw [hN, d1]; exact hnp⟩
  rw [mem_genAllMoves]
  right; right; right; right; right; left
  rw [mem_pieceMoves _ hT']
  exact ⟨f, sq, rfl, htarget, hp⟩

/-- The query on a square that holds a piece of colour `c`: its pawn test, or a move of a
knight, bishop, rook, queen or king of the other side onto the square. -/
theorem squareIsAttacked_iff_piece_move (board : Board) (hInv : BoardInv board) (c : Bool)
    (sq : Nat) (hocc : (board.colours c).testBit sq = true) :
    squareIsAttacked board c sq = true ↔
      pawnTest board c sq = true
        ∨ ∃ m ∈ genAllMoves (withTurn board (!c)) [], MoveTo m = sq
          ∧ (mine (withTurn board (!c)) PAWN).testBit (MoveFrom m) = false := by
  have hT := hInv.1
  have hsq : sq < 64 := by
    cases c
    · exact lt_of_testBit _ _ _ hT.2.1 hocc
    · exact lt_of_testBit _ _ _ hT.2.2.1 hocc
  have hT' : Typed (withTurn board (!c)) := hT
  constructor
  · intro h
    rw [squareIsAttacked_eq] at h
    simp only [Bool.or_eq_true, hit_iff] at h
    rcases h with (((h | ⟨f, h1, h2⟩) | ⟨f, h1, h2⟩) | ⟨f, h1, h2⟩) | ⟨f, h1, h2⟩
    · exact Or.inl h
    · right
      have hf := lt_of_testBit _ _ _ (mine_lt _ hT' _) h2
      refine piece_move_of_hit board hInv c sq f hocc (Or.inl ⟨h2, ?_⟩)
      rw [KnightMap_symm _ _ hf hsq]; exact h1
    · right
      have hf := lt_of_testBit _ _ _ (myDiagonals_lt _ hT') h2
      refine piece_move_of_hit board hInv c sq f hocc (Or.inr (Or.inl ⟨h2, ?_⟩))
      rw [BishopMap_symm _ _ _ hf hsq, BishopMap_congr _ _ _ (occupancy_withTurn board c)]
      exact h1
    · right
      have hf := lt_of_testBit _ _ _ (myStraights_lt _ hT') h2
      refine piece_move_of_hit board hInv c sq f hocc (Or.inr (Or.inr (Or.inl ⟨h2, ?_⟩)))
      rw [RookMap_symm _ _ _ hf hsq, RookMap_congr _ _ _ (occupancy_withTurn board c)]
      exact h1
    · right
      have hf := lt_of_testBit _ _ _ (mine_lt _ hT' _) h2
      refine piece_move_of_hit board hInv c sq f hocc (Or.inr (Or.inr (Or.inr ⟨h2, ?_⟩)))
      rw [KingMap_symm _ _ hf hsq]; exact h1
  · rintro (h | ⟨m, hm, hto, hnp⟩)
    · rw [squareIsAttacked_eq, h]
      rfl
    · exact attacked_of_piece_move board hInv c sq hocc m hm hto hnp

/-! ## The attack query in geometric terms -/

theorem any_range_iff (p : Nat → Bool) :
    (List.range 64).any p = true ↔ ∃ s, s < 64 ∧ p s = true := by
  rw [List.any_eq_true]
  constructor
  · rintro ⟨s, hs, hp⟩; exact ⟨s, List.mem_range.1 hs, hp⟩
  · rintro ⟨s, hs, hp⟩; exact ⟨s, List.mem_range.2 hs, hp⟩

/-- The knight, bishop, rook, queen and king tests of the query are the geometric attacks of
the pieces of the other colour. -/
theorem squareIsAttacked_pieces (board : Board) (hT : Typed board) (c : Bool) (sq : Nat)
    (hsq : sq < 64) :
    squareIsAttacked board c sq =
      (pawnTest board c sq
        || (List.range 64).any fun s =>
            (board.colours (!c)).testBit s && pieceAttacks board s sq) := by
  have hT' : Typed (withTurn board (!c)) := hT
  have hocc : ∀ u, u < 64 →
      (board.colours c ||| board.colours (!c)).testBit u = (occupancy board).testBit u :=
    fun u _ => occupancy_eq board c u
  rw [Bool.eq_iff_iff, squareIsAttacked_eq]
  simp only [Bool.or_eq_true, hit_iff, any_range_iff, Bool.and_eq_true, pieceAttacks,
    mine_withTurn, myDiagonals_withTurn, myStraights_withTurn, Nat.testBit_and, Nat.testBit_or]
  constructor
  · rintro ((((h | ⟨f, h1, h2, h3⟩) | ⟨f, h1, h2⟩) | ⟨f, h1, h2⟩) | ⟨f, h1, h2, h3⟩)
    · exact Or.inl h
    · have hf := lt_of_testBit _ _ _ (enemy_lt (withTurn board c) hT) h2
      refine Or.inr ⟨f, hf, h2, Or.inl (Or.inl (Or.inl ⟨h3, ?_⟩))⟩
      rw [KnightMap_symm _ _ hf hsq]; exact h1
    · have h2' : (board.colours (!c)).testBit f = true := by
        rcases h2 with h | h <;> exact h.1
      have hf := lt_of_testBit _ _ _ (enemy_lt (withTurn board c) hT) h2'
      refine Or.inr ⟨f, hf, h2', Or.inl (Or.inl (Or.inr ⟨?_, ?_⟩))⟩
      · rcases h2 with h | h
        · exact Or.inl h.2
        · exact Or.inr h.2
      · rw [BishopMap_symm _ _ _ hf hsq, ← BishopMap_congr _ _ _ hocc]; exact h1
    · have h2' : (board.colours (!c)).testBit f = true := by
        rcases h2 with h | h <;> exact h.1
      have hf := lt_of_testBit _ _ _ (enemy_lt (withTurn board c) hT) h2'
      refine Or.inr ⟨f, hf, h2', Or.inl (Or.inr ⟨?_, ?_⟩)⟩
      · rcases h2 with h | h
        · exact Or.inl h.2
        · exact Or.inr h.2
      · rw [RookMap_symm _ _ _ hf hsq, ← RookMap_congr _ _ _ hocc]; exact h1
    · have hf := lt_of_testBit _ _ _ (enemy_lt (withTurn board c) hT) h2
      refine Or.inr ⟨f, hf, h2, Or.inr ⟨h3, ?_⟩⟩
      rw [KingMap_symm _ _ hf hsq]; exact h1
  · rintro (h | ⟨f, hf, h2, (((⟨h3, h1⟩ | ⟨h3, h1⟩) | ⟨h3, h1⟩) | ⟨h3, h1⟩)⟩)
    · exact Or.inl (Or.inl (Or.inl (Or.inl h)))
    · refine Or.inl (Or.inl (Or.inl (Or.inr ⟨f, ?_, h2, h3⟩)))
      rw [KnightMap_symm _ _ hsq hf]; exact h1
    · refine Or.inl (Or.inl (Or.inr ⟨f, ?_, ?_⟩))
      · rw [BishopMap_symm _ _ _ hsq hf, BishopMap_congr _ _ _ hocc]; exact h1
      · rcases h3 with h | h
        · exact Or.inl ⟨h2, h⟩
        · exact Or.inr ⟨h2, h⟩
    · refine Or.inl (Or.inr ⟨f, ?_, ?_⟩)
      · rw [RookMap_symm _ _ _ hsq hf, RookMap_congr _ _ _ hocc]; exact h1
      · rcases h3 with h | h
        · exact Or.inl ⟨h2, h⟩
        · exact Or.inr ⟨h2, h⟩
    · refine Or.inr ⟨f, ?_, h2, h3⟩
      rw [KingMap_symm _ _ hsq hf]; exact h1

theorem testBit_one (k : Nat) : Nat.testBit 1 k = decide (k = 0) := by
  cases k with
  | zero => rfl
  | succ n =>
    have h : (1 : Nat) < 2 ^ (n + 1) := Nat.one_lt_two_pow (by omega)
    rw [Nat.testBit_lt_two_pow h]
    simp

theorem testBit_square (sq i : Nat) (hsq : sq < 64) :
    (shl64 1 sq).testBit i = decide (i = sq) := by
  rw [testBit_shl64, testBit_one]
  by_cases h : i = sq
  · subst h; simp [hsq]
  · rw [decide_eq_false h]
    by_cases h1 : sq ≤ i
    · have : ¬ (i - sq = 0) := by omega
      simp [this]
    · simp [h1]

/-- The pawn test of the query is the geometric pawn attack. -/
theorem pawnTest_geometric (board : Board) (hT : Typed board) (c : Bool) (sq : Nat)
    (hsq : sq < 64) :
    pawnTest board c sq =
      (List.range 64).any fun s =>
        (board.colours (!c)).testBit s && ((board.pieces PAWN).testBit s && pawnAttacks c s sq)
    := by
  have hE := enemy_lt (withTurn board c) hT
  rw [show (withTurn board c).colours (!(withTurn board c).turn) = board.colours (!c)
    from rfl] at hE
  rw [Bool.eq_iff_iff, any_range_iff]
  unfold pawnTest pawnAttacks
  cases c
  · have hw : (false == WHITE) = true := rfl
    simp only [hw, if_true, hit_iff, Nat.testBit_or, Nat.testBit_and, testBit_shl64,
      testBit_not64, testBit_square _ _ hsq, testBit_FILE_A, testBit_FILE_H, Nat.testBit_shiftRight,
      Bool.and_eq_true, Bool.or_eq_true, decide_eq_true_eq, Bool.not_eq_true',
      decide_eq_false_iff_not, fileOf, rankOf, Nat.dist]
    constructor
    · rintro ⟨f, hf, he, hp⟩
      have hf64 := lt_of_testBit _ _ _ hE he
      exact ⟨f, hf64, he, hp, by omega, by omega⟩
    · rintro ⟨f, hf64, he, hp, h1, h3⟩
      refine ⟨f, ?_, he, hp⟩
      by_cases h7 : f = sq + 7
      · left; refine ⟨⟨hf64, by omega, by omega⟩, hf64, ?_⟩; omega
      · right; refine ⟨⟨hf64, by omega, by omega⟩, hf64, ?_⟩; omega
  · have hw : (true == WHITE) = false := rfl
    simp only [hw, Bool.false_eq_true, if_false, hit_iff, Nat.testBit_or, Nat.testBit_and,
      testBit_shl64, testBit_not64, testBit_square _ _ hsq, testBit_FILE_A, testBit_FILE_H,
      Nat.testBit_shiftRight, Bool.and_eq_true, Bool.or_eq_true, decide_eq_true_eq,
      Bool.not_eq_true', decide_eq_false_iff_not, fileOf, rankOf, Nat.dist]
    constructor
    · rintro ⟨f, hf, he, hp⟩
      have hf64 := lt_of_testBit _ _ _ hE he
      exact ⟨f, hf64, he, hp, by omega, by omega⟩
    · rintro ⟨f, hf64, he, hp, h1, h3⟩
      refine ⟨f, ?_, he, hp⟩
      by_cases h7 : 7 + f = sq
      · left; exact ⟨h7, hf64, by omega⟩
      · right; exact ⟨by omega, hf64, by omega⟩

/-- The query is the geometric attack. -/
theorem squareIsAttacked_eq_geometric (board : Board) (hT : Typed board) (c : Bool) (sq : Nat)
    (hsq : sq < 64) :
    squareIsAttacked board c sq = geometricallyAttacked board c sq := by
  rw [squareIsAttacked_pieces board hT c sq hsq, pawnTest_geometric board hT c sq hsq]
  unfold geometricallyAttacked
  rw [Bool.eq_iff_iff]
  simp only [Bool.or_eq_true, any_range_iff, Bool.and_eq_true]
  constructor
  · rintro (⟨s, hs, he, hp⟩ | ⟨s, hs, he, hp⟩)
    · exact ⟨s, hs, he, Or.inl hp⟩
    · exact ⟨s, hs, he, Or.inr hp⟩
  · rintro ⟨s, hs, he, (hp | hp)⟩
    · exact Or.inl ⟨s, hs, he, hp⟩
    · exact Or.inr ⟨s, hs, he, hp⟩

/-- The pawn test on the files c to f, where the squares the castling king stands on and
passes over lie. -/
theorem pawnTest_inner_files (board : Board) (hT : Typed board) (c : Bool) (sq : Nat)
    (hsq : sq < 64) (_h2 : 2 ≤ fileOf sq) (_h5 : fileOf sq ≤ 5) :
    pawnTest board c sq =
      (List.range 64).any fun s =>
        (board.colours (!c)).testBit s && ((board.pieces PAWN).testBit s && pawnAttacks c s sq)
    :=
  pawnTest_geometric board hT c sq hsq

/-- The query on the files c to f. -/
theorem squareIsAttacked_inner_files (board : Board) (hT : Typed board) (c : Bool) (sq : Nat)
    (hsq : sq < 64) (_h2 : 2 ≤ fileOf sq) (_h5 : fileOf sq ≤ 5) :
    squareIsAttacked board c sq = geometricallyAttacked board c sq :=
  squareIsAttacked_eq_geometric board hT c sq hsq

/-- With exactly one king of colour `c`, standing on `k`, the king's square is found by
`getLSB`. -/
theorem getLSB_king (board : Board) (c : Bool) (k : Nat) (hk : k < 64)
    (hone : (List.range 64).countP
      (fun s => (board.colours c &&& board.pieces KING).testBit s) = 1)
    (hbit : (board.colours c &&& board.pieces KING).testBit k = true) :
    getLSB (board.colours c &&& board.pieces KING) = k := by
  apply getLSB_eq _ _ hk hbit
  intro j hj
  rw [List.countP_eq_length_filter, List.length_eq_one] at hone
  obtain ⟨a, ha⟩ := hone
  have hkm : k ∈ (List.range 64).filter
      (fun s => (board.colours c &&& board.pieces KING).testBit s) :=
    List.mem_filter.2 ⟨List.mem_range.2 hk, hbit⟩
  by_contra hne
  rw [Bool.not_eq_false] at hne
  have hjm : j ∈ (List.range 64).filter
      (fun s => (board.colours c &&& board.pieces KING).testBit s) :=
    List.mem_filter.2 ⟨List.mem_range.2 (by omega), hne⟩
  rw [ha, List.mem_singleton] at hkm hjm
  omega

/-- With the king of colour `c` on the home square `k` of file e, `isNotInCheck` says that no
piece of the other colour attacks `k`. -/
theorem isNotInCheck_home (board : Board) (hInv : BoardInv board) (c : Bool) (k : Nat)
    (hk : k = 4 ∨ k = 60) (hking : board.squares k = makePiece KING c) :
    isNotInCheck board c = !geometricallyAttacked board c k := by
  obtain ⟨hT, _, _, _, hR, hW, hB, _⟩ := hInv
  have hk64 : k < 64 := by omega
  have hbit : (board.colours c &&& board.pieces KING).testBit k = true := by
    rw [Nat.and_comm]
    cases c
    · exact (hR k hk64 KING (by decide)).1.2 hking
    · exact (hR k hk64 KING (by decide)).2.2 hking
  have hone : (List.range 64).countP
      (fun s => (board.colours c &&& board.pieces KING).testBit s) = 1 := by
    cases c
    · exact hW
    · exact hB
  unfold isNotInCheck
  simp only []
  rw [getLSB_king board c k hk64 hone hbit,
    squareIsAttacked_inner_files board hT c k hk64
      (by unfold fileOf; omega) (by unfold fileOf; omega)]

/-- The guard of a castle move in geometric terms. -/
theorem castle_geometric (board : Board) (hInv : BoardInv board) (P E : Prop) (colour : Bool)
    (rights home pass : Nat) (hhome : home = 4 ∨ home = 60) (hpass : pass < 64)
    (hp2 : 2 ≤ fileOf pass) (hp5 : fileOf pass ≤ 5)
    (hking : board.castleRights &&& rights ≠ 0 → board.squares home = makePiece KING colour)
    (hcode : P ↔ board.turn = colour ∧ isNotInCheck board colour = true ∧ E
      ∧ board.castleRights &&& rights ≠ 0 ∧ squareIsAttacked board colour pass = false) :
    P ↔ board.turn = colour ∧ geometricallyAttacked board colour home = false ∧ E
      ∧ board.castleRights &&& rights ≠ 0 ∧ geometricallyAttacked board colour pass = false := by
  rw [hcode, squareIsAttacked_inner_files board hInv.1 colour pass hpass hp2 hp5]
  constructor
  · rintro ⟨h1, h2, h3, h4, h5⟩
    rw [isNotInCheck_home board hInv colour home hhome (hking h4)] at h2
    exact ⟨h1, by simpa using h2, h3, h4, h5⟩
  · rintro ⟨h1, h2, h3, h4, h5⟩
    refine ⟨h1, ?_, h3, h4, h5⟩
    rw [isNotInCheck_home board hInv colour home hhome (hking h4), h2]
    rfl

/-! ## The bit utilities of bitutils.c -/

theorem getLSB_spec (bb : Nat) (hbb : bb < 2 ^ 64) (hne : bb ≠ 0) :
    getLSB bb < 64 ∧ bb.testBit (getLSB bb) = true
      ∧ ∀ j, j < getLSB bb → bb.testBit j = false := by
  have hex : ∃ i, bb.testBit i = true := by
    by_contra hno
    apply hne
    apply Nat.eq_of_testBit_eq
    intro i
    rw [Nat.zero_testBit]
    by_contra hi
    exact hno ⟨i, by simpa using hi⟩
  have h1 := Nat.find_spec hex
  have h2 : ∀ j, j < Nat.find hex → bb.testBit j = false := by
    intro j hj
    have := Nat.find_min hex hj
    simpa using this
  have h3 : Nat.find hex < 64 := lt_of_testBit bb 64 _ hbb h1
  have h4 := getLSB_eq bb (Nat.find hex) h3 h1 h2
  rw [h4]
  exact ⟨h3, h1, h2⟩

theorem testBit_clear_lsb (bb j : Nat) :
    (bb ^^^ (1 <<< getLSB bb)).testBit j = (bb.testBit j ^^ decide (getLSB bb = j)) := by
  rw [Nat.testBit_xor, testBit_one_shl]

theorem clear_lsb_lt (bb : Nat) (hbb : bb < 2 ^ 64) (hne : bb ≠ 0) :
    bb ^^^ (1 <<< getLSB bb) < 2 ^ 64 := by
  apply Nat.xor_lt_two_pow hbb
  rw [Nat.one_shiftLeft]
  exact Nat.pow_lt_pow_right (by decide) (getLSB_spec bb hbb hne).1

theorem setBits_eq_bitIter (bb : Nat) (hbb : bb < 2 ^ 64) : setBits bb = bitIter bb :=
  (bitIter_eq bb hbb).symm

theorem setBits_zero : setBits 0 = [] := by
  unfold setBits
  rw [List.filter_eq_nil_iff]
  intro a _
  simp

theorem setBits_step (bb : Nat) (hbb : bb < 2 ^ 64) (hne : bb ≠ 0) :
    setBits bb = getLSB bb :: setBits (bb ^^^ (1 <<< getLSB bb)) := by
  obtain ⟨h1, h2, h3⟩ := getLSB_spec bb hbb hne
  have hlt := clear_lsb_lt bb hbb hne
  have h0 : (bb ^^^ (1 <<< getLSB bb)).testBit 0 = false := by
    rw [testBit_clear_lsb]
    by_cases hl : getLSB bb = 0
    · rw [hl] at h2; simp [hl, h2]
    · rw [h3 0 (by omega)]; simp [hl]
  rw [setBits_eq_bitIter bb hbb]
  unfold bitIter
  rw [bitLoop, if_neg hne]
  congr 1
  rw [bitLoop_eq 63 63 _ (le_refl _) (by omega) hlt (fun j hj => by
    have : j = 0 := by omega
    subst this; exact h0)]
  have e1 : List.range' (64 - 63) 63 = List.range' 1 63 := rfl
  have e2 : List.range 64 = 0 :: List.range' 1 63 := by decide
  unfold setBits
  rw [e1, e2, List.filter_cons, if_neg (by rw [h0]; exact Bool.false_ne_true)]

theorem mem_setBits (bb s : Nat) (hbb : bb < 2 ^ 64) : s ∈ setBits bb ↔ bb.testBit s = true := by
  rw [setBits_eq_bitIter bb hbb]
  exact mem_bitIter bb s hbb

theorem setBits_sorted (bb : Nat) : (setBits bb).Pairwise (fun a b => a < b) := by
  unfold setBits
  apply List.Pairwise.filter
  exact List.pairwise_lt_range 64

theorem setBits_length_le (bb : Nat) : (setBits bb).length ≤ 64 := by
  unfold setBits
  calc ((List.range 64).filter fun i => bb.testBit i).length
      ≤ (List.range 64).length := List.length_filter_le _ _
    _ = 64 := List.length_range 64

theorem countSetBitsLoop_eq (fuel : Nat) : ∀ (bb : Nat) (count : Int), bb < 2 ^ 64 →
    (setBits bb).length < fuel →
    countSetBitsLoop fuel bb count = some (count + ((setBits bb).length : Int)) := by
  induction fuel with
  | zero => intro bb count _ h; omega
  | succ n ih =>
    intro bb count hbb hn
    unfold countSetBitsLoop
    by_cases hne : bb = 0
    · subst hne
      simp [setBits_zero]
    · simp only [hne, if_false]
      have hs := setBits_step bb hbb hne
      rw [hs, List.length_cons] at hn
      rw [ih _ _ (clear_lsb_lt bb hbb hne) (by omega)]
      conv_rhs => rw [hs]
      rw [List.length_cons]
      congr 1
      push_cast
      ring

theorem countSetBits_eq (bb : Nat) (hbb : bb < 2 ^ 64) :
    countSetBits bb = some ((setBits bb).length : Int) := by
  unfold countSetBits
  rw [countSetBitsLoop_eq 65 bb 0 hbb (by have := setBits_length_le bb; omega)]
  simp

theorem getSetBitsLoop_eq (fuel : Nat) : ∀ (bb : Nat) (arr : Nat → Int) (count : Nat),
    bb < 2 ^ 64 → (setBits bb).length < fuel →
    ∃ out, getSetBitsLoop fuel bb arr count = some out
      ∧ (∀ i, i < count → out i = arr i)
      ∧ (∀ (i k : Nat), (setBits bb)[i]? = some k → out (count + i) = (k : Int))
      ∧ out (count + (setBits bb).length) = -1
      ∧ ∀ i, count + (setBits bb).length < i → out i = arr i := by
  induction fuel with
  | zero => intro bb arr count _ h; omega
  | succ n ih =>
    intro bb arr count hbb hn
    unfold getSetBitsLoop
    by_cases hne : bb = 0
    · subst hne
      rw [if_pos rfl, setBits_zero]
      refine ⟨_, rfl, ?_, ?_, ?_, ?_⟩
      · intro i hi
        exact Function.update_noteq (by omega) _ _
      · intro i k h
        simp at h
      · simp
      · intro i hi
        simp only [List.length_nil, Nat.add_zero] at hi
        exact Function.update_noteq (by omega) _ _
    · rw [if_neg hne]
      have hs := setBits_step bb hbb hne
      rw [hs, List.length_cons] at hn
      obtain ⟨out, ho, ha, hb, hc, hd⟩ :=
        ih (bb ^^^ (1 <<< getLSB bb)) (Function.update arr count (getLSB bb : Int)) (count + 1)
          (clear_lsb_lt bb hbb hne) (by omega)
      refine ⟨out, ho, ?_, ?_, ?_, ?_⟩
      · intro i hi
        rw [ha i (by omega)]
        exact Function.update_noteq (by omega) _ _
      · intro i k h
        rw [hs] at h
        cases i with
        | zero =>
          simp only [List.getElem?_cons_zero, Option.some.injEq] at h
          rw [Nat.add_zero, ha count (by omega), Function.update_same, h]
        | succ j =>
          rw [List.getElem?_cons_succ] at h
          have := hb j k h
          rw [show count + (j + 1) = count + 1 + j by omega]
          exact this
      · rw [hs, List.length_cons,
          show count + ((setBits (bb ^^^ (1 <<< getLSB bb))).length + 1)
            = count + 1 + (setBits (bb ^^^ (1 <<< getLSB bb))).length by omega]
        exact hc
      · intro i hi
        rw [hs, List.length_cons] at hi
        rw [hd i (by omega)]
        exact Function.update_noteq (by omega) _ _

/-! ### The table lookup of `popcount` -/

theorem testBit_chunk (bb k j : Nat) :
    (bb >>> k &&& 0xFFFF).testBit j = (decide (j < 16) && bb.testBit (k + j)) := by
  have e : (0xFFFF : Nat) = 2 ^ 16 - 1 := by decide
  rw [e, Nat.testBit_and, Nat.testBit_shiftRight, Nat.testBit_two_pow_sub_one, Bool.and_comm]

theorem chunk_lt (bb k : Nat) : bb >>> k &&& 0xFFFF < 2 ^ 16 :=
  Nat.lt_of_le_of_lt Nat.and_le_right (by decide)

theorem setBits_chunk_length (bb k : Nat) :
    (setBits (bb >>> k &&& 0xFFFF)).length
      = (List.range' k 16).countP fun i => bb.testBit i := by
  unfold setBits
  have e : List.range 64 = List.range 16 ++ List.range' 16 48 := by decide
  rw [e, List.filter_append, List.length_append]
  have h2 : (List.range' 16 48).filter (fun i => (bb >>> k &&& 0xFFFF).testBit i) = [] := by
    rw [List.filter_eq_nil_iff]
    intro a ha
    rw [List.mem_range'_1] at ha
    rw [testBit_chunk]
    have : ¬ a < 16 := by omega
    simp [this]
  rw [h2, List.length_nil, Nat.add_zero, ← List.countP_eq_length_filter,
    List.range'_eq_map_range, List.countP_map]
  apply List.countP_congr
  intro a ha
  rw [List.mem_range] at ha
  simp only [testBit_chunk, ha, decide_True, Bool.true_and, Function.comp]

theorem setBits_length_chunks (bb : Nat) :
    (setBits bb).length
      = (setBits (bb >>> 0 &&& 0xFFFF)).length + (setBits (bb >>> 16 &&& 0xFFFF)).length
        + (setBits (bb >>> 32 &&& 0xFFFF)).length + (setBits (bb >>> 48 &&& 0xFFFF)).length := by
  rw [setBits_chunk_length, setBits_chunk_length, setBits_chunk_length, setBits_chunk_length]
  unfold setBits
  have e : List.range 64
      = List.range' 0 16 ++ List.range' 16 16 ++ List.range' 32 16 ++ List.range' 48 16 := by
    decide
  rw [← List.countP_eq_length_filter, e, List.countP_append, List.countP_append,
    List.countP_append]

theorem popcount_eq (BitCounts : Nat → Int) (bb : Nat) (hbb : bb < 2 ^ 64)
    (h : ∀ i, i ≤ 0xFFFF → countSetBits i = some (BitCounts i)) :
    countSetBits bb = some (popcount BitCounts bb) := by
  have hc : ∀ k, BitCounts (bb >>> k &&& 0xFFFF)
      = ((setBits (bb >>> k &&& 0xFFFF)).length : Int) := by
    intro k
    have h1 := h (bb >>> k &&& 0xFFFF) Nat.and_le_right
    rw [countSetBits_eq _ (Nat.lt_trans (chunk_lt bb k) (by decide))] at h1
    exact (Option.some.inj h1).symm
  rw [countSetBits_eq bb hbb]
  unfold popcount
  rw [hc 0, hc 16, hc 32, hc 48, setBits_length_chunks bb]
  push_cast
  rfl

/-! ## Pawn pushes, square by square -/

theorem mem_buildPawnMoves_make (bb : Nat) (delta : Int) (f t : Nat) (hbb : bb < 2 ^ 64)
    (hf : f < 64) (ht : t < 64)
    (hsrc : ∀ u, bb.testBit u = true → 0 ≤ (u : Int) + delta ∧ (u : Int) + delta < 64) :
    MoveMake f t NORMAL_MOVE ∈ buildPawnMoves [] bb delta
      ↔ bb.testBit t = true ∧ (f : Int) = (t : Int) + delta := by
  rw [mem_buildPawnMoves bb delta _ hbb]
  have hN : NORMAL_MOVE = 0 <<< 12 := rfl
  constructor
  · rintro ⟨u, hu, he⟩
    have hu64 := lt_of_testBit bb 64 u hbb hu
    obtain ⟨s1, s2⟩ := hsrc u hu
    have h1 : ((u : Int) + delta).toNat < 64 := by omega
    have h2 : ((u : Int)).toNat < 64 := by simpa using hu64
    obtain ⟨d1, d2, _⟩ := decode_nat f t 0 hf ht (by decide)
    rw [← hN, he, hN, MoveFrom_MoveMake _ _ 0 h1 h2] at d1
    rw [← hN, he, hN, MoveTo_MoveMake _ _ 0 h1 h2] at d2
    have e2 : u = t := by simpa using d2
    subst e2
    refine ⟨hu, ?_⟩
    omega
  · rintro ⟨hb, he⟩
    exact ⟨t, hb, by rw [he]⟩

theorem pawnPushOne_white (board : Board) (hw : board.turn = WHITE) (t : Nat) :
    (pawnPushOne board).testBit t = true ↔ t < 64 ∧ 8 ≤ t
      ∧ (mine board PAWN).testBit (t - 8) = true ∧ (occupancy board).testBit t = false := by
  have hw2 : (WHITE == WHITE) = true := rfl
  unfold pawnPushOne
  rw [hw, hw2, if_pos rfl, Nat.testBit_and, testBit_shl64]
  by_cases h : t < 64
  · rw [testBit_emptySquares board t h]
    simp [h, and_assoc]
  · have : (emptySquares board).testBit t = false :=
      testBit_false_of_lt _ 64 t (emptySquares_lt board) (by omega)
    simp [h, this]

theorem pawnPushOne_black (board : Board) (hb : board.turn = BLACK) (t : Nat) :
    (pawnPushOne board).testBit t = true ↔ t < 64
      ∧ (mine board PAWN).testBit (t + 8) = true ∧ (occupancy board).testBit t = false := by
  have hw2 : (BLACK == WHITE) = false := rfl
  unfold pawnPushOne
  rw [hb, hw2, if_neg Bool.false_ne_true, Nat.testBit_and, Nat.testBit_shiftRight,
    Nat.add_comm 8 t]
  by_cases h : t < 64
  · rw [testBit_emptySquares board t h]
    simp [h]
  · have : (emptySquares board).testBit t = false :=
      testBit_false_of_lt _ 64 t (emptySquares_lt board) (by omega)
    simp [h, this]

theorem pawnPushTwo_white (board : Board) (hw : board.turn = WHITE) (t : Nat) :
    (pawnPushTwo board).testBit t = true ↔ 24 ≤ t ∧ t < 32
      ∧ (mine board PAWN).testBit (t - 16) = true
      ∧ (occupancy board).testBit (t - 8) = false ∧ (occupancy board).testBit t = false := by
  have hw2 : (WHITE == WHITE) = true := rfl
  have h1 := pawnPushOne_white board hw (t - 8)
  unfold pawnPushTwo
  rw [hw, hw2, if_pos rfl, Nat.testBit_and, testBit_shl64, Nat.testBit_and, testBit_RANK_3]
  rw [Bool.and_eq_true, Bool.and_eq_true, Bool.and_eq_true, Bool.and_eq_true, h1]
  simp only [decide_eq_true_eq]
  have e : t - 8 - 8 = t - 16 := by omega
  rw [e]
  constructor
  · rintro ⟨⟨h64, h8, ⟨_, _, hp, ho⟩, h16, h24⟩, he⟩
    rw [testBit_emptySquares board t h64] at he
    exact ⟨by omega, by omega, hp, ho, by simpa using he⟩
  · rintro ⟨h24, h32, hp, ho, ho2⟩
    have h64 : t < 64 := by omega
    rw [testBit_emptySquares board t h64, ho2]
    exact ⟨⟨h64, by omega, ⟨by omega, by omega, hp, ho⟩, by omega, by omega⟩, rfl⟩

theorem pawnPushTwo_black (board : Board) (hb : board.turn = BLACK) (t : Nat) :
    (pawnPushTwo board).testBit t = true ↔ 32 ≤ t ∧ t < 40
      ∧ (mine board PAWN).testBit (t + 16) = true
      ∧ (occupancy board).testBit (t + 8) = false ∧ (occupancy board).testBit t = false := by
  have hw2 : (BLACK == WHITE) = false := rfl
  have h1 := pawnPushOne_black board hb (t + 8)
  unfold pawnPushTwo
  rw [hb, hw2, if_neg Bool.false_ne_true, Nat.testBit_and, Nat.testBit_shiftRight,
    Nat.testBit_and, testBit_RANK_6, Nat.add_comm 8 t]
  rw [Bool.and_eq_true, Bool.and_eq_true, h1]
  simp only [decide_eq_true_eq]
  have e : t + 8 + 8 = t + 16 := by omega
  rw [e]
  constructor
  · rintro ⟨⟨⟨_, hp, ho⟩, h40, h48⟩, he⟩
    have h64 : t < 64 := by omega
    rw [testBit_emptySquares board t h64] at he
    exact ⟨by omega, by omega, hp, ho, by simpa using he⟩
  · rintro ⟨h32, h40, hp, ho, ho2⟩
    have h64 : t < 64 := by omega
    rw [testBit_emptySquares board t h64, ho2]
    exact ⟨⟨⟨by omega, hp, ho⟩, by omega, by omega⟩, rfl⟩

theorem mine_of_squares (board : Board) (hR : Redundant board) (t : Nat) (ht : t < 6)
    (f : Nat) (hf : f < 64) (h : board.squares f = makePiece t board.turn) :
    (mine board t).testBit f = true := by
  unfold mine
  rw [Nat.land_comm]
  cases hb : board.turn
  · rw [hb] at h
    exact ((hR f hf t ht).1).2 h
  · rw [hb] at h
    exact ((hR f hf t ht).2).2 h

theorem pawn_not_on_edge_rank (board : Board)
    (hP : board.pieces PAWN &&& (RANK_1 ||| RANK_8) = 0) (f : Nat) (hf : f < 64)
    (h : (mine board PAWN).testBit f = true) : 8 ≤ f ∧ f < 56 := by
  unfold mine at h
  rw [Nat.testBit_and, Bool.and_eq_true] at h
  rw [and_eq_zero_iff_testBit] at hP
  by_contra hc
  have : (RANK_1 ||| RANK_8).testBit f = true := by
    rw [Nat.testBit_or, testBit_RANK_1, testBit_RANK_8, Bool.or_eq_true, decide_eq_true_eq,
      decide_eq_true_eq]
    by_cases h8 : f < 8
    · exact Or.inl h8
    · right
      by_contra h56
      exact hc ⟨by omega, by omega⟩
  rw [hP f this] at h
  exact Bool.false_ne_true h.2

theorem mem_pushOneMoves (board : Board) (hT : Typed board) (f t : Nat) (hf : f < 64)
    (ht : t < 64) :
    MoveMake f t NORMAL_MOVE ∈ pushOneMoves board
      ↔ (pawnPushOne board).testBit t = true ∧ (lastRank board).testBit t = false
        ∧ (f : Int) = (t : Int) + forwardShift board := by
  unfold pushOneMoves
  rw [mem_buildPawnMoves_make _ _ f t (and_lt_left _ _ _ (pawnPushOne_lt board)) hf ht,
    Nat.testBit_and, Bool.and_eq_true, testBit_not64]
  · simp [ht, and_assoc]
  · intro u hu
    rw [Nat.testBit_and, Bool.and_eq_true] at hu
    obtain ⟨_, _, g, hg, hge, _⟩ := pawnPushOne_bit board hT u hu.1
    omega

theorem mem_pushTwoMoves (board : Board) (hT : Typed board) (f t : Nat) (hf : f < 64)
    (ht : t < 64) :
    MoveMake f t NORMAL_MOVE ∈ pushTwoMoves board
      ↔ (pawnPushTwo board).testBit t = true
        ∧ (f : Int) = (t : Int) + 2 * forwardShift board := by
  unfold pushTwoMoves
  rw [mem_buildPawnMoves_make _ _ f t (pawnPushTwo_lt board) hf ht]
  intro u hu
  obtain ⟨_, _, g, hg, hge, _⟩ := pawnPushTwo_bit board hT u hu
  omega

theorem flag_ne : ENPASS_MOVE ≠ NORMAL_MOVE ∧ CASTLE_MOVE ≠ NORMAL_MOVE
    ∧ QUEEN_PROMO_MOVE ≠ NORMAL_MOVE ∧ ROOK_PROMO_MOVE ≠ NORMAL_MOVE
    ∧ BISHOP_PROMO_MOVE ≠ NORMAL_MOVE ∧ KNIGHT_PROMO_MOVE ≠ NORMAL_MOVE := by decide

theorem normal_pawn_move (board : Board) (hT : Typed board) (hR : Redundant board)
    (f t : Nat) (hf : f < 64) (ht : t < 64) (hp : (mine board PAWN).testBit f = true) :
    (MoveMake f t NORMAL_MOVE ∈ genAllMoves board []
        ↔ MoveMake f t NORMAL_MOVE ∈ pushOneMoves board
          ∨ MoveMake f t NORMAL_MOVE ∈ pushTwoMoves board
          ∨ MoveMake f t NORMAL_MOVE ∈ takeMoves board)
      ∧ (MoveMake f t NORMAL_MOVE ∈ genAllQuietMoves board []
        ↔ MoveMake f t NORMAL_MOVE ∈ pushOneMoves board
          ∨ MoveMake f t NORMAL_MOVE ∈ pushTwoMoves board) := by
  obtain ⟨d1, _, d3⟩ := decode_nat f t 0 hf ht (by decide)
  have hN : NORMAL_MOVE = 0 <<< 12 := rfl
  rw [← hN] at d1 d3
  obtain ⟨n1, n2, n3, n4, n5, n6⟩ := flag_ne
  have hpiece : ∀ targets, targets < 2 ^ 64 →
      MoveMake f t NORMAL_MOVE ∈ pieceMoves board targets → False := by
    intro targets htg h
    obtain ⟨_, _, _, _, h5⟩ := piece_shape board hT targets _ htg h
    rw [d1] at h5
    exact not_pawn_of_piece board hT hR f hp
      (h5.imp (fun h => h.1) (Or.imp (fun h => h.1) (Or.imp (fun h => h.1) (fun h => h.1))))
  have hcastle : MoveMake f t NORMAL_MOVE ∈ castleMoves board → False := by
    intro h
    have := (castle_shape board _ h).1
    rw [d3] at this
    exact n2 this.symm
  constructor
  · rw [mem_genAllMoves]
    constructor
    · rintro (h | h | h | h | h | h | h)
      · have := enpass_flag board hT _ h
        rw [d3] at this
        exact absurd this.symm n1
      · exact Or.inl h
      · exact Or.inr (Or.inl h)
      · exact Or.inr (Or.inr h)
      · have := (promo_shape board hT _ h).1
        rw [d3] at this
        rcases this with e | e | e | e
        · exact absurd e.symm n3
        · exact absurd e.symm n4
        · exact absurd e.symm n5
        · exact absurd e.symm n6
      · exact (hpiece _ (not64_colours_lt board) h).elim
      · exact (hcastle h).elim
    · rintro (h | h | h)
      · exact Or.inr (Or.inl h)
      · exact Or.inr (Or.inr (Or.inl h))
      · exact Or.inr (Or.inr (Or.inr (Or.inl h)))
  · rw [mem_genAllQuietMoves]
    constructor
    · rintro (h | h | h | h)
      · exact Or.inl h
      · exact Or.inr h
      · exact (hpiece _ (emptySquares_lt board) h).elim
      · exact (hcastle h).elim
    · rintro (h | h)
      · exact Or.inl h
      · exact Or.inr (Or.inl h)

theorem take_offsets (board : Board) (hT : Typed board) (f t : Nat) (hf : f < 64)
    (ht : t < 64) (h : MoveMake f t NORMAL_MOVE ∈ takeMoves board) :
    ((f : Int) = (t : Int) + leftShift board ∨ (f : Int) = (t : Int) + rightShift board)
      ∧ (lastRank board).testBit t = false
      ∧ (board.colours (!board.turn)).testBit t = true := by
  obtain ⟨d1, d2, _⟩ := decode_nat f t 0 hf ht (by decide)
  have hN : NORMAL_MOVE = 0 <<< 12 := rfl
  rw [← hN] at d1 d2
  obtain ⟨_, _, _, h4, h5, _, h7⟩ := take_shape board hT _ h
  rw [d1, d2] at h7
  rw [d2] at h4 h5
  exact ⟨h7, h5, h4⟩

theorem pawn_push_white (board : Board) (hT : Typed board) (hR : Redundant board)
    (hw : board.turn = WHITE) (f t : Nat) (hf : f < 64) (ht : t < 64)
    (hp : (mine board PAWN).testBit f = true) :
    (t = f + 16 →
        (MoveMake f t NORMAL_MOVE ∈ genAllMoves board []
          ↔ rankOf f = 1 ∧ (occupancy board).testBit (f + 8) = false
            ∧ (occupancy board).testBit t = false)
        ∧ (MoveMake f t NORMAL_MOVE ∈ genAllQuietMoves board []
          ↔ rankOf f = 1 ∧ (occupancy board).testBit (f + 8) = false
            ∧ (occupancy board).testBit t = false))
      ∧ (t = f + 8 →
        (MoveMake f t NORMAL_MOVE ∈ genAllMoves board []
          ↔ (occupancy board).testBit t = false ∧ rankOf t ≠ 7)
        ∧ (MoveMake f t NORMAL_MOVE ∈ genAllQuietMoves board []
          ↔ (occupancy board).testBit t = false ∧ rankOf t ≠ 7)) := by
  have hfs : forwardShift board = -8 := by unfold forwardShift; rw [hw]; rfl
  have hls : leftShift board = -7 := by unfold leftShift; rw [hw]; rfl
  have hrs : rightShift board = -9 := by unfold rightShift; rw [hw]; rfl
  have hlr : lastRank board = RANK_8 := by unfold lastRank; rw [hw]; rfl
  obtain ⟨hall, hquiet⟩ := normal_pawn_move board hT hR f t hf ht hp
  have h1 := mem_pushOneMoves board hT f t hf ht
  have h2 := mem_pushTwoMoves board hT f t hf ht
  rw [hfs, hlr, pawnPushOne_white board hw, testBit_RANK_8] at h1
  rw [hfs, pawnPushTwo_white board hw] at h2
  have h3 : MoveMake f t NORMAL_MOVE ∈ takeMoves board → t + 7 = f + 14 ∨ t + 9 = f + 18 := by
    intro h
    obtain ⟨h, _, _⟩ := take_offsets board hT f t hf ht h
    rw [hls, hrs] at h
    omega
  unfold rankOf
  constructor
  · intro e
    subst e
    have key : MoveMake f ((f + 16 : Nat) : Int) NORMAL_MOVE ∈ pushOneMoves board
          ∨ MoveMake f ((f + 16 : Nat) : Int) NORMAL_MOVE ∈ pushTwoMoves board
        ↔ f / 8 = 1 ∧ (occupancy board).testBit (f + 8) = false
          ∧ (occupancy board).testBit (f + 16) = false := by
      rw [h1, h2]
      have e1 : f + 16 - 16 = f := by omega
      have e2 : f + 16 - 8 = f + 8 := by omega
      rw [e1, e2]
      constructor
      · rintro (⟨_, _, h⟩ | ⟨⟨_, _, _, ha, hb⟩, _⟩)
        · omega
        · exact ⟨by omega, ha, hb⟩
      · rintro ⟨hr, ha, hb⟩
        exact Or.inr ⟨⟨by omega, by omega, hp, ha, hb⟩, by omega⟩
    refine ⟨?_, hquiet.trans key⟩
    rw [hall, ← key]
    constructor
    · rintro (h | h | h)
      · exact Or.inl h
      · exact Or.inr h
      · have := h3 h
        omega
    · rintro (h | h)
      · exact Or.inl h
      · exact Or.inr (Or.inl h)
  · intro e
    subst e
    have key : MoveMake f ((f + 8 : Nat) : Int) NORMAL_MOVE ∈ pushOneMoves board
          ∨ MoveMake f ((f + 8 : Nat) : Int) NORMAL_MOVE ∈ pushTwoMoves board
        ↔ (occupancy board).testBit (f + 8) = false ∧ (f + 8) / 8 ≠ 7 := by
      rw [h1, h2]
      have e1 : f + 8 - 8 = f := by omega
      rw [e1]
      constructor
      · rintro (⟨⟨_, _, _, ha⟩, hb, _⟩ | ⟨_, h⟩)
        · rw [decide_eq_false_iff_not] at hb
          exact ⟨ha, by omega⟩
        · omega
      · rintro ⟨ha, hb⟩
        refine Or.inl ⟨⟨by omega, by omega, hp, ha⟩, ?_, by omega⟩
        rw [decide_eq_false_iff_not]
        omega
    refine ⟨?_, hquiet.trans key⟩
    rw [hall, ← key]
    constructor
    · rintro (h | h | h)
      · exact Or.inl h
      · exact Or.inr h
      · have := h3 h
        omega
    · rintro (h | h)
      · exact Or.inl h
      · exact Or.inr (Or.inl h)

theorem pawn_push_black (board : Board) (hT : Typed board) (hR : Redundant board)
    (hb : board.turn = BLACK) (f t : Nat) (hf : f < 64) (ht : t < 64)
    (hp : (mine board PAWN).testBit f = true) :
    (f = t + 16 →
        (MoveMake f t NORMAL_MOVE ∈ genAllMoves board []
          ↔ rankOf f = 6 ∧ (occupancy board).testBit (t + 8) = false
            ∧ (occupancy board).testBit t = false)
        ∧ (MoveMake f t NORMAL_MOVE ∈ genAllQuietMoves board []
          ↔ rankOf f = 6 ∧ (occupancy board).testBit (t + 8) = false
            ∧ (occupancy board).testBit t = false))
      ∧ (f = t + 8 →
        (MoveMake f t NORMAL_MOVE ∈ genAllMoves board []
          ↔ (occupancy board).testBit t = false ∧ rankOf t ≠ 0)
        ∧ (MoveMake f t NORMAL_MOVE ∈ genAllQuietMoves board []
          ↔ (occupancy board).testBit t = false ∧ rankOf t ≠ 0)) := by
  have hfs : forwardShift board = 8 := by unfold forwardShift; rw [hb]; rfl
  have hls : leftShift board = 7 := by unfold leftShift; rw [hb]; rfl
  have hrs : rightShift board = 9 := by unfold rightShift; rw [hb]; rfl
  have hlr : lastRank board = RANK_1 := by unfold lastRank; rw [hb]; rfl
  obtain ⟨hall, hquiet⟩ := normal_pawn_move board hT hR f t hf ht hp
  have h1 := mem_pushOneMoves board hT f t hf ht
  have h2 := mem_pushTwoMoves board hT f t hf ht
  rw [hfs, hlr, pawnPushOne_black board hb, testBit_RANK_1] at h1
  rw [hfs, pawnPushTwo_black board hb] at h2
  have h3 : MoveMake f t NORMAL_MOVE ∈ takeMoves board → f = t + 7 ∨ f = t + 9 := by
    intro h
    obtain ⟨h, _, _⟩ := take_offsets board hT f t hf ht h
    rw [hls, hrs] at h
    omega
  unfold rankOf
  constructor
  · intro e
    subst e
    have key : MoveMake ((t + 16 : Nat) : Int) t NORMAL_MOVE ∈ pushOneMoves board
          ∨ MoveMake ((t + 16 : Nat) : Int) t NORMAL_MOVE ∈ pushTwoMoves board
        ↔ (t + 16) / 8 = 6 ∧ (occupancy board).testBit (t + 8) = false
          ∧ (occupancy board).testBit t = false := by
      rw [h1, h2]
      constructor
      · rintro (⟨_, _, h⟩ | ⟨⟨_, _, _, ha, hb⟩, _⟩)
        · omega
        · exact ⟨by omega, ha, hb⟩
      · rintro ⟨hr, ha, hb⟩
        exact Or.inr ⟨⟨by omega, by omega, hp, ha, hb⟩, by push_cast; omega⟩
    refine ⟨?_, hquiet.trans key⟩
    rw [hall, ← key]
    constructor
    · rintro (h | h | h)
      · exact Or.inl h
      · exact Or.inr h
      · have := h3 h
        omega
    · rintro (h | h)
      · exact Or.inl h
      · exact Or.inr (Or.inl h)
  · intro e
    subst e
    have key : MoveMake ((t + 8 : Nat) : Int) t NORMAL_MOVE ∈ pushOneMoves board
          ∨ MoveMake ((t + 8 : Nat) : Int) t NORMAL_MOVE ∈ pushTwoMoves board
        ↔ (occupancy board).testBit t = false ∧ t / 8 ≠ 0 := by
      rw [h1, h2]
      constructor
      · rintro (⟨⟨_, _, ha⟩, hb, _⟩ | ⟨_, h⟩)
        · rw [decide_eq_false_iff_not] at hb
          exact ⟨ha, by omega⟩
        · omega
      · rintro ⟨ha, hb⟩
        refine Or.inl ⟨⟨by omega, hp, ha⟩, ?_, by push_cast; omega⟩
        rw [decide_eq_false_iff_not]
        omega
    refine ⟨?_, hquiet.trans key⟩
    rw [hall, ← key]
    constructor
    · rintro (h | h | h)
      · exact Or.inl h
      · exact Or.inr h
      · have := h3 h
        omega
    · rintro (h | h)
      · exact Or.inl h
      · exact Or.inr (Or.inl h)

/-! ## Whose pieces move, and where to -/

theorem friendly_of_mine (board : Board) (t f : Nat) (h : (mine board t).testBit f = true) :
    (board.colours board.turn).testBit f = true := by
  unfold mine at h
  rw [Nat.testBit_and, Bool.and_eq_true] at h
  exact h.1

theorem not_friendly_of_empty (board : Board) (t : Nat)
    (h : (emptySquares board).testBit t = true) :
    (board.colours board.turn).testBit t = false := by
  unfold emptySquares at h
  rw [testBit_not64, Bool.and_eq_true, Nat.testBit_or] at h
  have := h.2
  cases hc : (board.colours board.turn).testBit t
  · rfl
  · rw [hc] at this
    simp at this

theorem not_friendly_of_enemy (board : Board)
    (hdisj : board.colours WHITE &&& board.colours BLACK = 0) (t : Nat)
    (h : (board.colours (!board.turn)).testBit t = true) :
    (board.colours board.turn).testBit t = false := by
  have := colours_disjoint board hdisj t
  rw [h, Bool.and_true] at this
  exact this

theorem ep_range (board : Board) (hE : EpInv board) (he : board.epSquare ≠ -1) :
    16 ≤ board.epSquare ∧ board.epSquare ≤ 47
      ∧ (occupancy board).testBit board.epSquare.toNat = false := by
  have := hE he
  by_cases hw : board.turn = WHITE
  · rw [if_pos hw] at this
    exact ⟨by omega, by omega, this.2.2.2⟩
  · rw [if_neg hw] at this
    exact ⟨by omega, by omega, this.2.2.2⟩

theorem not_friendly_of_unoccupied (board : Board) (t : Nat)
    (h : (occupancy board).testBit t = false) :
    (board.colours board.turn).testBit t = false := by
  unfold occupancy at h
  rw [Nat.testBit_or, Bool.or_eq_false_iff] at h
  cases hb : board.turn
  · exact h.1
  · exact h.2

theorem move_own_piece (board : Board) (hInv : BoardInv board) (m : Nat)
    (hm : m ∈ genAllMoves board []) :
    MoveFrom m < 64 ∧ MoveTo m < 64
      ∧ (∃ t, t < 6 ∧ (mine board t).testBit (MoveFrom m) = true)
      ∧ (board.colours board.turn).testBit (MoveTo m) = false := by
  obtain ⟨hT, hdisj, _, _, hR, _, _, _, hE, hC⟩ := hInv
  rw [mem_genAllMoves] at hm
  rcases hm with h | h | h | h | h | h | h
  · have he : board.epSquare ≠ -1 := ((mem_enpassMoves board m).1 h).1
    obtain ⟨h16, h47, hocc⟩ := ep_range board hE he
    have hto := enpass_to board h16 h47 m h
    obtain ⟨f, hf, rfl, _, _, _, hsq⟩ := (mem_enpassMoves_geometric board hE he _).1 h
    have hE2 : ENPASS_MOVE = 2 <<< 12 := rfl
    have hfrom : MoveFrom (MoveMake f board.epSquare ENPASS_MOVE) = f := by
      rw [hE2, MoveFrom_MoveMake _ _ 2 (by simpa using hf) (by omega)]
      simp
    rw [hfrom, hto]
    exact ⟨hf, by omega, ⟨PAWN, by decide, mine_of_squares board hR PAWN (by decide) f hf hsq⟩,
      not_friendly_of_unoccupied board _ hocc⟩
  · obtain ⟨_, h2, h3, h4, _, h6, _⟩ := pushOne_shape board hT m h
    exact ⟨h2, h3, ⟨PAWN, by decide, h6⟩, not_friendly_of_empty board _ h4⟩
  · obtain ⟨_, h2, h3, h4, h6, _⟩ := pushTwo_shape board hT m h
    exact ⟨h2, h3, ⟨PAWN, by decide, h6⟩, not_friendly_of_empty board _ h4⟩
  · obtain ⟨_, h2, h3, h4, _, h6, _⟩ := take_shape board hT m h
    exact ⟨h2, h3, ⟨PAWN, by decide, h6⟩, not_friendly_of_enemy board hdisj _ h4⟩
  · obtain ⟨_, h2, h3, _, h6, h7⟩ := promo_shape board hT m h
    refine ⟨h2, h3, ⟨PAWN, by decide, h6⟩, ?_⟩
    rcases h7 with ⟨h7, _⟩ | ⟨h7, _⟩
    · exact not_friendly_of_empty board _ h7
    · exact not_friendly_of_enemy board hdisj _ h7
  · obtain ⟨_, h2, h3, h4, h5⟩ := piece_shape board hT _ m (not64_colours_lt board) h
    rw [testBit_not64, Bool.and_eq_true] at h4
    refine ⟨h2, h3, ?_, by simpa using h4.2⟩
    unfold myDiagonals myStraights at h5
    simp only [Nat.testBit_or, Bool.or_eq_true] at h5
    rcases h5 with ⟨h5, _⟩ | ⟨h5 | h5, _⟩ | ⟨h5 | h5, _⟩ | ⟨h5, _⟩
    · exact ⟨KNIGHT, by decide, h5⟩
    · exact ⟨BISHOP, by decide, h5⟩
    · exact ⟨QUEEN, by decide, h5⟩
    · exact ⟨ROOK, by decide, h5⟩
    · exact ⟨QUEEN, by decide, h5⟩
    · exact ⟨KING, by decide, h5⟩
  · obtain ⟨_, h2, h3, h4, _⟩ := castle_shape board m h
    refine ⟨h2, h3, ⟨KING, by decide, ?_⟩, not_friendly_of_empty board _ h4⟩
    rw [mem_castleMoves] at h
    obtain ⟨_, h⟩ := h
    obtain ⟨c1, c2, c3, c4⟩ := hC
    have f1 : MoveFrom (MoveMake 4 6 CASTLE_MOVE) = 4 := by decide!
    have f2 : MoveFrom (MoveMake 4 2 CASTLE_MOVE) = 4 := by decide!
    have f3 : MoveFrom (MoveMake 60 62 CASTLE_MOVE) = 60 := by decide!
    have f4 : MoveFrom (MoveMake 60 58 CASTLE_MOVE) = 60 := by decide!
    rcases h with ⟨hb, rfl, h⟩ | ⟨hb, rfl, h⟩ | ⟨hb, rfl, h⟩ | ⟨hb, rfl, h⟩ <;>
      rw [castleTest_iff] at h <;> obtain ⟨_, hr, _⟩ := h
    · rw [f1]
      exact mine_of_squares board hR KING (by decide) 4 (by decide) (by rw [hb]; exact (c1 hr).1)
    · rw [f2]
      exact mine_of_squares board hR KING (by decide) 4 (by decide) (by rw [hb]; exact (c2 hr).1)
    · rw [f3]
      exact mine_of_squares board hR KING (by decide) 60 (by decide)
        (by rw [hb]; exact (c3 hr).1)
    · rw [f4]
      exact mine_of_squares board hR KING (by decide) 60 (by decide)
        (by rw [hb]; exact (c4 hr).1)

/-! ## The legality filter: what it reads and what it leaves alone -/

theorem isNotInCheck_congr (b1 b2 : Board) (c : Bool) (hp : b1.pieces = b2.pieces)
    (hc : b1.colours = b2.colours) : isNotInCheck b1 c = isNotInCheck b2 c := by
  unfold isNotInCheck squareIsAttacked
  rw [hp, hc]

theorem legalLoop_frame {Undo : Type} (applyMove : Board → Nat → Board × Undo)
    (revertMove : Board → Nat → Undo → Board) (board : Board) (l : List Nat) :
    ∀ (moves : List Nat),
    (∀ m ∈ l, revertMove (applyMove board m).1 m (applyMove board m).2 = board) →
    (l.foldl (fun (state : Board × List Nat) m =>
      let applied := applyMove state.1 m
      let board := applied.1
      let moves := if isNotInCheck board (!board.turn) then state.2 ++ [m] else state.2
      (revertMove board m applied.2, moves)) (board, moves)).1 = board
    ∧ moves <+: (l.foldl (fun (state : Board × List Nat) m =>
      let applied := applyMove state.1 m
      let board := applied.1
      let moves := if isNotInCheck board (!board.turn) then state.2 ++ [m] else state.2
      (revertMove board m applied.2, moves)) (board, moves)).2 := by
  induction l with
  | nil => intro moves _; exact ⟨rfl, List.prefix_refl _⟩
  | cons a rest ih =>
    intro moves h
    rw [List.foldl_cons]
    simp only []
    rw [h a (List.mem_cons_self _ _)]
    have hrest := fun m hm => h m (List.mem_cons_of_mem _ hm)
    split
    · obtain ⟨h1, h2⟩ := ih (moves ++ [a]) hrest
      exact ⟨h1, (List.prefix_append moves [a]).trans h2⟩
    · exact ih moves hrest

/-! ## The masks of src/EtherealBB/bitboards.h, all sixteen -/

theorem header_RANK_1 (i : Nat) : EtherealBB.RANK_1.testBit i = decide (i < 8) :=
  testBit_const EtherealBB.RANK_1 (fun i => decide (i < 8)) (by decide) (by decide)
    (fun i hi => by simp only [decide_eq_false_iff_not]; omega) i

theorem header_RANK_2 (i : Nat) : EtherealBB.RANK_2.testBit i = decide (8 ≤ i ∧ i < 16) :=
  testBit_const EtherealBB.RANK_2 (fun i => decide (8 ≤ i ∧ i < 16)) (by decide) (by decide)
    (fun i hi => by simp only [decide_eq_false_iff_not]; omega) i

theorem header_RANK_3 (i : Nat) : EtherealBB.RANK_3.testBit i = decide (16 ≤ i ∧ i < 24) :=
  testBit_const EtherealBB.RANK_3 (fun i => decide (16 ≤ i ∧ i < 24)) (by decide) (by decide)
    (fun i hi => by simp only [decide_eq_false_iff_not]; omega) i

theorem header_RANK_4 (i : Nat) : EtherealBB.RANK_4.testBit i = decide (24 ≤ i ∧ i < 32) :=
  testBit_const EtherealBB.RANK_4 (fun i => decide (24 ≤ i ∧ i < 32)) (by decide) (by decide)
    (fun i hi => by simp only [decide_eq_false_iff_not]; omega) i

theorem header_RANK_5 (i : Nat) : EtherealBB.RANK_5.testBit i = decide (32 ≤ i ∧ i < 40) :=
  testBit_const EtherealBB.RANK_5 (fun i => decide (32 ≤ i ∧ i < 40)) (by decide) (by decide)
    (fun i hi => by simp only [decide_eq_false_iff_not]; omega) i

theorem header_RANK_6 (i : Nat) : EtherealBB.RANK_6.testBit i = decide (40 ≤ i ∧ i < 48) :=
  testBit_const EtherealBB.RANK_6 (fun i => decide (40 ≤ i ∧ i < 48)) (by decide) (by decide)
    (fun i hi => by simp only [decide_eq_false_iff_not]; omega) i

theorem header_RANK_7 (i : Nat) : EtherealBB.RANK_7.testBit i = decide (48 ≤ i ∧ i < 56) :=
  testBit_const EtherealBB.RANK_7 (fun i => decide (48 ≤ i ∧ i < 56)) (by decide) (by decide)
    (fun i hi => by simp only [decide_eq_false_iff_not]; omega) i

theorem header_RANK_8 (i : Nat) : EtherealBB.RANK_8.testBit i = decide (56 ≤ i ∧ i < 64) :=
  testBit_const EtherealBB.RANK_8 (fun i => decide (56 ≤ i ∧ i < 64)) (by decide) (by decide)
    (fun i hi => by simp only [decide_eq_false_iff_not]; omega) i

theorem header_FILE_A (i : Nat) :
    EtherealBB.FILE_A.testBit i = decide (i < 64 ∧ i % 8 = 7) :=
  testBit_const EtherealBB.FILE_A (fun i => decide (i < 64 ∧ i % 8 = 7)) (by decide)
    (by decide) (fun i hi => by simp only [decide_eq_false_iff_not]; omega) i

theorem header_FILE_B (i : Nat) :
    EtherealBB.FILE_B.testBit i = decide (i < 64 ∧ i % 8 = 6) :=
  testBit_const EtherealBB.FILE_B (fun i => decide (i < 64 ∧ i % 8 = 6)) (by decide)
    (by decide) (fun i hi => by simp only [decide_eq_false_iff_not]; omega) i

theorem header_FILE_C (i : Nat) :
    EtherealBB.FILE_C.testBit i = decide (i < 64 ∧ i % 8 = 5) :=
  testBit_const EtherealBB.FILE_C (fun i => decide (i < 64 ∧ i % 8 = 5)) (by decide)
    (by decide) (fun i hi => by simp only [decide_eq_false_iff_not]; omega) i

theorem header_FILE_D (i : Nat) :
    EtherealBB.FILE_D.testBit i = decide (i < 64 ∧ i % 8 = 4) :=
  testBit_const EtherealBB.FILE_D (fun i => decide (i < 64 ∧ i % 8 = 4)) (by decide)
    (by decide) (fun i hi => by simp only [decide_eq_false_iff_not]; omega) i

theorem header_FILE_E (i : Nat) :
    EtherealBB.FILE_E.testBit i = decide (i < 64 ∧ i % 8 = 3) :=
  testBit_const EtherealBB.FILE_E (fun i => decide (i < 64 ∧ i % 8 = 3)) (by decide)
    (by decide) (fun i hi => by simp only [decide_eq_false_iff_not]; omega) i

theorem header_FILE_F (i : Nat) :
    EtherealBB.FILE_F.testBit i = decide (i < 64 ∧ i % 8 = 2) :=
  testBit_const EtherealBB.FILE_F (fun i => decide (i < 64 ∧ i % 8 = 2)) (by decide)
    (by decide) (fun i hi => by simp only [decide_eq_false_iff_not]; omega) i

theorem header_FILE_G (i : Nat) :
    EtherealBB.FILE_G.testBit i = decide (i < 64 ∧ i % 8 = 1) :=
  testBit_const EtherealBB.FILE_G (fun i => decide (i < 64 ∧ i % 8 = 1)) (by decide)
    (by decide) (fun i hi => by simp only [decide_eq_false_iff_not]; omega) i

theorem header_FILE_H (i : Nat) :
    EtherealBB.FILE_H.testBit i = decide (i < 64 ∧ i % 8 = 0) :=
  testBit_const EtherealBB.FILE_H (fun i => decide (i < 64 ∧ i % 8 = 0)) (by decide)
    (by decide) (fun i hi => by simp only [decide_eq_false_iff_not]; omega) i

/-! ## The reads of the en-passant block -/

theorem enpassTrace_moves (board : Board) : (enpassTrace board).1 = enpassMoves board := by
  unfold enpassTrace enpassMoves
  split <;> split <;> rfl

theorem enpassTrace_reads (board : Board) :
    (enpassTrace board).2 =
      if board.epSquare = -1 then []
      else if board.turn = WHITE then [board.epSquare - 7, board.epSquare - 9]
      else [board.epSquare + 7, board.epSquare + 9] := by
  unfold enpassTrace
  by_cases he : board.epSquare = -1
  · rw [if_pos he]
    have : (board.epSquare != -1) = false := by simp [he]
    rw [this]
    split <;> rfl
  · rw [if_neg he]
    have : (board.epSquare != -1) = true := by simp [he]
    rw [this]
    cases hb : board.turn <;> rfl

/-! ## Pawn captures, square by square -/

theorem pawnTakeLeft_white (board : Board) (hw : board.turn = WHITE) (t : Nat) :
    (pawnTakeLeft board).testBit t = true ↔ t < 64 ∧ 7 ≤ t ∧ t % 8 ≠ 7
      ∧ (mine board PAWN).testBit (t - 7) = true
      ∧ (board.colours (!board.turn)).testBit t = true := by
  have hw2 : (WHITE == WHITE) = true := rfl
  unfold pawnTakeLeft
  rw [hw, hw2, if_pos rfl]
  simp only [Nat.testBit_and, testBit_shl64, testBit_not64, testBit_FILE_H, Bool.and_eq_true,
    decide_eq_true_eq, Bool.not_eq_true', decide_eq_false_iff_not]
  constructor
  · rintro ⟨⟨⟨h1, h2, h3⟩, _, h4⟩, h5⟩
    exact ⟨h1, h2, fun h => h4 ⟨h1, h⟩, h3, h5⟩
  · rintro ⟨h1, h2, h3, h4, h5⟩
    exact ⟨⟨⟨h1, h2, h4⟩, h1, fun h => h3 h.2⟩, h5⟩

theorem pawnTakeRight_white (board : Board) (hw : board.turn = WHITE) (t : Nat) :
    (pawnTakeRight board).testBit t = true ↔ t < 64 ∧ 9 ≤ t ∧ t % 8 ≠ 0
      ∧ (mine board PAWN).testBit (t - 9) = true
      ∧ (board.colours (!board.turn)).testBit t = true := by
  have hw2 : (WHITE == WHITE) = true := rfl
  unfold pawnTakeRight
  rw [hw, hw2, if_pos rfl]
  simp only [Nat.testBit_and, testBit_shl64, testBit_not64, testBit_FILE_A, Bool.and_eq_true,
    decide_eq_true_eq, Bool.not_eq_true', decide_eq_false_iff_not]
  constructor
  · rintro ⟨⟨⟨h1, h2, h3⟩, _, h4⟩, h5⟩
    exact ⟨h1, h2, fun h => h4 ⟨h1, h⟩, h3, h5⟩
  · rintro ⟨h1, h2, h3, h4, h5⟩
    exact ⟨⟨⟨h1, h2, h4⟩, h1, fun h => h3 h.2⟩, h5⟩

theorem pawnTakeLeft_black (board : Board) (hb : board.turn = BLACK) (t : Nat) :
    (pawnTakeLeft board).testBit t = true ↔ t < 64 ∧ t % 8 ≠ 0
      ∧ (mine board PAWN).testBit (t + 7) = true
      ∧ (board.colours (!board.turn)).testBit t = true := by
  have hw2 : (BLACK == WHITE) = false := rfl
  unfold pawnTakeLeft
  rw [hb, hw2, if_neg Bool.false_ne_true]
  simp only [Nat.testBit_and, Nat.testBit_shiftRight, testBit_not64, testBit_FILE_A,
    Bool.and_eq_true, decide_eq_true_eq, Bool.not_eq_true', decide_eq_false_iff_not,
    Nat.add_comm 7 t]
  constructor
  · rintro ⟨⟨h3, h1, h4⟩, h5⟩
    exact ⟨h1, fun h => h4 ⟨h1, h⟩, h3, h5⟩
  · rintro ⟨h1, h3, h4, h5⟩
    exact ⟨⟨h4, h1, fun h => h3 h.2⟩, h5⟩

theorem pawnTakeRight_black (board : Board) (hb : board.turn = BLACK) (t : Nat) :
    (pawnTakeRight board).testBit t = true ↔ t < 64 ∧ t % 8 ≠ 7
      ∧ (mine board PAWN).testBit (t + 9) = true
      ∧ (board.colours (!board.turn)).testBit t = true := by
  have hw2 : (BLACK == WHITE) = false := rfl
  unfold pawnTakeRight
  rw [hb, hw2, if_neg Bool.false_ne_true]
  simp only [Nat.testBit_and, Nat.testBit_shiftRight, testBit_not64, testBit_FILE_H,
    Bool.and_eq_true, decide_eq_true_eq, Bool.not_eq_true', decide_eq_false_iff_not,
    Nat.add_comm 9 t]
  constructor
  · rintro ⟨⟨h3, h1, h4⟩, h5⟩
    exact ⟨h1, fun h => h4 ⟨h1, h⟩, h3, h5⟩
  · rintro ⟨h1, h3, h4, h5⟩
    exact ⟨⟨h4, h1, fun h => h3 h.2⟩, h5⟩

/-- A pawn capture goes one rank forward and one file to the side. -/
theorem capture_geometry (board : Board) (hT : Typed board) (f t : Nat)
    (h : ((pawnTakeLeft board).testBit t = true ∧ (f : Int) = (t : Int) + leftShift board)
      ∨ ((pawnTakeRight board).testBit t = true ∧ (f : Int) = (t : Int) + rightShift board)) :
    f < 64 ∧ t < 64 ∧ (mine board PAWN).testBit f = true
      ∧ (board.colours (!board.turn)).testBit t = true
      ∧ (board.turn = WHITE → rankOf t = rankOf f + 1)
      ∧ (board.turn = BLACK → rankOf f = rankOf t + 1)
      ∧ Nat.dist (fileOf f) (fileOf t) = 1 := by
  unfold rankOf fileOf Nat.dist
  cases hb : board.turn
  · have hw : board.turn = WHITE := hb
    have hls : leftShift board = -7 := by unfold leftShift; rw [hw]; rfl
    have hrs : rightShift board = -9 := by unfold rightShift; rw [hw]; rfl
    rw [pawnTakeLeft_white board hw, pawnTakeRight_white board hw, hls, hrs, hb] at h
    rcases h with ⟨⟨h1, h2, h3, h4, h5⟩, h6⟩ | ⟨⟨h1, h2, h3, h4, h5⟩, h6⟩
    · have e : f = t - 7 := by omega
      subst e
      exact ⟨by omega, h1, h4, h5, fun _ => by omega, fun h => absurd h (by decide), by omega⟩
    · have e : f = t - 9 := by omega
      subst e
      exact ⟨by omega, h1, h4, h5, fun _ => by omega, fun h => absurd h (by decide), by omega⟩
  · have hbl : board.turn = BLACK := hb
    have hls : leftShift board = 7 := by unfold leftShift; rw [hbl]; rfl
    have hrs : rightShift board = 9 := by unfold rightShift; rw [hbl]; rfl
    rw [pawnTakeLeft_black board hbl, pawnTakeRight_black board hbl, hls, hrs, hb] at h
    rcases h with ⟨⟨h1, h3, h4, h5⟩, h6⟩ | ⟨⟨h1, h3, h4, h5⟩, h6⟩
    · have e : f = t + 7 := by omega
      subst e
      have hf := lt_of_testBit _ _ _ (mine_lt board hT PAWN) h4
      exact ⟨hf, h1, h4, h5, fun h => absurd h (by decide), fun _ => by omega, by omega⟩
    · have e : f = t + 9 := by omega
      subst e
      have hf := lt_of_testBit _ _ _ (mine_lt board hT PAWN) h4
      exact ⟨hf, h1, h4, h5, fun h => absurd h (by decide), fun _ => by omega, by omega⟩

theorem take_bits (board : Board) (hT : Typed board) (m : Nat) (hm : m ∈ takeMoves board) :
    ((pawnTakeLeft board).testBit (MoveTo m) = true
        ∧ (MoveFrom m : Int) = (MoveTo m : Int) + leftShift board)
      ∨ ((pawnTakeRight board).testBit (MoveTo m) = true
        ∧ (MoveFrom m : Int) = (MoveTo m : Int) + rightShift board) := by
  have hN : NORMAL_MOVE = 0 <<< 12 := rfl
  unfold takeMoves at hm
  rw [List.mem_append, mem_buildPawnMoves _ _ _ (and_lt_left _ _ _ (pawnTakeLeft_lt board)),
    mem_buildPawnMoves _ _ _ (and_lt_left _ _ _ (pawnTakeRight_lt board))] at hm
  rcases hm with ⟨t, ht, rfl⟩ | ⟨t, ht, rfl⟩
  · rw [Nat.testBit_and, Bool.and_eq_true] at ht
    obtain ⟨hlt, _, f, hf, hfe, _⟩ := pawnTakeLeft_bit board hT t ht.1
    rw [← hfe]
    obtain ⟨d1, d2, _⟩ := decode_nat f t 0 hf hlt (by decide)
    rw [hN, d1, d2]
    exact Or.inl ⟨ht.1, hfe⟩
  · rw [Nat.testBit_and, Bool.and_eq_true] at ht
    obtain ⟨hlt, _, f, hf, hfe, _⟩ := pawnTakeRight_bit board hT t ht.1
    rw [← hfe]
    obtain ⟨d1, d2, _⟩ := decode_nat f t 0 hf hlt (by decide)
    rw [hN, d1, d2]
    exact Or.inr ⟨ht.1, hfe⟩

theorem promo_capture_bits (board : Board) (hT : Typed board) (m : Nat)
    (hm : m ∈ promoMoves board)
    (hcap : (board.colours (!board.turn)).testBit (MoveTo m) = true) :
    ((pawnTakeLeft board).testBit (MoveTo m) = true
        ∧ (MoveFrom m : Int) = (MoveTo m : Int) + leftShift board)
      ∨ ((pawnTakeRight board).testBit (MoveTo m) = true
        ∧ (MoveFrom m : Int) = (MoveTo m : Int) + rightShift board) := by
  unfold promoMoves at hm
  rw [List.mem_append, List.mem_append,
    mem_buildPawnPromotions _ _ _ (and_lt_left _ _ _ (pawnPushOne_lt board)),
    mem_buildPawnPromotions _ _ _ (and_lt_left _ _ _ (pawnTakeLeft_lt board)),
    mem_buildPawnPromotions _ _ _ (and_lt_left _ _ _ (pawnTakeRight_lt board))] at hm
  rcases hm with (⟨t, ht, hm⟩ | ⟨t, ht, hm⟩) | ⟨t, ht, hm⟩
  · exfalso
    rw [Nat.testBit_and, Bool.and_eq_true] at ht
    obtain ⟨hlt, he, f, hf, hfe, _⟩ := pawnPushOne_bit board hT t ht.1
    rw [← hfe] at hm
    obtain ⟨_, _, e3⟩ := promo_flags m f t hf hlt hm
    rw [e3, enemy_of_empty board t he] at hcap
    exact Bool.false_ne_true hcap
  · rw [Nat.testBit_and, Bool.and_eq_true] at ht
    obtain ⟨hlt, _, f, hf, hfe, _⟩ := pawnTakeLeft_bit board hT t ht.1
    rw [← hfe] at hm
    obtain ⟨_, e2, e3⟩ := promo_flags m f t hf hlt hm
    rw [e2, e3]
    exact Or.inl ⟨ht.1, hfe⟩
  · rw [Nat.testBit_and, Bool.and_eq_true] at ht
    obtain ⟨hlt, _, f, hf, hfe, _⟩ := pawnTakeRight_bit board hT t ht.1
    rw [← hfe] at hm
    obtain ⟨_, e2, e3⟩ := promo_flags m f t hf hlt hm
    rw [e2, e3]
    exact Or.inr ⟨ht.1, hfe⟩

/-- A move of a pawn of the side to move onto a square that holds an enemy piece, other
than an en-passant capture, comes from one of the two capture bitboards. -/
theorem pawn_capture_bits (board : Board) (hT : Typed board) (hR : Redundant board) (m : Nat)
    (hm : m ∈ genAllMoves board [] ∨ m ∈ genAllNoisyMoves board [])
    (hflag : MoveType m ≠ ENPASS_MOVE)
    (hp : (mine board PAWN).testBit (MoveFrom m) = true)
    (hcap : (board.colours (!board.turn)).testBit (MoveTo m) = true) :
    ((pawnTakeLeft board).testBit (MoveTo m) = true
        ∧ (MoveFrom m : Int) = (MoveTo m : Int) + leftShift board)
      ∨ ((pawnTakeRight board).testBit (MoveTo m) = true
        ∧ (MoveFrom m : Int) = (MoveTo m : Int) + rightShift board) := by
  have hempty : (emptySquares board).testBit (MoveTo m) = true → False := by
    intro he
    rw [enemy_of_empty board _ he] at hcap
    exact Bool.false_ne_true hcap
  have hpiece : ∀ targets, targets < 2 ^ 64 → m ∈ pieceMoves board targets → False := by
    intro targets htg h
    obtain ⟨_, _, _, _, h5⟩ := piece_shape board hT targets _ htg h
    exact not_pawn_of_piece board hT hR _ hp
      (h5.imp (fun h => h.1) (Or.imp (fun h => h.1) (Or.imp (fun h => h.1) (fun h => h.1))))
  rw [mem_genAllMoves, mem_genAllNoisyMoves] at hm
  rcases hm with (h | h | h | h | h | h | h) | (h | h | h | h)
  · exact absurd (enpass_flag board hT m h) hflag
  · exact (hempty (pushOne_shape board hT m h).2.2.2.1).elim
  · exact (hempty (pushTwo_shape board hT m h).2.2.2.1).elim
  · exact take_bits board hT m h
  · exact promo_capture_bits board hT m h hcap
  · exact (hpiece _ (not64_colours_lt board) h).elim
  · exact (hempty (castle_shape board m h).2.2.2.1).elim
  · exact absurd (enpass_flag board hT m h) hflag
  · exact take_bits board hT m h
  · exact promo_capture_bits board hT m h hcap
  · exact (hpiece _ (enemy_lt board hT) h).elim

/-! ## Pawn captures and the attack query -/

/-- The pawn test for `sq` succeeds exactly when `sq` is a target of one of the two capture
bitboards of the other side. -/
theorem pawnTest_iff_take (board : Board) (hT : Typed board) (c : Bool) (sq : Nat)
    (hsq : sq < 64) (hocc : (board.colours c).testBit sq = true) :
    pawnTest board c sq = true
      ↔ (pawnTakeLeft (withTurn board (!c))).testBit sq = true
        ∨ (pawnTakeRight (withTurn board (!c))).testBit sq = true := by
  have hM := mine_lt (withTurn board (!c)) hT PAWN
  have hocc' : ((withTurn board (!c)).colours (!(withTurn board (!c)).turn)).testBit sq
      = true := by
    show (board.colours (!!c)).testBit sq = true
    rw [Bool.not_not]; exact hocc
  have hmine : mine (withTurn board (!c)) PAWN = board.colours (!c) &&& board.pieces PAWN :=
    rfl
  unfold pawnTest
  cases c
  · have hw : (false == WHITE) = true := rfl
    have hb : (withTurn board (!false)).turn = BLACK := rfl
    rw [pawnTakeLeft_black _ hb, pawnTakeRight_black _ hb]
    simp only [hw, if_true, hit_iff, Nat.testBit_or, Nat.testBit_and, testBit_shl64,
      testBit_not64, testBit_square _ _ hsq, testBit_FILE_A, testBit_FILE_H,
      Bool.and_eq_true, Bool.or_eq_true, decide_eq_true_eq, Bool.not_eq_true',
      decide_eq_false_iff_not, hocc', and_true]
    rw [hmine] at hM ⊢
    simp only [Nat.testBit_and, Bool.and_eq_true]
    constructor
    · rintro ⟨f, (⟨⟨h1, h2, h3⟩, _, h4⟩ | ⟨⟨h1, h2, h3⟩, _, h4⟩), h5⟩
      · left
        have e : f = sq + 7 := by omega
        subst e
        exact ⟨hsq, by omega, h5⟩
      · right
        have e : f = sq + 9 := by omega
        subst e
        exact ⟨hsq, by omega, h5⟩
    · rintro (⟨_, h1, h2⟩ | ⟨_, h1, h2⟩)
      · have hf := lt_of_testBit _ 64 (sq + 7) hM (by rw [Nat.testBit_and, Bool.and_eq_true]; exact h2)
        exact ⟨sq + 7, Or.inl ⟨⟨hf, by omega, by omega⟩, hf, by omega⟩, h2⟩
      · have hf := lt_of_testBit _ 64 (sq + 9) hM (by rw [Nat.testBit_and, Bool.and_eq_true]; exact h2)
        exact ⟨sq + 9, Or.inr ⟨⟨hf, by omega, by omega⟩, hf, by omega⟩, h2⟩
  · have hw : (true == WHITE) = false := rfl
    have hb : (withTurn board (!true)).turn = WHITE := rfl
    rw [pawnTakeLeft_white _ hb, pawnTakeRight_white _ hb]
    simp only [hw, Bool.false_eq_true, if_false, hit_iff, Nat.testBit_or, Nat.testBit_and,
      Nat.testBit_shiftRight, testBit_not64, testBit_square _ _ hsq, testBit_FILE_A,
      testBit_FILE_H, Bool.and_eq_true, Bool.or_eq_true, decide_eq_true_eq,
      Bool.not_eq_true', decide_eq_false_iff_not, hocc', and_true]
    rw [hmine]
    simp only [Nat.testBit_and, Bool.and_eq_true]
    constructor
    · rintro ⟨f, (⟨h1, h3, h4⟩ | ⟨h1, h3, h4⟩), h5⟩
      · left
        have e : f = sq - 7 := by omega
        subst e
        exact ⟨hsq, by omega, by omega, h5⟩
      · right
        have e : f = sq - 9 := by omega
        subst e
        exact ⟨hsq, by omega, by omega, h5⟩
    · rintro (⟨_, h1, h2, h3⟩ | ⟨_, h1, h2, h3⟩)
      · exact ⟨sq - 7, Or.inl ⟨by omega, by omega, by omega⟩, h3⟩
      · exact ⟨sq - 9, Or.inr ⟨by omega, by omega, by omega⟩, h3⟩

/-- A target of a capture bitboard is the to-square of a move in the list of
`genAllMoves`: a promotion on the last rank, a `NORMAL` capture elsewhere. -/
theorem move_of_take_bit (board : Board) (hT : Typed board) (t : Nat)
    (h : (pawnTakeLeft board).testBit t = true ∨ (pawnTakeRight board).testBit t = true) :
    ∃ m ∈ genAllMoves board [], MoveTo m = t := by
  have hN : NORMAL_MOVE = 0 <<< 12 := rfl
  have hQ : QUEEN_PROMO_MOVE = 15 <<< 12 := rfl
  have key : ∀ (bb : Nat) (delta : Int) (f : Nat), bb.testBit t = true → t < 64 → f < 64 →
      (f : Int) = (t : Int) + delta →
      (MoveMake ((t : Int) + delta) t NORMAL_MOVE
          ∈ buildPawnMoves [] (bb &&& not64 (lastRank board)) delta
        ∧ MoveTo (MoveMake ((t : Int) + delta) t NORMAL_MOVE) = t)
      ∨ (MoveMake ((t : Int) + delta) t QUEEN_PROMO_MOVE
          ∈ buildPawnPromotions [] (bb &&& lastRank board) delta
        ∧ MoveTo (MoveMake ((t : Int) + delta) t QUEEN_PROMO_MOVE) = t) := by
    intro bb delta f hb ht hf hfe
    by_cases hl : (lastRank board).testBit t = true
    · right
      constructor
      · unfold buildPawnPromotions
        rw [List.nil_append, List.mem_flatMap]
        refine ⟨t, ?_, List.mem_cons_self _ _⟩
        rw [mem_bitIter _ _ (Nat.lt_of_le_of_lt Nat.and_le_right (by
          unfold lastRank; split <;> decide))]
        rw [Nat.testBit_and, hb, hl]; rfl
      · rw [← hfe, hQ]
        exact (decode_nat f t 15 hf ht (by decide)).2.1
    · left
      constructor
      · unfold buildPawnMoves
        rw [List.nil_append, List.mem_map]
        refine ⟨t, ?_, rfl⟩
        rw [mem_bitIter _ _ (Nat.lt_of_le_of_lt Nat.and_le_right (not64_lt _))]
        rw [Nat.testBit_and, hb, testBit_not64]
        simp [ht, hl]
      · rw [← hfe, hN]
        exact (decode_nat f t 0 hf ht (by decide)).2.1
  rcases h with h | h
  · obtain ⟨hlt, _, f, hf, hfe, _⟩ := pawnTakeLeft_bit board hT t h
    rcases key _ _ f h hlt hf hfe with ⟨h1, h2⟩ | ⟨h1, h2⟩
    · refine ⟨_, ?_, h2⟩
      rw [mem_genAllMoves]
      right; right; right; left
      unfold takeMoves
      exact List.mem_append_left _ h1
    · refine ⟨_, ?_, h2⟩
      rw [mem_genAllMoves]
      right; right; right; right; left
      unfold promoMoves
      exact List.mem_append_left _ (List.mem_append_right _ h1)
  · obtain ⟨hlt, _, f, hf, hfe, _⟩ := pawnTakeRight_bit board hT t h
    rcases key _ _ f h hlt hf hfe with ⟨h1, h2⟩ | ⟨h1, h2⟩
    · refine ⟨_, ?_, h2⟩
      rw [mem_genAllMoves]
      right; right; right; left
      unfold takeMoves
      exact List.mem_append_right _ h1
    · refine ⟨_, ?_, h2⟩
      rw [mem_genAllMoves]
      right; right; right; right; left
      unfold promoMoves
      exact List.mem_append_right _ h1

/-- A move onto a square that holds a piece of colour `c`, made by a pawn of the other
side, comes with a successful pawn test for that square. -/
theorem pawnTest_of_pawn_move (board : Board) (hInv : BoardInv board) (c : Bool) (sq : Nat)
    (hocc : (board.colours c).testBit sq = true) (m : Nat)
    (hm : m ∈ genAllMoves (withTurn board (!c)) []) (hto : MoveTo m = sq)
    (hp : (mine (withTurn board (!c)) PAWN).testBit (MoveFrom m) = true) :
    pawnTest board c sq = true := by
  obtain ⟨hT, _, _, _, hR, _, _, _, hE, _⟩ := hInv
  have hT' : Typed (withTurn board (!c)) := hT
  have hR' : Redundant (withTurn board (!c)) := hR
  have hsq : sq < 64 := by
    cases c
    · exact lt_of_testBit _ _ _ hT.2.1 hocc
    · exact lt_of_testBit _ _ _ hT.2.2.1 hocc
  have hoccupied : (occupancy board).testBit sq = true := by
    rw [← occupancy_eq board c, Nat.testBit_or, hocc]; rfl
  have hcap : ((withTurn board (!c)).colours (!(withTurn board (!c)).turn)).testBit (MoveTo m)
      = true := by
    show (board.colours (!!c)).testBit (MoveTo m) = true
    rw [Bool.not_not, hto]; exact hocc
  have hflag : MoveType m ≠ ENPASS_MOVE := by
    intro hf
    have h := (enpass_mem_genAllMoves _ hT' m hf).1 hm
    have he : board.epSquare ≠ -1 := ((mem_enpassMoves _ m).1 h).1
    obtain ⟨h16, h47, hfree⟩ := ep_range board hE he
    have := enpass_to (withTurn board (!c)) h16 h47 m h
    rw [hto] at this
    rw [this, show (withTurn board (!c)).epSquare = board.epSquare from rfl, hfree] at hoccupied
    exact Bool.false_ne_true hoccupied
  have hbits := pawn_capture_bits _ hT' hR' m (Or.inl hm) hflag hp hcap
  rw [hto] at hbits
  exact (pawnTest_iff_take board hT c sq hsq hocc).2 (hbits.imp (fun h => h.1) (fun h => h.1))

/-! # The claims -/

/-- C1. For any `applyMove` and `revertMove` that meet section 4.G on the moves `genAllMoves`
emits for the board (`revertMove` undoes `applyMove`, and `applyMove` flips the turn),
`genAllLegalMoves` leaves the board as it was and appends to `moves`, in the same relative
order, exactly those moves of `genAllMoves` after which the king of the side that moved is
not attacked; the count grows by the number of such moves. -/
theorem genAllLegalMoves_filter {Undo : Type} (applyMove : Board → Nat → Board × Undo)
    (revertMove : Board → Nat → Undo → Board) (board : Board) (moves : List Nat)
    (hrev : ∀ m ∈ genAllMoves board [],
      revertMove (applyMove board m).1 m (applyMove board m).2 = board)
    (hflip : ∀ m ∈ genAllMoves board [], (applyMove board m).1.turn = !board.turn) :
    genAllLegalMoves applyMove revertMove board moves
        = (board, moves ++ (genAllMoves board []).filter
            fun m => isNotInCheck (applyMove board m).1 board.turn)
      ∧ (genAllLegalMoves applyMove revertMove board moves).2.length
        = moves.length + ((genAllMoves board []).filter
            fun m => isNotInCheck (applyMove board m).1 board.turn).length := by
  have h := legalLoop_eq applyMove revertMove board (genAllMoves board []) moves hrev hflip
  unfold genAllLegalMoves
  refine ⟨h, ?_⟩
  simp only [h, List.length_append]

/-- C1, witness: in `4k3/4r3/8/8/8/8/4R3/4K3 w` the pinned rook keeps its five moves along
the e-file and loses its seven sideways moves; the king keeps its four moves. -/
theorem genAllLegalMoves_filter_witness :
    genAllLegalMoves applyMoveModel revertMoveModel pinnedRookBoard [7]
        = (pinnedRookBoard, [7] ++ (genAllMoves pinnedRookBoard []).filter
            fun m => isNotInCheck (applyMoveModel pinnedRookBoard m).1 pinnedRookBoard.turn)
      ∧ ((genAllMoves pinnedRookBoard []).filter
            fun m => isNotInCheck (applyMoveModel pinnedRookBoard m).1 pinnedRookBoard.turn)
          = [MoveMake 12 20 NORMAL_MOVE, MoveMake 12 28 NORMAL_MOVE, MoveMake 12 36 NORMAL_MOVE,
             MoveMake 12 44 NORMAL_MOVE, MoveMake 12 52 NORMAL_MOVE, MoveMake 4 3 NORMAL_MOVE,
             MoveMake 4 5 NORMAL_MOVE, MoveMake 4 11 NORMAL_MOVE, MoveMake 4 13 NORMAL_MOVE]
      ∧ (genAllMoves pinnedRookBoard []).length = 16 :=
  ⟨(genAllLegalMoves_filter applyMoveModel revertMoveModel pinnedRookBoard [7]
      (fun _ _ => rfl) (fun _ _ => rfl)).1, by decide!, by decide!⟩

/-- C5. On a board that satisfies the section-3 invariants, `genAllMoves` and identically
`genAllQuietMoves` emit each of the four castle moves exactly when its side is to move, that
side's king is not in check, the path squares are empty, the right is set and the square the
king passes over is not attacked. "In check" and "attacked" are stated twice, as the answers
of `isNotInCheck` and `squareIsAttacked` and as the geometric attack on the king's home
square and on the square passed over. When the side to move is in check no move with the
`CASTLE` flag is emitted. -/
theorem castle_emitted_iff (board : Board) (hInv : BoardInv board) :
    ((MoveMake 4 6 CASTLE_MOVE ∈ genAllMoves board [] ↔
        MoveMake 4 6 CASTLE_MOVE ∈ genAllQuietMoves board [])
      ∧ (MoveMake 4 6 CASTLE_MOVE ∈ genAllMoves board [] ↔
        board.turn = WHITE ∧ isNotInCheck board WHITE = true
          ∧ ((occupancy board).testBit 5 = false ∧ (occupancy board).testBit 6 = false)
          ∧ board.castleRights &&& WHITE_KING_RIGHTS ≠ 0
          ∧ squareIsAttacked board WHITE 5 = false)
      ∧ (MoveMake 4 6 CASTLE_MOVE ∈ genAllMoves board [] ↔
        board.turn = WHITE ∧ geometricallyAttacked board WHITE 4 = false
          ∧ ((occupancy board).testBit 5 = false ∧ (occupancy board).testBit 6 = false)
          ∧ board.castleRights &&& WHITE_KING_RIGHTS ≠ 0
          ∧ geometricallyAttacked board WHITE 5 = false))
    ∧ ((MoveMake 4 2 CASTLE_MOVE ∈ genAllMoves board [] ↔
        MoveMake 4 2 CASTLE_MOVE ∈ genAllQuietMoves board [])
      ∧ (MoveMake 4 2 CASTLE_MOVE ∈ genAllMoves board [] ↔
        board.turn = WHITE ∧ isNotInCheck board WHITE = true
          ∧ ((occupancy board).testBit 1 = false ∧ (occupancy board).testBit 2 = false ∧ (occupancy board).testBit 3 = false)
          ∧ board.castleRights &&& WHITE_QUEEN_RIGHTS ≠ 0
          ∧ squareIsAttacked board WHITE 3 = false)
      ∧ (MoveMake 4 2 CASTLE_MOVE ∈ genAllMoves board [] ↔
        board.turn = WHITE ∧ geometricallyAttacked board WHITE 4 = false
          ∧ ((occupancy board).testBit 1 = false ∧ (occupancy board).testBit 2 = false ∧ (occupancy board).testBit 3 = false)
          ∧ board.castleRights &&& WHITE_QUEEN_RIGHTS ≠ 0
          ∧ geometricallyAttacked board WHITE 3 = false))
    ∧ ((MoveMake 60 62 CASTLE_MOVE ∈ genAllMoves board [] ↔
        MoveMake 60 62 CASTLE_MOVE ∈ genAllQuietMoves board [])
      ∧ (MoveMake 60 62 CASTLE_MOVE ∈ genAllMoves board [] ↔
        board.turn = BLACK ∧ isNotInCheck board BLACK = true
          ∧ ((occupancy board).testBit 61 = false ∧ (occupancy board).testBit 62 = false)
          ∧ board.castleRights &&& BLACK_KING_RIGHTS ≠ 0
          ∧ squareIsAttacked board BLACK 61 = false)
      ∧ (MoveMake 60 62 CASTLE_MOVE ∈ genAllMoves board [] ↔
        board.turn = BLACK ∧ geometricallyAttacked board BLACK 60 = false
          ∧ ((occupancy board).testBit 61 = false ∧ (occupancy board).testBit 62 = false)
          ∧ board.castleRights &&& BLACK_KING_RIGHTS ≠ 0
          ∧ geometricallyAttacked board BLACK 61 = false))
    ∧ ((MoveMake 60 58 CASTLE_MOVE ∈ genAllMoves board [] ↔
        MoveMake 60 58 CASTLE_MOVE ∈ genAllQuietMoves board [])
      ∧ (MoveMake 60 58 CASTLE_MOVE ∈ genAllMoves board [] ↔
        board.turn = BLACK ∧ isNotInCheck board BLACK = true
          ∧ ((occupancy board).testBit 57 = false ∧ (occupancy board).testBit 58 = false ∧ (occupancy board).testBit 59 = false)
          ∧ board.castleRights &&& BLACK_QUEEN_RIGHTS ≠ 0
          ∧ squareIsAttacked board BLACK 59 = false)
      ∧ (MoveMake 60 58 CASTLE_MOVE ∈ genAllMoves board [] ↔
        board.turn = BLACK ∧ geometricallyAttacked board BLACK 60 = false
          ∧ ((occupancy board).testBit 57 = false ∧ (occupancy board).testBit 58 = false ∧ (occupancy board).testBit 59 = false)
          ∧ board.castleRights &&& BLACK_QUEEN_RIGHTS ≠ 0
          ∧ geometricallyAttacked board BLACK 59 = false))
    ∧ (isNotInCheck board board.turn = false →
        (∀ m ∈ genAllMoves board [], MoveType m ≠ CASTLE_MOVE)
          ∧ ∀ m ∈ genAllQuietMoves board [], MoveType m ≠ CASTLE_MOVE) := by
  have hT := hInv.1
  obtain ⟨c1, c2, c3, c4⟩ := hInv.2.2.2.2.2.2.2.2.2
  have f1 : MoveType (MoveMake 4 6 CASTLE_MOVE) = CASTLE_MOVE := by decide!
  have f2 : MoveType (MoveMake 4 2 CASTLE_MOVE) = CASTLE_MOVE := by decide!
  have f3 : MoveType (MoveMake 60 62 CASTLE_MOVE) = CASTLE_MOVE := by decide!
  have f4 : MoveType (MoveMake 60 58 CASTLE_MOVE) = CASTLE_MOVE := by decide!
  have g1 := (castle_mem_genAllMoves board hT _ f1).trans
    (castle_guard board _ WHITE _ _ _ (castle_white_king board) _ (path_white_king board))
  have g2 := (castle_mem_genAllMoves board hT _ f2).trans
    (castle_guard board _ WHITE _ _ _ (castle_white_queen board) _ (path_white_queen board))
  have g3 := (castle_mem_genAllMoves board hT _ f3).trans
    (castle_guard board _ BLACK _ _ _ (castle_black_king board) _ (path_black_king board))
  have g4 := (castle_mem_genAllMoves board hT _ f4).trans
    (castle_guard board _ BLACK _ _ _ (castle_black_queen board) _ (path_black_queen board))
  refine ⟨⟨?_, g1, ?_⟩, ⟨?_, g2, ?_⟩, ⟨?_, g3, ?_⟩, ⟨?_, g4, ?_⟩, ?_⟩
  · rw [castle_mem_genAllMoves board hT _ f1, castle_mem_genAllQuietMoves board hT _ f1]
  · exact castle_geometric board hInv _ _ WHITE _ 4 5 (Or.inl rfl) (by decide) (by decide)
      (by decide) (fun h => (c1 h).1) g1
  · rw [castle_mem_genAllMoves board hT _ f2, castle_mem_genAllQuietMoves board hT _ f2]
  · exact castle_geometric board hInv _ _ WHITE _ 4 3 (Or.inl rfl) (by decide) (by decide)
      (by decide) (fun h => (c2 h).1) g2
  · rw [castle_mem_genAllMoves board hT _ f3, castle_mem_genAllQuietMoves board hT _ f3]
  · exact castle_geometric board hInv _ _ BLACK _ 60 61 (Or.inr rfl) (by decide) (by decide)
      (by decide) (fun h => (c3 h).1) g3
  · rw [castle_mem_genAllMoves board hT _ f4, castle_mem_genAllQuietMoves board hT _ f4]
  · exact castle_geometric board hInv _ _ BLACK _ 60 59 (Or.inr rfl) (by decide) (by decide)
      (by decide) (fun h => (c4 h).1) g4
  · intro hc
    constructor
    · intro m hm hf
      rw [castle_mem_genAllMoves board hT m hf, mem_castleMoves, hc] at hm
      exact Bool.false_ne_true hm.1
    · intro m hm hf
      rw [castle_mem_genAllQuietMoves board hT m hf, mem_castleMoves, hc] at hm
      exact Bool.false_ne_true hm.1

/-- C5, witness: in `r3k2r/8/8/8/8/8/8/R3Kq1R w KQkq` white is in check, by the queen on f1,
and no castle move is emitted. -/
theorem castle_emitted_iff_witness :
    BoardInv castleOutOfCheckBoard
      ∧ isNotInCheck castleOutOfCheckBoard castleOutOfCheckBoard.turn = false
      ∧ geometricallyAttacked castleOutOfCheckBoard WHITE 4 = true
      ∧ (∀ m ∈ genAllMoves castleOutOfCheckBoard [], MoveType m ≠ CASTLE_MOVE)
      ∧ ∀ m ∈ genAllQuietMoves castleOutOfCheckBoard [], MoveType m ≠ CASTLE_MOVE :=
  ⟨by decide!, by decide!, by decide!,
    (castle_emitted_iff castleOutOfCheckBoard (by decide!)).2.2.2.2 (by decide!)⟩

/-- C2. For every board with 64-bit colour bitboards that are disjoint and an `epSquare` in
`-1..63`, the list of `genAllMoves` is, as a multiset, the union of the lists of
`genAllNoisyMoves` and `genAllQuietMoves`, and no move occurs in both. -/
theorem genAllMoves_noisy_quiet (board : Board) (hT : Typed board)
    (hdisj : board.colours WHITE &&& board.colours BLACK = 0) :
    (genAllMoves board []).Perm (genAllNoisyMoves board [] ++ genAllQuietMoves board [])
      ∧ ((genAllMoves board [] : Multiset Nat)
          = (genAllNoisyMoves board [] : Multiset Nat) + (genAllQuietMoves board [] : Multiset Nat))
      ∧ ∀ m, m ∈ genAllNoisyMoves board [] → m ∉ genAllQuietMoves board [] := by
  have hp := genAllMoves_perm board hdisj
  refine ⟨hp, ?_, ?_⟩
  · rw [Multiset.coe_add, Multiset.coe_eq_coe]
    exact hp
  · intro m hn hq
    have hk := noisy_kind board hT m hn
    obtain ⟨hf, _, he⟩ := quiet_kind board hT m hq
    rcases hk with h | (h | h | h | h) | ⟨_, _, h⟩
    · rw [h] at hf; rcases hf with hf | hf <;> exact absurd hf (by decide)
    · rw [h] at hf; rcases hf with hf | hf <;> exact absurd hf (by decide)
    · rw [h] at hf; rcases hf with hf | hf <;> exact absurd hf (by decide)
    · rw [h] at hf; rcases hf with hf | hf <;> exact absurd hf (by decide)
    · rw [h] at hf; rcases hf with hf | hf <;> exact absurd hf (by decide)
    · rw [enemy_of_empty board _ he] at h
      exact Bool.false_ne_true h

/-- C2, witness: the position `4k3/8/8/pP6/8/8/8/4K3 w - a6`, with its two lists. -/
theorem genAllMoves_noisy_quiet_witness :
    Typed enpassBoard ∧ enpassBoard.colours WHITE &&& enpassBoard.colours BLACK = 0
      ∧ (genAllMoves enpassBoard []).Perm
          (genAllNoisyMoves enpassBoard [] ++ genAllQuietMoves enpassBoard [])
      ∧ genAllNoisyMoves enpassBoard [] = [MoveMake 33 40 ENPASS_MOVE]
      ∧ genAllQuietMoves enpassBoard [] = [MoveMake 33 41 NORMAL_MOVE, MoveMake 4 3 NORMAL_MOVE,
          MoveMake 4 5 NORMAL_MOVE, MoveMake 4 11 NORMAL_MOVE, MoveMake 4 12 NORMAL_MOVE,
          MoveMake 4 13 NORMAL_MOVE] :=
  ⟨by decide!, by decide!,
    (genAllMoves_noisy_quiet enpassBoard (by decide!) (by decide!)).1, by decide!, by decide!⟩

/-- C6. On a board that satisfies the section-3 invariants every move of `genAllNoisyMoves`
carries the `ENPASS` flag, or one of the four promotion flags, or ends on a square that holds
a piece of the side not to move; none is a `CASTLE` move, and none is a `NORMAL` move of a
pawn one or two squares straight ahead. -/
theorem genAllNoisyMoves_noisy (board : Board) (hInv : BoardInv board) (m : Nat)
    (hm : m ∈ genAllNoisyMoves board []) :
    (MoveType m = ENPASS_MOVE
        ∨ (MoveType m = QUEEN_PROMO_MOVE ∨ MoveType m = ROOK_PROMO_MOVE
          ∨ MoveType m = BISHOP_PROMO_MOVE ∨ MoveType m = KNIGHT_PROMO_MOVE)
        ∨ (board.colours (!board.turn)).testBit (MoveTo m) = true)
      ∧ MoveType m ≠ CASTLE_MOVE
      ∧ ¬ (MoveType m = NORMAL_MOVE ∧ (mine board PAWN).testBit (MoveFrom m) = true
          ∧ ((MoveFrom m : Int) = (MoveTo m : Int) + forwardShift board
            ∨ (MoveFrom m : Int) = (MoveTo m : Int) + 2 * forwardShift board)) := by
  obtain ⟨hT, _, _, _, hR, _⟩ := hInv
  have hk := noisy_kind board hT m hm
  refine ⟨?_, ?_, ?_⟩
  · rcases hk with h | h | ⟨_, _, h⟩
    · exact Or.inl h
    · exact Or.inr (Or.inl h)
    · exact Or.inr (Or.inr h)
  · intro hc
    rw [hc] at hk
    rcases hk with h | (h | h | h | h) | ⟨h, _⟩ <;> exact absurd h (by decide)
  · rintro ⟨hn, hp, hd⟩
    rw [mem_genAllNoisyMoves] at hm
    rcases hm with h | h | h | h
    · have := enpass_flag board hT m h
      rw [hn] at this; exact absurd this (by decide)
    · have hs := (take_shape board hT m h).2.2.2.2.2.2
      unfold forwardShift leftShift rightShift at *
      cases hb : board.turn <;> simp only [hb, WHITE, BEq.refl, if_true] at hs hd
      · omega
      · have hw : (true == false) = false := rfl
        simp only [hw, Bool.false_eq_true, if_false] at hs hd
        omega
    · have := (promo_shape board hT m h).1
      rw [hn] at this
      rcases this with h | h | h | h <;> exact absurd h (by decide)
    · have := (piece_shape board hT _ m (enemy_lt board hT) h).2.2.2.2
      refine not_pawn_of_piece board hT hR _ hp ?_
      rcases this with h | h | h | h
      · exact Or.inl h.1
      · exact Or.inr (Or.inl h.1)
      · exact Or.inr (Or.inr (Or.inl h.1))
      · exact Or.inr (Or.inr (Or.inr h.1))

/-- C6, witness: the only noisy move of `4k3/8/8/pP6/8/8/8/4K3 w - a6` is the en-passant
capture. -/
theorem genAllNoisyMoves_noisy_witness :
    BoardInv enpassBoard ∧ MoveMake 33 40 ENPASS_MOVE ∈ genAllNoisyMoves enpassBoard []
      ∧ MoveType (MoveMake 33 40 ENPASS_MOVE) ≠ CASTLE_MOVE :=
  ⟨by decide!, by decide!,
    (genAllNoisyMoves_noisy enpassBoard (by decide!) (MoveMake 33 40 ENPASS_MOVE)
      (by decide!)).2.1⟩

/-- C7. On a board that satisfies the section-3 invariants every move of `genAllQuietMoves`
has the flag `NORMAL` or `CASTLE`, never `ENPASS` or a promotion flag, ends on an empty
square, and, when it starts from a pawn of the side to move, does not end on the last rank
(rank 8, index 7, for white; rank 1, index 0, for black). -/
theorem genAllQuietMoves_quiet (board : Board) (hInv : BoardInv board) (m : Nat)
    (hm : m ∈ genAllQuietMoves board []) :
    (MoveType m = NORMAL_MOVE ∨ MoveType m = CASTLE_MOVE)
      ∧ MoveType m ≠ ENPASS_MOVE
      ∧ (MoveType m ≠ QUEEN_PROMO_MOVE ∧ MoveType m ≠ ROOK_PROMO_MOVE
        ∧ MoveType m ≠ BISHOP_PROMO_MOVE ∧ MoveType m ≠ KNIGHT_PROMO_MOVE)
      ∧ MoveTo m < 64 ∧ (occupancy board).testBit (MoveTo m) = false
      ∧ ((mine board PAWN).testBit (MoveFrom m) = true →
          (board.turn = WHITE → rankOf (MoveTo m) ≠ 7)
            ∧ (board.turn = BLACK → rankOf (MoveTo m) ≠ 0)) := by
  obtain ⟨hT, _, _, _, hR, _, _, _, _, hC⟩ := hInv
  obtain ⟨hf, hlt, he⟩ := quiet_kind board hT m hm
  refine ⟨hf, ?_, ⟨?_, ?_, ?_, ?_⟩, hlt, ?_, ?_⟩
  · intro h; rw [h] at hf; rcases hf with hf | hf <;> exact absurd hf (by decide)
  · intro h; rw [h] at hf; rcases hf with hf | hf <;> exact absurd hf (by decide)
  · intro h; rw [h] at hf; rcases hf with hf | hf <;> exact absurd hf (by decide)
  · intro h; rw [h] at hf; rcases hf with hf | hf <;> exact absurd hf (by decide)
  · intro h; rw [h] at hf; rcases hf with hf | hf <;> exact absurd hf (by decide)
  · rw [testBit_emptySquares board _ hlt] at he
    simpa using he
  · intro hp
    rw [mem_genAllQuietMoves] at hm
    rcases hm with h | h | h | h
    · have hl := (pushOne_shape board hT m h).2.2.2.2.1
      unfold lastRank at hl
      unfold rankOf
      constructor
      · intro hb
        have hw : (board.turn == WHITE) = true := by rw [hb]; rfl
        rw [if_pos hw, testBit_RANK_8] at hl
        simp only [decide_eq_false_iff_not] at hl
        omega
      · intro hb
        have hw : ¬ (board.turn == WHITE) = true := by rw [hb]; decide
        rw [if_neg hw, testBit_RANK_1] at hl
        simp only [decide_eq_false_iff_not] at hl
        omega
    · have hr := pushTwo_rank board hT m h
      unfold rankOf
      exact ⟨fun hb => by have := hr.1 hb; omega, fun hb => by have := hr.2 hb; omega⟩
    · have := (piece_shape board hT _ m (emptySquares_lt board) h).2.2.2.2
      exfalso
      refine not_pawn_of_piece board hT hR _ hp ?_
      rcases this with h | h | h | h
      · exact Or.inl h.1
      · exact Or.inr (Or.inl h.1)
      · exact Or.inr (Or.inr (Or.inl h.1))
      · exact Or.inr (Or.inr (Or.inr h.1))
    · exact (castle_from_not_pawn board hT hR hC m h hp).elim

/-- C7, witness: the push b5-b6 in `4k3/8/8/pP6/8/8/8/4K3 w - a6` is a quiet move of a pawn
and does not end on rank 8. -/
theorem genAllQuietMoves_quiet_witness :
    BoardInv enpassBoard ∧ MoveMake 33 41 NORMAL_MOVE ∈ genAllQuietMoves enpassBoard []
      ∧ (occupancy enpassBoard).testBit (MoveTo (MoveMake 33 41 NORMAL_MOVE)) = false :=
  ⟨by decide!, by decide!,
    (genAllQuietMoves_quiet enpassBoard (by decide!) (MoveMake 33 41 NORMAL_MOVE)
      (by decide!)).2.2.2.2.1⟩

/-- C9. On a board that satisfies the section-3 invariants and has an en-passant square
`e >= 0`, the moves with the `ENPASS` flag in the list of `genAllMoves`, and likewise in the
list of `genAllNoisyMoves`, are exactly the moves `MoveMake(f, e, ENPASS)` for the squares `f`
one rank behind `e` as the mover sees it, whose file differs from the file of `e` by exactly
one, and which hold a pawn of the side to move; so none wraps between files A and H. -/
theorem enpass_moves_exact (board : Board) (hInv : BoardInv board)
    (he : 0 ≤ board.epSquare) (m : Nat) :
    ((m ∈ genAllMoves board [] ∧ MoveType m = ENPASS_MOVE) ↔
        ∃ f : Nat, f < 64 ∧ m = MoveMake f board.epSquare ENPASS_MOVE
          ∧ (board.turn = WHITE → rankOf f + 1 = rankOf board.epSquare.toNat)
          ∧ (board.turn = BLACK → rankOf f = rankOf board.epSquare.toNat + 1)
          ∧ Nat.dist (fileOf f) (fileOf board.epSquare.toNat) = 1
          ∧ board.squares f = makePiece PAWN board.turn)
      ∧ ((m ∈ genAllNoisyMoves board [] ∧ MoveType m = ENPASS_MOVE) ↔
        ∃ f : Nat, f < 64 ∧ m = MoveMake f board.epSquare ENPASS_MOVE
          ∧ (board.turn = WHITE → rankOf f + 1 = rankOf board.epSquare.toNat)
          ∧ (board.turn = BLACK → rankOf f = rankOf board.epSquare.toNat + 1)
          ∧ Nat.dist (fileOf f) (fileOf board.epSquare.toNat) = 1
          ∧ board.squares f = makePiece PAWN board.turn) := by
  obtain ⟨hT, _, _, _, _, _, _, _, hE, _⟩ := hInv
  have hne : board.epSquare ≠ -1 := by omega
  have hg := mem_enpassMoves_geometric board hE hne m
  constructor
  · rw [← hg]
    constructor
    · rintro ⟨h1, h2⟩
      exact (enpass_mem_genAllMoves board hT m h2).1 h1
    · intro h
      have hf := enpass_flag board hT m h
      exact ⟨(enpass_mem_genAllMoves board hT m hf).2 h, hf⟩
  · rw [← hg]
    constructor
    · rintro ⟨h1, h2⟩
      exact (enpass_mem_genAllNoisyMoves board hT m h2).1 h1
    · intro h
      have hf := enpass_flag board hT m h
      exact ⟨(enpass_mem_genAllNoisyMoves board hT m hf).2 h, hf⟩

/-- C9, witness: `4k3/8/8/pP6/8/8/8/4K3 w - a6` yields exactly one capturing move, b5 takes
a6 (33 to 40) with the `ENPASS` flag; the pawn on b5 is the one square of rank 5 next to the
a-file, and nothing is generated from h4 (31) or h5 (39). -/
theorem enpass_moves_exact_witness :
    BoardInv enpassBoard ∧ 0 ≤ enpassBoard.epSquare
      ∧ MoveMake 33 40 ENPASS_MOVE ∈ genAllMoves enpassBoard []
      ∧ genAllNoisyMoves enpassBoard [] = [MoveMake 33 40 ENPASS_MOVE]
      ∧ (genAllMoves enpassBoard []).filter (fun m => MoveType m == ENPASS_MOVE)
          = [MoveMake 33 40 ENPASS_MOVE] :=
  ⟨by decide!, by decide!,
    (((enpass_moves_exact enpassBoard (by decide!) (by decide!)
      (MoveMake 33 40 ENPASS_MOVE)).1).2
        ⟨33, by decide!, by decide!, by decide!, by decide!, by decide!, by decide!⟩).1,
    by decide!, by decide!⟩

/-- C3. For every board whose bitboards are 64-bit values, every colour `c` and every
square `sq` in 0..63, `squareIsAttacked` answers 1 exactly when some piece of the other
colour attacks `sq` under the occupancy `colours[0] | colours[1]`: a pawn standing
diagonally in front of `sq` as `c` sees it, on a neighbouring file, a knight a knight-jump
away, a bishop or queen on an unobstructed diagonal, a rook or queen on an unobstructed rank
or file, or an adjacent king; it answers 0 otherwise. -/
theorem squareIsAttacked_geometric (board : Board) (hT : Typed board) (c : Bool) (sq : Nat)
    (hsq : sq < 64) :
    squareIsAttacked board c sq = geometricallyAttacked board c sq
      ∧ (squareIsAttacked board c sq = true ↔
        ∃ s, s < 64 ∧ (board.colours (!c)).testBit s = true
          ∧ (((board.pieces PAWN).testBit s = true ∧ pawnAttacks c s sq = true)
            ∨ pieceAttacks board s sq = true))
      ∧ (squareIsAttacked board c sq = false ↔
        ¬ ∃ s, s < 64 ∧ (board.colours (!c)).testBit s = true
          ∧ (((board.pieces PAWN).testBit s = true ∧ pawnAttacks c s sq = true)
            ∨ pieceAttacks board s sq = true)) := by
  have h := squareIsAttacked_eq_geometric board hT c sq hsq
  have h2 : geometricallyAttacked board c sq = true ↔
      ∃ s, s < 64 ∧ (board.colours (!c)).testBit s = true
        ∧ (((board.pieces PAWN).testBit s = true ∧ pawnAttacks c s sq = true)
          ∨ pieceAttacks board s sq = true) := by
    unfold geometricallyAttacked
    rw [any_range_iff]
    simp only [Bool.and_eq_true, Bool.or_eq_true]
  refine ⟨h, ?_, ?_⟩
  · rw [h, h2]
  · rw [h, ← h2]
    simp

/-- C3, witness: in `4k3/8/8/8/8/8/7p/4K3` (black pawn on h2, square 15) the query with
`c = WHITE` answers 0 for a2 (square 8), which the pawn reaches only across the board edge,
and 1 for g1 (square 6), which the pawn attacks. -/
theorem squareIsAttacked_geometric_witness :
    BoardInv pawnWrapBoard
      ∧ squareIsAttacked pawnWrapBoard WHITE 8 = geometricallyAttacked pawnWrapBoard WHITE 8
      ∧ squareIsAttacked pawnWrapBoard WHITE 8 = false
      ∧ squareIsAttacked pawnWrapBoard WHITE 6 = true
      ∧ geometricallyAttacked pawnWrapBoard WHITE 6 = true :=
  ⟨by decide!, (squareIsAttacked_geometric pawnWrapBoard (by decide!) WHITE 8 (by decide)).1,
    by decide!, by decide!, by decide!⟩

/-- C8, counterexample: in `4k3/4P3/8/8/8/8/8/4K3 w` the list of `genAllMoves` holds no move
from e7 (square 52), and none of the four promotions e7-e8. -/
theorem blockedPawn_no_move_from_e7 :
    (genAllMoves blockedPawnBoard []).filter (fun m => MoveFrom m == 52) = []
      ∧ MoveMake 52 60 QUEEN_PROMO_MOVE ∉ genAllMoves blockedPawnBoard []
      ∧ MoveMake 52 60 ROOK_PROMO_MOVE ∉ genAllMoves blockedPawnBoard []
      ∧ MoveMake 52 60 BISHOP_PROMO_MOVE ∉ genAllMoves blockedPawnBoard []
      ∧ MoveMake 52 60 KNIGHT_PROMO_MOVE ∉ genAllMoves blockedPawnBoard [] := by
  decide!

/-- C8, amended. In `4k3/4P3/8/8/8/8/8/4K3 w` the square e8 (60) holds the black king, and
the list of `genAllMoves` is exactly the five king moves from e1, with no move from e7; in
`7k/4P3/8/8/8/8/8/4K3 w`, where e8 is empty, the moves from e7 (52) are exactly the four
promotions e7-e8 to queen, rook, bishop and knight, in this order. -/
theorem blockedPawn_moves :
    genAllMoves blockedPawnBoard []
        = [MoveMake 4 3 NORMAL_MOVE, MoveMake 4 5 NORMAL_MOVE, MoveMake 4 11 NORMAL_MOVE,
           MoveMake 4 12 NORMAL_MOVE, MoveMake 4 13 NORMAL_MOVE]
      ∧ (occupancy blockedPawnBoard).testBit 60 = true
      ∧ (genAllMoves freePawnBoard []).filter (fun m => MoveFrom m == 52)
        = [MoveMake 52 60 QUEEN_PROMO_MOVE, MoveMake 52 60 ROOK_PROMO_MOVE,
           MoveMake 52 60 BISHOP_PROMO_MOVE, MoveMake 52 60 KNIGHT_PROMO_MOVE] := by
  decide!

/-- C10, counterexample: in `4k3/8/8/pP6/8/8/8/4K3 w - a6` the en-passant capture b5 takes a6
(a pawn capture, category 1) is written before the push b5-b6 (a pawn push, category 0). -/
theorem claimCategory_order_fails :
    (genAllMoves enpassBoard []).map (claimCategory enpassBoard) = [1, 0, 5, 5, 5, 5, 5]
      ∧ ¬ ((genAllMoves enpassBoard []).map (claimCategory enpassBoard)).Pairwise
          (fun a b => a ≤ b) := by
  decide!

/-- C10, amended. On a board that satisfies the section-3 invariants the list of
`genAllMoves` respects the sequence en-passant captures, non-promoting pawn pushes,
non-promoting pawn captures, promotions, knight moves, diagonal moves of bishops and queens,
straight moves of rooks and queens, king moves, castles: no move of a later category is
written before a move of an earlier one. -/
theorem genAllMoves_in_category_order (board : Board) (hInv : BoardInv board) :
    ((genAllMoves board []).map (moveCategory board)).Pairwise (fun a b => a ≤ b) := by
  rw [List.pairwise_map]
  exact genAllMoves_category_order board hInv.1 hInv.2.2.2.2.1

/-- C10, witness: the categories of the list of `4k3/8/8/pP6/8/8/8/4K3 w - a6`. -/
theorem genAllMoves_in_category_order_witness :
    BoardInv enpassBoard
      ∧ ((genAllMoves enpassBoard []).map (moveCategory enpassBoard)).Pairwise
          (fun a b => a ≤ b)
      ∧ (genAllMoves enpassBoard []).map (moveCategory enpassBoard) = [0, 1, 7, 7, 7, 7, 7] :=
  ⟨by decide!, genAllMoves_in_category_order enpassBoard (by decide!), by decide!⟩


/-- C4, counterexample: in `4k3/8/8/8/8/8/4P3/4K3` the white pawn on e2 has the push e2-e3
(12 to 20) in the list of `genAllMoves`, and the query with `c = BLACK` answers 0 for e3
(square 20): a move lands on the square, yet the square is not attacked. -/
theorem squareIsAttacked_not_iff_move :
    BoardInv pushBoard
      ∧ squareIsAttacked pushBoard BLACK 20 = false
      ∧ MoveMake 12 20 NORMAL_MOVE ∈ genAllMoves (withTurn pushBoard (!BLACK)) []
      ∧ MoveTo (MoveMake 12 20 NORMAL_MOVE) = 20
      ∧ ¬ (squareIsAttacked pushBoard BLACK 20 = true
          ↔ ∃ m ∈ genAllMoves (withTurn pushBoard (!BLACK)) [], MoveTo m = 20) := by
  decide!

/-- C4, amended. On a board that satisfies the section-3 invariants, for every colour `c` and
every square `sq` that holds a piece of colour `c`, `squareIsAttacked` answers 1 exactly when
the list `genAllMoves` produces for the other side (the board with the turn set to that
side) holds a move that ends on `sq`. -/
theorem squareIsAttacked_iff_capture (board : Board) (hInv : BoardInv board) (c : Bool)
    (sq : Nat) (hocc : (board.colours c).testBit sq = true) :
    squareIsAttacked board c sq = true ↔
      ∃ m ∈ genAllMoves (withTurn board (!c)) [], MoveTo m = sq := by
  have hT := hInv.1
  have hsq : sq < 64 := by
    cases c
    · exact lt_of_testBit _ _ _ hT.2.1 hocc
    · exact lt_of_testBit _ _ _ hT.2.2.1 hocc
  have key := squareIsAttacked_iff_piece_move board hInv c sq hocc
  constructor
  · intro h
    rcases key.1 h with hp | ⟨m, hm, hto, _⟩
    · exact move_of_take_bit (withTurn board (!c)) hT sq
        ((pawnTest_iff_take board hT c sq hsq hocc).1 hp)
    · exact ⟨m, hm, hto⟩
  · rintro ⟨m, hm, hto⟩
    cases hp : (mine (withTurn board (!c)) PAWN).testBit (MoveFrom m)
    · exact key.2 (Or.inr ⟨m, hm, hto, hp⟩)
    · exact key.2 (Or.inl (pawnTest_of_pawn_move board hInv c sq hocc m hm hto hp))

/-- C4, witness: in `4k3/8/8/8/8/n7/1P6/4K3` the black knight on a3 (square 16) is attacked
by the white pawn on b2, and white has the capture b2xa3; in `r3k2r/8/8/8/8/8/8/R3Kq1R` the
white king on e1 is attacked and black has a move that ends on e1. -/
theorem squareIsAttacked_iff_capture_witness :
    BoardInv captureEdgeBoard
      ∧ (captureEdgeBoard.colours BLACK).testBit 16 = true
      ∧ squareIsAttacked captureEdgeBoard BLACK 16 = true
      ∧ (∃ m ∈ genAllMoves (withTurn captureEdgeBoard (!BLACK)) [], MoveTo m = 16)
      ∧ MoveMake 9 16 NORMAL_MOVE ∈ genAllMoves (withTurn captureEdgeBoard (!BLACK)) []
      ∧ squareIsAttacked castleOutOfCheckBoard WHITE 4 = true
      ∧ ∃ m ∈ genAllMoves (withTurn castleOutOfCheckBoard (!WHITE)) [], MoveTo m = 4 :=
  ⟨by decide!, by decide!, by decide!,
    (squareIsAttacked_iff_capture captureEdgeBoard (by decide!) BLACK 16 (by decide!)).1
      (by decide!),
    by decide!, by decide!,
    (squareIsAttacked_iff_capture castleOutOfCheckBoard (by decide!) WHITE 4 (by decide!)).1
      (by decide!)⟩

/-- C12. For every 64-bit value `bb`, `countSetBits` terminates, after one test of the loop
condition more than `bb` has set bits, and returns the number of set bits of `bb`, 0 for
`bb = 0`. The indices counted are exactly the set bits, each once. In each iteration
`getLSB` is the lowest set bit, and the update clears that bit and no other. -/
theorem countSetBits_correct (bb : Nat) (hbb : bb < 2 ^ 64) :
    countSetBits bb = some ((setBits bb).length : Int)
      ∧ (∀ fuel, (setBits bb).length < fuel →
          countSetBitsLoop fuel bb 0 = some ((setBits bb).length : Int))
      ∧ countSetBits 0 = some 0
      ∧ (∀ s, s ∈ setBits bb ↔ bb.testBit s = true)
      ∧ (setBits bb).Nodup
      ∧ (bb ≠ 0 → getLSB bb < 64 ∧ bb.testBit (getLSB bb) = true
          ∧ (∀ j, j < getLSB bb → bb.testBit j = false)
          ∧ ∀ j, (bb ^^^ (1 <<< getLSB bb)).testBit j
              = (bb.testBit j && decide (j ≠ getLSB bb))) := by
  refine ⟨countSetBits_eq bb hbb, ?_, rfl, fun s => mem_setBits bb s hbb, ?_, ?_⟩
  · intro fuel hf
    rw [countSetBitsLoop_eq fuel bb 0 hbb hf, Int.zero_add]
  · exact (setBits_sorted bb).imp (fun h => Nat.ne_of_lt h)
  · intro hne
    obtain ⟨h1, h2, h3⟩ := getLSB_spec bb hbb hne
    refine ⟨h1, h2, h3, ?_⟩
    intro j
    rw [testBit_clear_lsb]
    by_cases hj : getLSB bb = j
    · subst hj
      simp [h2]
    · have hj' : j ≠ getLSB bb := fun h => hj h.symm
      simp [hj, hj']

/-- C12, witness: `0xF0F0` has the eight set bits 4..7 and 12..15. -/
theorem countSetBits_correct_witness :
    (0xF0F0 : Nat) < 2 ^ 64 ∧ countSetBits 0xF0F0 = some 8
      ∧ setBits 0xF0F0 = [4, 5, 6, 7, 12, 13, 14, 15] :=
  ⟨by decide, (countSetBits_correct 0xF0F0 (by decide)).1.trans (by decide), by decide⟩

/-- C13. For every 64-bit value `bb` with `n` set bits, `getSetBits` terminates and leaves
in `arr[0..n-1]` the indices of the set bits of `bb` in strictly ascending order, each once,
and -1 in `arr[n]`; the entries above `arr[n]` keep their values. For `bb = 0` the only
store is `arr[0] = -1`. -/
theorem getSetBits_correct (bb : Nat) (arr : Nat → Int) (hbb : bb < 2 ^ 64) :
    (∃ out, getSetBits bb arr = some out
        ∧ (∀ (i k : Nat), (setBits bb)[i]? = some k → out i = (k : Int))
        ∧ out (setBits bb).length = -1
        ∧ ∀ i, (setBits bb).length < i → out i = arr i)
      ∧ (∀ s, s ∈ setBits bb ↔ bb.testBit s = true)
      ∧ (setBits bb).Pairwise (fun a b => a < b)
      ∧ getSetBits 0 arr = some (Function.update arr 0 (-1)) := by
  refine ⟨?_, fun s => mem_setBits bb s hbb, setBits_sorted bb, rfl⟩
  obtain ⟨out, ho, _, hb, hc, hd⟩ :=
    getSetBitsLoop_eq 65 bb arr 0 hbb (by have := setBits_length_le bb; omega)
  refine ⟨out, ho, ?_, ?_, ?_⟩
  · intro i k h
    have := hb i k h
    rwa [Nat.zero_add] at this
  · rwa [Nat.zero_add] at hc
  · intro i hi
    exact hd i (by omega)

/-- C13, witness: for `bb = 0b1010` and an array filled with 7 the call stores 1, 3, -1 and
leaves the 7 in `arr[3]`. -/
theorem getSetBits_correct_witness :
    (10 : Nat) < 2 ^ 64
      ∧ (∃ out, getSetBits 10 (fun _ => 7) = some out
        ∧ (∀ (i k : Nat), (setBits 10)[i]? = some k → out i = (k : Int))
        ∧ out (setBits 10).length = -1
        ∧ ∀ i, (setBits 10).length < i → out i = (fun _ => 7) i)
      ∧ setBits 10 = [1, 3]
      ∧ (getSetBits 10 (fun _ => 7)).map (fun out => [out 0, out 1, out 2, out 3])
          = some [1, 3, -1, 7] :=
  ⟨by decide, (getSetBits_correct 10 (fun _ => 7) (by decide)).1, by decide, by decide⟩

/-- C18. If `BitCounts[i] = countSetBits(i)` for every `i` in `0..0xFFFF`, then for every
64-bit value `bb` the sum of the four table lookups of `popcount` is the value
`countSetBits` returns, the number of set bits of `bb`, and each of the four indices lies in
`0..0xFFFF`. -/
theorem popcount_eq_countSetBits (BitCounts : Nat → Int)
    (hinit : ∀ i, i ≤ 0xFFFF → countSetBits i = some (BitCounts i))
    (bb : Nat) (hbb : bb < 2 ^ 64) :
    countSetBits bb = some (popcount BitCounts bb)
      ∧ popcount BitCounts bb = ((setBits bb).length : Int)
      ∧ bb >>> 0 &&& 0xFFFF ≤ 0xFFFF ∧ bb >>> 16 &&& 0xFFFF ≤ 0xFFFF
      ∧ bb >>> 32 &&& 0xFFFF ≤ 0xFFFF ∧ bb >>> 48 &&& 0xFFFF ≤ 0xFFFF := by
  have h := popcount_eq BitCounts bb hbb hinit
  refine ⟨h, ?_, Nat.and_le_right, Nat.and_le_right, Nat.and_le_right, Nat.and_le_right⟩
  rw [countSetBits_eq bb hbb] at h
  exact (Option.some.inj h).symm

/-- C18, witness: with the table filled by `countSetBits`, `popcount` of
`0xF0F0F0F0F0F0F0F0` is 32. -/
theorem popcount_eq_countSetBits_witness :
    (0xF0F0F0F0F0F0F0F0 : Nat) < 2 ^ 64
      ∧ countSetBits 0xF0F0F0F0F0F0F0F0
          = some (popcount (fun i => (countSetBits i).getD 0) 0xF0F0F0F0F0F0F0F0)
      ∧ popcount (fun i => (countSetBits i).getD 0) 0xF0F0F0F0F0F0F0F0 = 32 :=
  ⟨by decide,
    (popcount_eq_countSetBits (fun i => (countSetBits i).getD 0)
      (fun i hi => by
        show countSetBits i = some ((countSetBits i).getD 0)
        rw [countSetBits_eq i (Nat.lt_of_le_of_lt hi (by decide))]
        rfl)
      0xF0F0F0F0F0F0F0F0 (by decide)).1,
    by decide⟩

/-- C11. On the standard starting position `genAllMoves` writes 20 moves, all without a
special flag, and `genAllLegalMoves` keeps every one of them: it appends exactly these 20
moves. `applyMove` and `revertMove` are any pair that undoes itself, flips the turn and
updates the piece and colour bitboards as steps 2 and 9 of section 4.G prescribe. -/
theorem startBoard_legal_moves {Undo : Type} (applyMove : Board → Nat → Board × Undo)
    (revertMove : Board → Nat → Undo → Board) (moves : List Nat)
    (hrev : ∀ m ∈ genAllMoves startBoard [],
      revertMove (applyMove startBoard m).1 m (applyMove startBoard m).2 = startBoard)
    (hflip : ∀ m ∈ genAllMoves startBoard [], (applyMove startBoard m).1.turn = !startBoard.turn)
    (hbits : ∀ m ∈ genAllMoves startBoard [],
      (applyMove startBoard m).1.pieces = (applyMoveModel startBoard m).1.pieces
        ∧ (applyMove startBoard m).1.colours = (applyMoveModel startBoard m).1.colours) :
    (genAllLegalMoves applyMove revertMove startBoard moves).2
        = moves ++ genAllMoves startBoard []
      ∧ (genAllLegalMoves applyMove revertMove startBoard moves).2.length = moves.length + 20
      ∧ (genAllMoves startBoard []).length = 20
      ∧ ∀ m ∈ genAllMoves startBoard [], MoveType m = NORMAL_MOVE := by
  have hlen : (genAllMoves startBoard []).length = 20 := by decide!
  have hmodel : (genAllMoves startBoard []).filter
      (fun m => isNotInCheck (applyMoveModel startBoard m).1 startBoard.turn)
      = genAllMoves startBoard [] := by decide!
  have h := legalLoop_eq applyMove revertMove startBoard (genAllMoves startBoard []) moves
    hrev hflip
  have hfilter : (genAllMoves startBoard []).filter
      (fun m => isNotInCheck (applyMove startBoard m).1 startBoard.turn)
      = genAllMoves startBoard [] :=
    (List.filter_congr (fun m hm =>
      isNotInCheck_congr _ _ _ (hbits m hm).1 (hbits m hm).2)).trans hmodel
  have hres : (genAllLegalMoves applyMove revertMove startBoard moves).2
      = moves ++ genAllMoves startBoard [] := by
    unfold genAllLegalMoves
    rw [h, hfilter]
  refine ⟨hres, ?_, hlen, by decide!⟩
  rw [hres, List.length_append, hlen]

/-- C11, witness: with the stand-in for `applyMove` the legal moves of the starting position
are the sixteen pawn pushes and the four knight moves. -/
theorem startBoard_legal_moves_witness :
    BoardInv startBoard
      ∧ (genAllLegalMoves applyMoveModel revertMoveModel startBoard []).2.length
          = ([] : List Nat).length + 20
      ∧ (genAllLegalMoves applyMoveModel revertMoveModel startBoard []).2
          = [MoveMake 8 16 NORMAL_MOVE, MoveMake 9 17 NORMAL_MOVE, MoveMake 10 18 NORMAL_MOVE,
             MoveMake 11 19 NORMAL_MOVE, MoveMake 12 20 NORMAL_MOVE, MoveMake 13 21 NORMAL_MOVE,
             MoveMake 14 22 NORMAL_MOVE, MoveMake 15 23 NORMAL_MOVE, MoveMake 8 24 NORMAL_MOVE,
             MoveMake 9 25 NORMAL_MOVE, MoveMake 10 26 NORMAL_MOVE, MoveMake 11 27 NORMAL_MOVE,
             MoveMake 12 28 NORMAL_MOVE, MoveMake 13 29 NORMAL_MOVE, MoveMake 14 30 NORMAL_MOVE,
             MoveMake 15 31 NORMAL_MOVE, MoveMake 1 16 NORMAL_MOVE, MoveMake 1 18 NORMAL_MOVE,
             MoveMake 6 21 NORMAL_MOVE, MoveMake 6 23 NORMAL_MOVE] :=
  ⟨by decide!,
    (startBoard_legal_moves applyMoveModel revertMoveModel [] (fun _ _ => rfl)
      (fun _ _ => rfl) (fun _ _ => ⟨rfl, rfl⟩)).2.1,
    by decide!⟩

/-- C14. For every board and either side to move, a move of `genAllMoves` or of
`genAllNoisyMoves` without the `ENPASS` flag that starts on a pawn of the side to move and
ends on a square holding an enemy piece, promoting or not, goes one rank forward, to a file
next to the file it starts from; no such capture crosses the board edge between the files A
and H. The typing of the fields and the agreement of `squares[]` with the bitboards are
assumed. -/
theorem pawn_capture_geometric (board : Board) (hT : Typed board) (hR : Redundant board)
    (m : Nat) (hm : m ∈ genAllMoves board [] ∨ m ∈ genAllNoisyMoves board [])
    (hflag : MoveType m ≠ ENPASS_MOVE)
    (hpawn : board.squares (MoveFrom m) = makePiece PAWN board.turn)
    (hcap : (board.colours (!board.turn)).testBit (MoveTo m) = true) :
    MoveFrom m < 64 ∧ MoveTo m < 64
      ∧ (board.turn = WHITE → rankOf (MoveTo m) = rankOf (MoveFrom m) + 1)
      ∧ (board.turn = BLACK → rankOf (MoveFrom m) = rankOf (MoveTo m) + 1)
      ∧ Nat.dist (fileOf (MoveFrom m)) (fileOf (MoveTo m)) = 1
      ∧ (fileOf (MoveFrom m) = 0 → fileOf (MoveTo m) = 1)
      ∧ (fileOf (MoveFrom m) = 7 → fileOf (MoveTo m) = 6) := by
  have hf : MoveFrom m < 64 := by
    rw [MoveFrom_val]; exact Nat.mod_lt _ (by decide)
  have hp := mine_of_squares board hR PAWN (by decide) _ hf hpawn
  obtain ⟨h1, h2, _, _, h5, h6, h7⟩ := capture_geometry board hT _ _
    (pawn_capture_bits board hT hR m hm hflag hp hcap)
  refine ⟨h1, h2, h5, h6, h7, ?_, ?_⟩
  · intro h0
    unfold Nat.dist at h7
    unfold fileOf at *
    omega
  · intro h0
    unfold Nat.dist at h7
    unfold fileOf at *
    omega

/-- C14, witness: in `4k3/8/8/8/8/n7/1P6/4K3 w` the pawn on b2 takes the knight on a3, from
square 9 to square 16. In `4k3/8/8/8/8/8/P6r/4K3 w` the pawn on a2 has no move to h2, and in
`4k3/R6p/8/8/8/8/8/4K3 b` the pawn on h7 has no move to a7. -/
theorem pawn_capture_geometric_witness :
    BoardInv captureEdgeBoard
      ∧ MoveMake 9 16 NORMAL_MOVE ∈ genAllMoves captureEdgeBoard []
      ∧ rankOf (MoveTo (MoveMake 9 16 NORMAL_MOVE))
          = rankOf (MoveFrom (MoveMake 9 16 NORMAL_MOVE)) + 1
      ∧ Nat.dist (fileOf (MoveFrom (MoveMake 9 16 NORMAL_MOVE)))
          (fileOf (MoveTo (MoveMake 9 16 NORMAL_MOVE))) = 1
      ∧ BoardInv captureWrapBoard
      ∧ MoveMake 8 15 NORMAL_MOVE ∉ genAllMoves captureWrapBoard []
      ∧ BoardInv captureWrapBoardBlack
      ∧ MoveMake 55 48 NORMAL_MOVE ∉ genAllMoves captureWrapBoardBlack [] :=
  ⟨by decide!, by decide!,
    (pawn_capture_geometric captureEdgeBoard (by decide!) (by decide!)
      (MoveMake 9 16 NORMAL_MOVE) (Or.inl (by decide!)) (by decide!) (by decide!)
      (by decide!)).2.2.1 rfl,
    (pawn_capture_geometric captureEdgeBoard (by decide!) (by decide!)
      (MoveMake 9 16 NORMAL_MOVE) (Or.inl (by decide!)) (by decide!) (by decide!)
      (by decide!)).2.2.2.2.1,
    by decide!, by decide!, by decide!, by decide!⟩

/-- C15, failing input: the rank masks of `src/EtherealBB/bitboards.h` are as the numbering
`square = rank * 8 + file` demands, but the file masks are mirrored: `FILE_A` has the bits
of file index 7 (squares 7, 15, ..., 63), `FILE_B` those of file index 6, and so on down to
`FILE_H`, which has the bits of file index 0 (squares 0, 8, ..., 56). -/
theorem bitboards_masks (i : Nat) :
    (EtherealBB.RANK_1.testBit i = decide (i < 64 ∧ rankOf i = 0)
      ∧ EtherealBB.RANK_2.testBit i = decide (i < 64 ∧ rankOf i = 1)
      ∧ EtherealBB.RANK_3.testBit i = decide (i < 64 ∧ rankOf i = 2)
      ∧ EtherealBB.RANK_4.testBit i = decide (i < 64 ∧ rankOf i = 3)
      ∧ EtherealBB.RANK_5.testBit i = decide (i < 64 ∧ rankOf i = 4)
      ∧ EtherealBB.RANK_6.testBit i = decide (i < 64 ∧ rankOf i = 5)
      ∧ EtherealBB.RANK_7.testBit i = decide (i < 64 ∧ rankOf i = 6)
      ∧ EtherealBB.RANK_8.testBit i = decide (i < 64 ∧ rankOf i = 7))
      ∧ (EtherealBB.FILE_A.testBit i = decide (i < 64 ∧ fileOf i = 7)
        ∧ EtherealBB.FILE_B.testBit i = decide (i < 64 ∧ fileOf i = 6)
        ∧ EtherealBB.FILE_C.testBit i = decide (i < 64 ∧ fileOf i = 5)
        ∧ EtherealBB.FILE_D.testBit i = decide (i < 64 ∧ fileOf i = 4)
        ∧ EtherealBB.FILE_E.testBit i = decide (i < 64 ∧ fileOf i = 3)
        ∧ EtherealBB.FILE_F.testBit i = decide (i < 64 ∧ fileOf i = 2)
        ∧ EtherealBB.FILE_G.testBit i = decide (i < 64 ∧ fileOf i = 1)
        ∧ EtherealBB.FILE_H.testBit i = decide (i < 64 ∧ fileOf i = 0))
      ∧ EtherealBB.FILE_A.testBit 0 = false ∧ EtherealBB.FILE_A.testBit 7 = true
      ∧ EtherealBB.FILE_H.testBit 0 = true ∧ EtherealBB.FILE_H.testBit 7 = false := by
  have r : ∀ (a b : Nat) (k : Nat), a = 8 * k → b = 8 * k + 8 →
      decide (a ≤ i ∧ i < b) = decide (i < 64 ∧ i / 8 = k) ∨ 8 ≤ k := by
    intro a b k ha hb
    by_cases hk : 8 ≤ k
    · exact Or.inr hk
    · left
      rw [decide_eq_decide]
      omega
  have r1 : decide (i < 8) = decide (i < 64 ∧ i / 8 = 0) := by
    rw [decide_eq_decide]; omega
  unfold rankOf fileOf
  rw [header_RANK_1, header_RANK_2, header_RANK_3, header_RANK_4, header_RANK_5,
    header_RANK_6, header_RANK_7, header_RANK_8, header_FILE_A, header_FILE_B,
    header_FILE_C, header_FILE_D, header_FILE_E, header_FILE_F, header_FILE_G,
    header_FILE_H]
  refine ⟨⟨r1, ?_, ?_, ?_, ?_, ?_, ?_, ?_⟩, ⟨rfl, rfl, rfl, rfl, rfl, rfl, rfl, rfl⟩,
    by decide, by decide, by decide, by decide⟩
  · exact (r 8 16 1 rfl rfl).resolve_right (by decide)
  · exact (r 16 24 2 rfl rfl).resolve_right (by decide)
  · exact (r 24 32 3 rfl rfl).resolve_right (by decide)
  · exact (r 32 40 4 rfl rfl).resolve_right (by decide)
  · exact (r 40 48 5 rfl rfl).resolve_right (by decide)
  · exact (r 48 56 6 rfl rfl).resolve_right (by decide)
  · exact (r 56 64 7 rfl rfl).resolve_right (by decide)

/-- C16. On a board with no pawn on rank 1 or rank 8, for a square `f` that holds a pawn of
the side to move the square in front of `f` is on the board, and `genAllMoves` and
identically `genAllQuietMoves` emit the double push from `f` exactly when `f` is on the home
rank (rank 2 for white, rank 7 for black) and the square in front and the target are both
empty, and the non-promoting single push from `f` exactly when the square in front is empty
and not on the last rank. -/
theorem pawn_push_emitted_iff (board : Board) (hT : Typed board) (hR : Redundant board)
    (hP : board.pieces PAWN &&& (RANK_1 ||| RANK_8) = 0) (f t : Nat) (hf : f < 64)
    (ht : t < 64) (hpawn : board.squares f = makePiece PAWN board.turn) :
    (board.turn = WHITE → f + 8 < 64
      ∧ (t = f + 16 →
        (MoveMake f t NORMAL_MOVE ∈ genAllMoves board []
          ↔ rankOf f = 1 ∧ (occupancy board).testBit (f + 8) = false
            ∧ (occupancy board).testBit t = false)
        ∧ (MoveMake f t NORMAL_MOVE ∈ genAllQuietMoves board []
          ↔ rankOf f = 1 ∧ (occupancy board).testBit (f + 8) = false
            ∧ (occupancy board).testBit t = false))
      ∧ (t = f + 8 →
        (MoveMake f t NORMAL_MOVE ∈ genAllMoves board []
          ↔ (occupancy board).testBit t = false ∧ rankOf t ≠ 7)
        ∧ (MoveMake f t NORMAL_MOVE ∈ genAllQuietMoves board []
          ↔ (occupancy board).testBit t = false ∧ rankOf t ≠ 7)))
      ∧ (board.turn = BLACK → 8 ≤ f
        ∧ (f = t + 16 →
          (MoveMake f t NORMAL_MOVE ∈ genAllMoves board []
            ↔ rankOf f = 6 ∧ (occupancy board).testBit (t + 8) = false
              ∧ (occupancy board).testBit t = false)
          ∧ (MoveMake f t NORMAL_MOVE ∈ genAllQuietMoves board []
            ↔ rankOf f = 6 ∧ (occupancy board).testBit (t + 8) = false
              ∧ (occupancy board).testBit t = false))
        ∧ (f = t + 8 →
          (MoveMake f t NORMAL_MOVE ∈ genAllMoves board []
            ↔ (occupancy board).testBit t = false ∧ rankOf t ≠ 0)
          ∧ (MoveMake f t NORMAL_MOVE ∈ genAllQuietMoves board []
            ↔ (occupancy board).testBit t = false ∧ rankOf t ≠ 0))) := by
  have hp := mine_of_squares board hR PAWN (by decide) f hf hpawn
  obtain ⟨h8, h56⟩ := pawn_not_on_edge_rank board hP f hf hp
  constructor
  · intro hw
    obtain ⟨h2, h1⟩ := pawn_push_white board hT hR hw f t hf ht hp
    exact ⟨by omega, h2, h1⟩
  · intro hb
    obtain ⟨h2, h1⟩ := pawn_push_black board hT hR hb f t hf ht hp
    exact ⟨h8, h2, h1⟩

/-- C16, witness: in `4k3/8/8/8/8/8/4P3/4K3 w` the pawn on e2 has its double push to e4, and
in `4k3/4p3/8/8/8/8/8/4K3 b` the pawn on e7 has its double push to e5. -/
theorem pawn_push_emitted_iff_witness :
    BoardInv pushBoard ∧ pushBoard.squares 12 = makePiece PAWN pushBoard.turn
      ∧ MoveMake 12 28 NORMAL_MOVE ∈ genAllMoves pushBoard []
      ∧ BoardInv pushBoardBlack
      ∧ MoveMake 52 36 NORMAL_MOVE ∈ genAllMoves pushBoardBlack [] :=
  ⟨by decide!, by decide!,
    ((((pawn_push_emitted_iff pushBoard (by decide!) (by decide!) (by decide!) 12 28
      (by decide) (by decide) (by decide!)).1 rfl).2.1 rfl).1).2
        ⟨by decide, by decide!, by decide!⟩,
    by decide!, by decide!⟩

/-- C17, counterexample: in `r3k3/8/8/8/8/8/4r3/R3K3 w Q` the query answers 0 for d1
(square 3); no black piece attacks d1. -/
theorem castleThrough_d1_not_attacked :
    squareIsAttacked castleThroughBoard WHITE 3 = false
      ∧ geometricallyAttacked castleThroughBoard WHITE 3 = false := by
  decide!

/-- C17, amended: in `r3k3/8/8/8/8/8/4r3/R3K3 w Q` d1 is not attacked; the white king on e1
(square 4) is in check from the rook on e2, and for that reason `genAllMoves` emits no
castle move. With the rook on d2 instead, `r3k3/8/8/8/8/8/3r4/R3K3 w Q`, the king is not in
check, d1 is attacked, and again no castle move is emitted. -/
theorem castleThrough_no_castle :
    BoardInv castleThroughBoard
      ∧ squareIsAttacked castleThroughBoard WHITE 3 = false
      ∧ squareIsAttacked castleThroughBoard WHITE 4 = true
      ∧ isNotInCheck castleThroughBoard WHITE = false
      ∧ (∀ m ∈ genAllMoves castleThroughBoard [], MoveType m ≠ CASTLE_MOVE)
      ∧ BoardInv castleThroughCheckBoard
      ∧ squareIsAttacked castleThroughCheckBoard WHITE 3 = true
      ∧ geometricallyAttacked castleThroughCheckBoard WHITE 3 = true
      ∧ isNotInCheck castleThroughCheckBoard WHITE = true
      ∧ (∀ m ∈ genAllMoves castleThroughCheckBoard [], MoveType m ≠ CASTLE_MOVE) := by
  decide!

/-- C19. On a board that satisfies the section-3 invariants every move of `genAllMoves`
starts on a square that holds a piece of the side to move and ends on a square that holds
no piece of the side to move, in the colour bitboard and in the occupant array alike. -/
theorem genAllMoves_moves_own_piece (board : Board) (hInv : BoardInv board) (m : Nat)
    (hm : m ∈ genAllMoves board []) :
    MoveFrom m < 64 ∧ MoveTo m < 64
      ∧ (board.colours board.turn).testBit (MoveFrom m) = true
      ∧ (board.colours board.turn).testBit (MoveTo m) = false
      ∧ (∃ t, t < 6 ∧ board.squares (MoveFrom m) = makePiece t board.turn)
      ∧ ∀ t, t < 6 → board.squares (MoveTo m) ≠ makePiece t board.turn := by
  obtain ⟨h1, h2, ⟨t, ht, h3⟩, h4⟩ := move_own_piece board hInv m hm
  refine ⟨h1, h2, friendly_of_mine board t _ h3, h4,
    ⟨t, ht, (squares_of_mine board hInv.1 hInv.2.2.2.2.1 t ht _ h3).2⟩, ?_⟩
  intro u hu hsq
  have := friendly_of_mine board u _
    (mine_of_squares board hInv.2.2.2.2.1 u hu (MoveTo m) h2 hsq)
  rw [h4] at this
  exact Bool.false_ne_true this

/-- C19, witness: the rook move e2-e3 in `4k3/4r3/8/8/8/8/4R3/4K3 w`. -/
theorem genAllMoves_moves_own_piece_witness :
    BoardInv pinnedRookBoard
      ∧ MoveMake 12 20 NORMAL_MOVE ∈ genAllMoves pinnedRookBoard []
      ∧ (pinnedRookBoard.colours pinnedRookBoard.turn).testBit
          (MoveFrom (MoveMake 12 20 NORMAL_MOVE)) = true
      ∧ (pinnedRookBoard.colours pinnedRookBoard.turn).testBit
          (MoveTo (MoveMake 12 20 NORMAL_MOVE)) = false :=
  ⟨by decide!, by decide!,
    (genAllMoves_moves_own_piece pinnedRookBoard (by decide!) (MoveMake 12 20 NORMAL_MOVE)
      (by decide!)).2.2.1,
    (genAllMoves_moves_own_piece pinnedRookBoard (by decide!) (MoveMake 12 20 NORMAL_MOVE)
      (by decide!)).2.2.2.1⟩

/-- C20. If `revertMove` undoes `applyMove` on every move `genAllMoves` emits for the
board, `genAllLegalMoves` returns the board it was given, field by field, and the entries of
the output buffer below the initial `*size` keep their values: the old list is a prefix of
the new one. -/
theorem genAllLegalMoves_frame {Undo : Type} (applyMove : Board → Nat → Board × Undo)
    (revertMove : Board → Nat → Undo → Board) (board : Board) (moves : List Nat)
    (hrev : ∀ m ∈ genAllMoves board [],
      revertMove (applyMove board m).1 m (applyMove board m).2 = board) :
    (genAllLegalMoves applyMove revertMove board moves).1 = board
      ∧ ((genAllLegalMoves applyMove revertMove board moves).1.pieces = board.pieces
        ∧ (genAllLegalMoves applyMove revertMove board moves).1.colours = board.colours
        ∧ (genAllLegalMoves applyMove revertMove board moves).1.squares = board.squares
        ∧ (genAllLegalMoves applyMove revertMove board moves).1.turn = board.turn
        ∧ (genAllLegalMoves applyMove revertMove board moves).1.castleRights
            = board.castleRights
        ∧ (genAllLegalMoves applyMove revertMove board moves).1.epSquare = board.epSquare
        ∧ (genAllLegalMoves applyMove revertMove board moves).1.fiftyMoveRule
            = board.fiftyMoveRule
        ∧ (genAllLegalMoves applyMove revertMove board moves).1.hash = board.hash)
      ∧ moves <+: (genAllLegalMoves applyMove revertMove board moves).2
      ∧ moves.length ≤ (genAllLegalMoves applyMove revertMove board moves).2.length
      ∧ ∀ i, i < moves.length →
          (genAllLegalMoves applyMove revertMove board moves).2[i]? = moves[i]? := by
  obtain ⟨h1, h2⟩ := legalLoop_frame applyMove revertMove board (genAllMoves board []) moves hrev
  have h1' : (genAllLegalMoves applyMove revertMove board moves).1 = board := h1
  have h2' : moves <+: (genAllLegalMoves applyMove revertMove board moves).2 := h2
  refine ⟨h1', ?_, h2', h2'.length_le, ?_⟩
  · rw [h1']
    exact ⟨rfl, rfl, rfl, rfl, rfl, rfl, rfl, rfl⟩
  · intro i hi
    obtain ⟨extra, he⟩ := h2'
    rw [← he, List.getElem?_append_left hi]

/-- C20, witness: the starting position with three entries already in the buffer. -/
theorem genAllLegalMoves_frame_witness :
    (genAllLegalMoves applyMoveModel revertMoveModel startBoard [1, 2, 3]).1 = startBoard
      ∧ [1, 2, 3] <+: (genAllLegalMoves applyMoveModel revertMoveModel startBoard [1, 2, 3]).2
      ∧ (genAllLegalMoves applyMoveModel revertMoveModel startBoard [1, 2, 3]).2.length = 23 :=
  ⟨(genAllLegalMoves_frame applyMoveModel revertMoveModel startBoard [1, 2, 3]
      (fun _ _ => rfl)).1,
    (genAllLegalMoves_frame applyMoveModel revertMoveModel startBoard [1, 2, 3]
      (fun _ _ => rfl)).2.2.1,
    by decide!⟩

/-- C21. If `epSquare` is -1, or lies in 40..47 with white to move or in 16..23 with black
to move, every index at which the en-passant block of `genAllMoves` and `genAllNoisyMoves`
reads `board->squares` lies in 0..63: there is no read for -1, the reads for white are
`epSquare - 7` and `epSquare - 9`, in 31..40, and those for black are `epSquare + 7` and
`epSquare + 9`, in 23..32. The block is the first segment of both generated lists. -/
theorem enpass_reads_in_range (board : Board)
    (h : board.epSquare = -1
      ∨ (if board.turn = WHITE then 40 ≤ board.epSquare ∧ board.epSquare ≤ 47
         else 16 ≤ board.epSquare ∧ board.epSquare ≤ 23)) :
    (∀ i ∈ (enpassTrace board).2, 0 ≤ i ∧ i ≤ 63)
      ∧ (board.epSquare = -1 → (enpassTrace board).2 = [])
      ∧ (board.epSquare ≠ -1 → board.turn = WHITE →
          (enpassTrace board).2 = [board.epSquare - 7, board.epSquare - 9]
            ∧ 31 ≤ board.epSquare - 9 ∧ board.epSquare - 7 ≤ 40)
      ∧ (board.epSquare ≠ -1 → board.turn = BLACK →
          (enpassTrace board).2 = [board.epSquare + 7, board.epSquare + 9]
            ∧ 23 ≤ board.epSquare + 7 ∧ board.epSquare + 9 ≤ 32)
      ∧ (∃ rest, genAllMoves board [] = (enpassTrace board).1 ++ rest)
      ∧ ∃ rest, genAllNoisyMoves board [] = (enpassTrace board).1 ++ rest := by
  have hr := enpassTrace_reads board
  refine ⟨?_, ?_, ?_, ?_, ?_, ?_⟩
  · intro i hi
    rw [hr] at hi
    by_cases he : board.epSquare = -1
    · rw [if_pos he] at hi
      simp at hi
    · rw [if_neg he] at hi
      have h' := h.resolve_left he
      by_cases hw : board.turn = WHITE
      · rw [if_pos hw] at hi h'
        simp only [List.mem_cons, List.mem_singleton, List.mem_nil_iff, or_false] at hi
        omega
      · rw [if_neg hw] at hi h'
        simp only [List.mem_cons, List.mem_singleton, List.mem_nil_iff, or_false] at hi
        omega
  · intro he
    rw [hr, if_pos he]
  · intro he hw
    have h' := h.resolve_left he
    rw [if_pos hw] at h'
    rw [hr, if_neg he, if_pos hw]
    exact ⟨rfl, by omega, by omega⟩
  · intro he hb
    have hw : ¬ board.turn = WHITE := by rw [hb]; decide
    have h' := h.resolve_left he
    rw [if_neg hw] at h'
    rw [hr, if_neg he, if_neg hw]
    exact ⟨rfl, by omega, by omega⟩
  · have g := genAllMoves_eq board []
    rw [List.nil_append] at g
    simp only [List.append_assoc] at g
    rw [g, enpassTrace_moves]
    exact ⟨_, rfl⟩
  · have g := genAllNoisyMoves_eq board []
    rw [List.nil_append] at g
    simp only [List.append_assoc] at g
    rw [g, enpassTrace_moves]
    exact ⟨_, rfl⟩

/-- C21, witness: in `4k3/8/8/pP6/8/8/8/4K3 w - a6` the block reads the squares 33 and 31;
with the ill-formed `epSquare = 3` and white to move it would read the indices -4 and -6. -/
theorem enpass_reads_in_range_witness :
    (∀ i ∈ (enpassTrace enpassBoard).2, 0 ≤ i ∧ i ≤ 63)
      ∧ (enpassTrace enpassBoard).2 = [33, 31]
      ∧ (enpassTrace enpassBoard).1 = [MoveMake 33 40 ENPASS_MOVE]
      ∧ (enpassTrace strayEpBoard).2 = [-4, -6] :=
  ⟨(enpass_reads_in_range enpassBoard (Or.inr ⟨by decide, by decide⟩)).1,
    by decide!, by decide!, by decide!⟩

/-- C22. The table `LsbTable` has 64 entries and is a permutation of 0..63: each of the
values 0, ..., 63 occurs in it exactly once. -/
theorem LsbTable_permutation :
    LsbTable.length = 64
      ∧ LsbTable.Perm (List.range 64)
      ∧ LsbTable.Nodup
      ∧ (List.range 64).all (fun v => LsbTable.count v == 1) = true
      ∧ LsbTable.all (fun v => decide (v < 64)) = true := by
  refine ⟨by decide, ?_, by decide, by decide, by decide⟩
  rw [List.perm_iff_count]
  intro v
  by_cases hv : v < 64
  · have h1 : ∀ u, u < 64 → LsbTable.count u = 1 := by decide
    rw [h1 v hv, List.count_eq_one_of_mem (List.nodup_range 64) (List.mem_range.2 hv)]
  · have h1 : v ∉ LsbTable := by
      intro hm
      have h2 : ∀ u ∈ LsbTable, u < 64 := by decide
      exact hv (h2 v hm)
    have h3 : v ∉ List.range 64 := by
      rw [List.mem_range]; exact hv
    rw [List.count_eq_zero_of_not_mem h1, List.count_eq_zero_of_not_mem h3]

end Ethereal
